import Mathlib

/-!
# HackerNet: progress/trophy engine and calendar scheduler

A shallow embedding of the pure state computations of `src/js/trophies.js`,
`src/js/profile.js`, `src/js/calendar.js` and `src/js/roadmap.js`, of the gateway methods of
`src/js/data.js` with their `localStorage` fallback, and of the status handlers of
`src/js/ui.js` and `src/js/main.js`, with the properties stated about them.

Conventions of the embedding:

* a JavaScript `Set` of strings is a duplicate-free `List String` in insertion order;
* a JavaScript `Map` is a list of key/value pairs in insertion order;
* counts (`userStats.solved`) are natural numbers; the result of a division or of a product
  is the nearest double, given as the rational number it is (`toDouble`);
* a `Date` is given by its local fields; the time zone enters through the time at which a
  day starts (`dayStart`) and through the offset from UTC;
* the backend is outside the model: its answer is a parameter of the operation that awaits
  it; of the DOM, only what an operation reads or counts is kept (the state of a checkbox,
  the number of click listeners on the day buttons).
-/

namespace HackerNet

/-! ## Trophies (`src/js/trophies.js`) -/

/-- Value of a trophy's `requirement` field: a plain number for the counting trophies, an
object carrying a `count` field for the per-category ones. -/
inductive Requirement where
  | num (n : Nat)
  | obj (count : Nat)
  deriving DecidableEq, Repr

/-- A catalog trophy, with the fields of the object literals of `loadTrophies`. -/
structure Trophy where
  id : String
  name : String
  description : String
  type : String
  requirement : Requirement
  icon : String
  rarity : String
  deriving DecidableEq, Repr

/-- The `userStats` object returned by the gateway's `getUserStats`. -/
structure UserStats where
  solved : Nat
  wanted : Nat
  total : Nat
  deriving DecidableEq, Repr

/-- `Set.prototype.add` on a set kept as a list in insertion order. -/
def setAdd (s : List String) (x : String) : List String :=
  if x ∈ s then s else s ++ [x]

/-- `Set.prototype.has`. -/
def setHas (s : List String) (x : String) : Bool :=
  decide (x ∈ s)

/-- The fields of a `TrophiesManager` instance. -/
structure TrophiesManager where
  trophies : List Trophy
  userTrophies : List String
  userStats : Option UserStats
  deriving DecidableEq, Repr

/-- The catalog assigned to `this.trophies` by `loadTrophies`. -/
def trophyCatalog : List Trophy :=
  [ { id := "first_blood", name := "Primera Sangre", description := "Resuelve 1 máquina",
      type := "machine_count", requirement := .num 1, icon := "🏅", rarity := "common" },
    { id := "apprentice", name := "Aprendiz", description := "Resuelve 5 máquinas",
      type := "machine_count", requirement := .num 5, icon := "🎓", rarity := "common" },
    { id := "journeyman", name := "Viajero", description := "Resuelve 10 máquinas",
      type := "machine_count", requirement := .num 10, icon := "🧭", rarity := "uncommon" },
    { id := "pro_hacker", name := "Pro Hacker", description := "Resuelve 50 máquinas",
      type := "machine_count", requirement := .num 50, icon := "⚡", rarity := "epic" },
    { id := "elite", name := "Élite", description := "Resuelve 100 máquinas",
      type := "machine_count", requirement := .num 100, icon := "👑", rarity := "legendary" },
    { id := "guru", name := "Gurú", description := "Resuelve 200 máquinas",
      type := "machine_count", requirement := .num 200, icon := "🧞", rarity := "mythic" },
    { id := "God", name := "God Hacking", description := "Resuelve 500 máquinas",
      type := "machine_count", requirement := .num 500, icon := "👽", rarity := "GOD" } ]

/-- The method `loadTrophies`: replaces the catalog, leaves the other fields alone. -/
def loadTrophies (s : TrophiesManager) : TrophiesManager :=
  { s with trophies := trophyCatalog }

/-- The constructor's field initialisers followed by `loadTrophies` (the first step of `init`). -/
def TrophiesManager.new : TrophiesManager :=
  loadTrophies { trophies := [], userTrophies := [], userStats := none }

/-- `solvedCount >= trophy.requirement`: a number is compared as such, an object converts to
`NaN` and every comparison with it is false. -/
def geRequirement (solvedCount : Nat) : Requirement → Bool
  | .num n => decide (solvedCount ≥ n)
  | .obj _ => false

/-- `solvedCount >= trophy.requirement.count`: on a number the field is `undefined`, which
converts to `NaN`. -/
def geRequirementCount (solvedCount : Nat) : Requirement → Bool
  | .num _ => false
  | .obj k => decide (solvedCount ≥ k)

/-- The `switch (trophy.type)` of `calculateUnlockedTrophies`, giving the final `unlocked`. -/
def unlockedBySwitch (solvedCount : Nat) (trophy : Trophy) : Bool :=
  if trophy.type = "machine_count" then geRequirement solvedCount trophy.requirement
  else if trophy.type = "difficulty_count" then geRequirementCount solvedCount trophy.requirement
  else if trophy.type = "platform_count" then geRequirementCount solvedCount trophy.requirement
  else if trophy.type = "streak" ∨ trophy.type = "daily_streak" ∨ trophy.type = "speedrun" then
    false
  else false

/-- The method `calculateUnlockedTrophies`: nothing without `userStats`; otherwise every
trophy of the catalog that the switch unlocks has its id added to `userTrophies`. -/
def calculateUnlockedTrophies (s : TrophiesManager) : TrophiesManager :=
  match s.userStats with
  | none => s
  | some stats =>
    let solvedCount := stats.solved
    { s with
      userTrophies := s.trophies.foldl
        (fun acc trophy => if unlockedBySwitch solvedCount trophy then setAdd acc trophy.id else acc)
        s.userTrophies }

/-- The `switch (trophy.type)` of `checkForNewTrophies`: only `machine_count` is handled. -/
def achievedBySwitch (solved : Nat) (trophy : Trophy) : Bool :=
  if trophy.type = "machine_count" then geRequirement solved trophy.requirement else false

/-- The `for` loop of `checkForNewTrophies` over the remaining trophies: the accumulator is
the unlocked set and the list `newTrophies`. Reading `this.userStats.solved` throws when
`userStats` is missing, which is the `none` result. -/
def checkLoop (userStats : Option UserStats) :
    List Trophy → List String × List Trophy → Option (List String × List Trophy)
  | [], acc => some acc
  | trophy :: rest, (unlocked, newTrophies) =>
    if setHas unlocked trophy.id then checkLoop userStats rest (unlocked, newTrophies)
    else if trophy.type = "machine_count" then
      match userStats with
      | none => none
      | some stats =>
        if geRequirement stats.solved trophy.requirement then
          checkLoop userStats rest (setAdd unlocked trophy.id, newTrophies ++ [trophy])
        else checkLoop userStats rest (unlocked, newTrophies)
    else checkLoop userStats rest (unlocked, newTrophies)

/-- The test that makes the loop of `checkForNewTrophies` push a trophy, for a known unlocked
set `unlocked`: the id is not in the set and the switch sets `achieved`. -/
def isNewlyAchieved (unlocked : List String) (solved : Nat) (trophy : Trophy) : Bool :=
  !setHas unlocked trophy.id && achievedBySwitch solved trophy

/-- What one call of `checkForNewTrophies` produces: the manager afterwards, the returned
`newTrophies`, and the trophies passed to `showTrophyUnlockedNotification`, in order. -/
structure CheckResult where
  manager : TrophiesManager
  newTrophies : List Trophy
  notified : List Trophy
  deriving DecidableEq, Repr

/-- The method `checkForNewTrophies` (its argument `machineData` is never read). -/
def checkForNewTrophies (s : TrophiesManager) : Option CheckResult :=
  match checkLoop s.userStats s.trophies (s.userTrophies, []) with
  | none => none
  | some (unlocked, newTrophies) =>
    some { manager := { s with userTrophies := unlocked },
           newTrophies := newTrophies,
           notified := newTrophies }

/-! ## JavaScript numbers -/

/-- The integer nearest to `x`, and the even one of the two nearest when `x` lies half-way
between them: the rounding of IEEE 754 arithmetic. -/
def roundHalfEven (x : ℚ) : Int :=
  if x - (⌊x⌋ : ℚ) < 1 / 2 then ⌊x⌋
  else if 1 / 2 < x - (⌊x⌋ : ℚ) then ⌊x⌋ + 1
  else if ⌊x⌋ % 2 = 0 then ⌊x⌋ else ⌊x⌋ + 1

/-- The double nearest to the real number `x`, as a rational: `x` is scaled to an integer of
53 bits, rounded to the nearest integer (to the even one on a tie) and scaled back. This is
the result of an arithmetic operation of JavaScript whose exact result is `x`. The limits of
the exponent of a double are not part of the model: the numbers rounded below are
quotients of counts and their products with 100, far inside them. -/
def toDouble (x : ℚ) : ℚ :=
  if x = 0 then 0
  else
    (if x < 0 then -1 else 1) *
      ((roundHalfEven (|x| * (2 : ℚ) ^ (52 - Int.log 2 |x|)) : ℚ) * (2 : ℚ) ^ (Int.log 2 |x| - 52))

/-! ## User level (`src/js/profile.js`) -/

/-- The fields of a `ProfileManager` instance that the level computations read or write. -/
structure ProfileManager where
  userStats : Option UserStats
  userLevel : String
  deriving DecidableEq, Repr

/-- The constructor's initial values. -/
def ProfileManager.new : ProfileManager :=
  { userStats := none, userLevel := "Noob" }

/-- The method `calculateUserLevel`. -/
def calculateUserLevel (p : ProfileManager) : ProfileManager :=
  match p.userStats with
  | none => p
  | some stats =>
    let solved := stats.solved
    if solved ≥ 200 then { p with userLevel := "Omniscient" }
    else if solved ≥ 100 then { p with userLevel := "Guru" }
    else if solved ≥ 50 then { p with userLevel := "Elite Hacker" }
    else if solved ≥ 25 then { p with userLevel := "Pro Hacker" }
    else if solved ≥ 10 then { p with userLevel := "Hacker" }
    else { p with userLevel := "Noob" }

/-- The method `getLevelProgress`. The solved count and the thresholds are integers, which
are doubles; the quotient and the product are each rounded to a double (`toDouble`), and the
result is the double returned, as a rational. -/
def getLevelProgress (p : ProfileManager) : ℚ :=
  match p.userStats with
  | none => 0
  | some stats =>
    let solved : ℚ := stats.solved
    let threshold : Option ℚ :=
      if p.userLevel = "Noob" then some 10
      else if p.userLevel = "Hacker" then some 25
      else if p.userLevel = "Pro Hacker" then some 50
      else if p.userLevel = "Elite Hacker" then some 100
      else if p.userLevel = "Guru" then some 200
      else none
    match threshold with
    | none => 100
    | some nextLevelThreshold =>
      let progress := toDouble (toDouble (solved / nextLevelThreshold) * 100)
      min progress 100

/-- A profile whose statistics report `c` solved machines (the level field still at its
previous value `lvl`). -/
def profileWithSolved (c : Nat) (lvl : String) : ProfileManager :=
  { userStats := some { solved := c, wanted := 0, total := c }, userLevel := lvl }

/-- The level that `calculateUserLevel` leaves for a solved count `c`. -/
def levelOf (c : Nat) : String :=
  (calculateUserLevel (profileWithSolved c "Noob")).userLevel

/-- Position of a level name in the order Noob < Hacker < Pro Hacker < Elite Hacker < Guru <
Omniscient (any other string ranks below all of them together with Noob). -/
def levelRank (l : String) : Nat :=
  if l = "Omniscient" then 5
  else if l = "Guru" then 4
  else if l = "Elite Hacker" then 3
  else if l = "Pro Hacker" then 2
  else if l = "Hacker" then 1
  else 0

/-! ## JavaScript strings and numbers used by the calendar -/

/-- UTF-16 code units of one character (a surrogate pair above U+FFFF). -/
def utf16Units (c : Char) : List Nat :=
  if c.toNat < 65536 then [c.toNat]
  else [55296 + (c.toNat - 65536) / 1024, 56320 + (c.toNat - 65536) % 1024]

/-- The code units of a string: what `length` counts and the relational operators compare. -/
def codeUnits (s : String) : List Nat :=
  s.data.flatMap utf16Units

/-- Lexicographic comparison of two sequences of code units: a proper prefix is smaller,
otherwise the first position where they differ decides. -/
def unitsLt : List Nat → List Nat → Bool
  | _, [] => false
  | [], _ :: _ => true
  | a :: as, b :: bs => if a < b then true else if b < a then false else unitsLt as bs

/-- The comparison `a < b` of two strings: lexicographic on code units. -/
def jsStrLt (a b : String) : Bool :=
  unitsLt (codeUnits a) (codeUnits b)

/-- The comparison `a >= b` of two strings, which is the negation of `a < b`. -/
def jsStrGe (a b : String) : Bool :=
  !jsStrLt a b

/-- The comparison `a <= b` of two strings, which is the negation of `b < a`. -/
def jsStrLe (a b : String) : Bool :=
  !jsStrLt b a

/-- The sign of `a.localeCompare(b)`. The keys compared are date keys, made of digits and
hyphens, on which the collation order is the code-unit order; that order is used for every
string. -/
def localeCompare (a b : String) : Int :=
  if jsStrLt a b then -1 else if jsStrLt b a then 1 else 0

/-- The decimal digit character of `d < 10`. -/
def digitChar (d : Nat) : Char :=
  Char.ofNat (48 + d)

/-- Decimal digits of `n`, most significant first; `fuel` bounds the number of digits. -/
def natDigitsAux : Nat → Nat → List Char
  | 0, _ => []
  | fuel + 1, n =>
    if n < 10 then [digitChar n] else natDigitsAux fuel (n / 10) ++ [digitChar (n % 10)]

/-- `String(n)` for a natural number. -/
def natToString (n : Nat) : List Char :=
  natDigitsAux (n + 1) n

/-- `String(i)` for an integer. -/
def intToString (i : Int) : List Char :=
  if i < 0 then '-' :: natToString (-i).toNat else natToString i.toNat

/-- `s.padStart(n, c)` for a one-character filler. -/
def padStart (n : Nat) (c : Char) (s : List Char) : List Char :=
  List.replicate (n - s.length) c ++ s

/-- `s.split(sep)` for a one-character separator. -/
def splitOnChar (sep : Char) : List Char → List (List Char)
  | [] => [[]]
  | c :: cs =>
    if c = sep then [] :: splitOnChar sep cs
    else
      match splitOnChar sep cs with
      | [] => [[c]]
      | piece :: pieces => (c :: piece) :: pieces

/-- The white space that `parseInt` skips. -/
def isJSWhitespace (c : Char) : Bool :=
  c.toNat ∈ [9, 10, 11, 12, 13, 32, 160, 5760, 8192, 8193, 8194, 8195, 8196, 8197, 8198, 8199,
    8200, 8201, 8202, 8232, 8233, 8239, 8287, 12288, 65279]

/-- Whether a character is a decimal digit. -/
def isDigit (c : Char) : Bool :=
  decide (48 ≤ c.toNat ∧ c.toNat ≤ 57)

/-- Value of a run of decimal digits. -/
def digitsValue (ds : List Char) : Nat :=
  ds.foldl (fun acc c => acc * 10 + (c.toNat - 48)) 0

/-- `parseInt(s, 10)`: white space is skipped, a sign is read, then the longest run of
digits; `none` is `NaN`. -/
def parseInt (s : List Char) : Option Int :=
  let s1 := s.dropWhile isJSWhitespace
  let signed : Bool × List Char :=
    match s1 with
    | '-' :: r => (true, r)
    | '+' :: r => (false, r)
    | _ => (false, s1)
  let ds := signed.2.takeWhile isDigit
  if ds = [] then none
  else if signed.1 then some (-(digitsValue ds : Int)) else some (digitsValue ds : Int)

/-! ## Dates -/

/-- Leap years of the proleptic Gregorian calendar, which `Date` uses for every year. -/
def isLeapYear (y : Int) : Bool :=
  decide ((y % 4 = 0 ∧ y % 100 ≠ 0) ∨ y % 400 = 0)

/-- Number of days of the month `m` (0 = January) of the year `y`. -/
def daysInMonth (y : Int) (m : Nat) : Nat :=
  match m with
  | 1 => if isLeapYear y then 29 else 28
  | 3 => 30
  | 5 => 30
  | 8 => 30
  | 10 => 30
  | _ => 31

/-- A `Date` with a valid time value, by its local fields: `getFullYear()`, `getMonth()`
(0 = January), `getDate()`, and the milliseconds elapsed since local midnight. The limit of
the time value (100 million days around 1970) is not part of the model. -/
structure JSDate where
  year : Int
  month : Nat
  day : Nat
  ms : Nat
  deriving DecidableEq, Repr

/-- The local fields denote a real instant. -/
def JSDate.Valid (d : JSDate) : Prop :=
  d.month < 12 ∧ 1 ≤ d.day ∧ d.day ≤ daysInMonth d.year d.month ∧ d.ms < 86400000

instance (d : JSDate) : Decidable d.Valid := by
  unfold JSDate.Valid; infer_instance

/-- The day after `d`, same time of day. -/
def nextDay (d : JSDate) : JSDate :=
  if d.day < daysInMonth d.year d.month then { d with day := d.day + 1 }
  else if d.month < 11 then { d with month := d.month + 1, day := 1 }
  else { d with year := d.year + 1, month := 0, day := 1 }

/-- The day before `d`, same time of day. -/
def prevDay (d : JSDate) : JSDate :=
  if 1 < d.day then { d with day := d.day - 1 }
  else if 0 < d.month then
    { d with month := d.month - 1, day := daysInMonth d.year (d.month - 1) }
  else { d with year := d.year - 1, month := 11, day := 31 }

/-- The date `n` days away from `d` (before it when `n` is negative). -/
def addDays (d : JSDate) (n : Int) : JSDate :=
  if 0 ≤ n then Nat.iterate nextDay n.toNat d else Nat.iterate prevDay (-n).toNat d

/-- The abstract operation `MakeDay(year, month, date)` with the time within the day `ms`:
the month is carried into the year, and the day of the month counts on from the first of
that month, so a day beyond the month's end falls in a following month. -/
def makeDay (year month date : Int) (ms : Nat) : JSDate :=
  addDays { year := year + month / 12, month := (month % 12).toNat, day := 1, ms := ms }
    (date - 1)

/-- `new Date(y, m, d)`: the day `MakeDay` gives, at the local time that the time zone of the
environment gives to 00:00 of that day. `dayStart year month day` is that time in
milliseconds since 00:00: it is 0 on a day that has a midnight, and the length of the gap on
a day whose midnight the clocks skip (3600000 on 9 March 2025 in America/Havana, where
`new Date(2025, 2, 9)` is 01:00). A year from 0 to 99 means 1900 + year, and a `NaN` year
(`none`) gives an Invalid Date (`none`). -/
def newDate (dayStart : Int → Nat → Nat → Nat) (y : Option Int) (m d : Int) : Option JSDate :=
  match y with
  | none => none
  | some yi =>
    let yr := if 0 ≤ yi ∧ yi ≤ 99 then 1900 + yi else yi
    let day := makeDay yr m d 0
    some { day with ms := dayStart day.year day.month day.day }

/-- `date.setMonth(m)`: the year, the day of the month and the time are kept and run through
`MakeDay` with the new month. -/
def setMonth (date : JSDate) (m : Int) : JSDate :=
  makeDay date.year m date.day date.ms

/-- `date.setDate(d)`. -/
def setDate (date : JSDate) (d : Int) : JSDate :=
  makeDay date.year date.month d date.ms

/-- The year of `toISOString`: four digits from 0 to 9999, otherwise a sign and six digits. -/
def isoYear (y : Int) : List Char :=
  if 0 ≤ y ∧ y ≤ 9999 then padStart 4 '0' (natToString y.toNat)
  else (if y < 0 then '-' else '+') :: padStart 6 '0' (natToString y.natAbs)

/-- `date.toISOString()` in an environment whose local time is `utcOffsetMinutes` ahead of
UTC (60 for Madrid in winter, -300 for New York in winter): the UTC fields are printed. -/
def toISOString (utcOffsetMinutes : Int) (date : JSDate) : String :=
  let total : Int := (date.ms : Int) - utcOffsetMinutes * 60000
  let utc := addDays date (total / 86400000)
  let rem := (total % 86400000).toNat
  String.mk (isoYear utc.year ++ ['-'] ++ padStart 2 '0' (natToString (utc.month + 1)) ++ ['-']
    ++ padStart 2 '0' (natToString utc.day) ++ ['T']
    ++ padStart 2 '0' (natToString (rem / 3600000)) ++ [':']
    ++ padStart 2 '0' (natToString (rem / 60000 % 60)) ++ [':']
    ++ padStart 2 '0' (natToString (rem / 1000 % 60)) ++ ['.']
    ++ padStart 3 '0' (natToString (rem % 1000)) ++ ['Z'])

/-! ## Calendar (`src/js/calendar.js`) -/

/-- The method `formatDateKey` on a valid date. -/
def formatDateKey (date : JSDate) : String :=
  let y := intToString date.year
  let m := padStart 2 '0' (natToString (date.month + 1))
  let d := padStart 2 '0' (natToString date.day)
  String.mk (y ++ ['-'] ++ m ++ ['-'] ++ d)

/-- The value of `x || 1` for a number `x` read out of the array: a missing element
(`undefined`), `NaN` and 0 give 1. -/
def orOne (x : Option (Option Int)) : Int :=
  match x with
  | some (some v) => if v = 0 then 1 else v
  | _ => 1

/-- The method `parseDateKey`; `none` is an Invalid Date, and `dayStart` is the time zone's
start of each day (see `newDate`). -/
def parseDateKey (dayStart : Int → Nat → Nat → Nat) (key : String) : Option JSDate :=
  let parts := (splitOnChar '-' key.data).map parseInt
  let y := (parts.get? 0).join
  let m := parts.get? 1
  let d := parts.get? 2
  newDate dayStart y (orOne m - 1) (orOne d)

/-- A row of the `machines` table, with the fields of the records of `DEMO_MACHINES`; it is
also what the gateway joins to a schedule entry. -/
structure Machine where
  id : Nat
  name : String
  difficulty : String
  ip : String
  os : String
  techniques : List String
  certifications : List String
  tags : List String
  video : String
  download_ova : String
  download_docker : String
  deriving DecidableEq, Repr

/-- The `id` of a schedule entry: a number from the backend table, a string from the
fallback store. -/
inductive EntryId where
  | num (n : Int)
  | str (s : String)
  deriving DecidableEq, Repr

/-- `String(id)`. -/
def EntryId.toJSString : EntryId → String
  | .num n => String.mk (intToString n)
  | .str s => s

/-- A row of the `calendar` table as the gateway returns it; `date` is `none` when the
field is missing or not a string. -/
structure ScheduledEntry where
  id : EntryId
  machine_id : Nat
  date : Option String
  machines : Option Machine
  deriving DecidableEq, Repr

/-- The map `scheduledMachines`: date keys with their entry lists, in insertion order. -/
abbrev ScheduledMap := List (String × List ScheduledEntry)

/-- `Map.prototype.get`. -/
def mapGet (m : ScheduledMap) (key : String) : Option (List ScheduledEntry) :=
  (m.find? (fun kv => kv.1 = key)).map (·.2)

/-- `Map.prototype.has`. -/
def mapHas (m : ScheduledMap) (key : String) : Bool :=
  m.any (fun kv => kv.1 = key)

/-- `Map.prototype.delete`. -/
def mapDelete (m : ScheduledMap) (key : String) : ScheduledMap :=
  m.filter (fun kv => kv.1 ≠ key)

/-- The keys of a map are pairwise distinct, as in every `Map`. -/
def NodupKeys (m : ScheduledMap) : Prop :=
  (m.map (·.1)).Nodup

/-- No key of the map holds an empty list. -/
def NoEmptyBucket (m : ScheduledMap) : Prop :=
  ∀ kv ∈ m, kv.2 ≠ []

instance (m : ScheduledMap) : Decidable (NodupKeys m) := by
  unfold NodupKeys; infer_instance

instance (m : ScheduledMap) : Decidable (NoEmptyBucket m) := by
  unfold NoEmptyBucket; infer_instance

/-- The signed-in user as `authManager.getCurrentUser()` returns it. -/
structure User where
  id : String
  deriving DecidableEq, Repr

/-- The fields of a `CalendarManager` instance. -/
structure CalendarManager where
  currentDate : JSDate
  selectedDate : Option JSDate
  scheduledMachines : ScheduledMap
  dayViewDate : JSDate
  deriving DecidableEq, Repr

/-- The constructor's field initialisers, `now` being the value of `new Date()`. -/
def CalendarManager.new (now : JSDate) : CalendarManager :=
  { currentDate := now, selectedDate := none, scheduledMachines := [], dayViewDate := now }

/-- `formatDateKey` on any `Date`: an Invalid Date has `NaN` fields, printed as such (the
three-character "NaN" is not padded). -/
def formatDateKeyD (date : Option JSDate) : String :=
  match date with
  | none => "NaN-NaN-NaN"
  | some d => formatDateKey d

/-- `Map.prototype.set`: the value of a present key is replaced where it stands, a new key
goes last. -/
def mapSet (m : ScheduledMap) (key : String) (v : List ScheduledEntry) : ScheduledMap :=
  if mapHas m key then m.map (fun kv => if kv.1 = key then (kv.1, v) else kv)
  else m ++ [(key, v)]

/-- The statement `map.get(key).push(item)`, the key being present. -/
def mapPush (m : ScheduledMap) (key : String) (item : ScheduledEntry) : ScheduledMap :=
  m.map (fun kv => if kv.1 = key then (kv.1, kv.2 ++ [item]) else kv)

/-- The `dateKey` that `loadScheduledMachines` computes for a returned entry. `dateParse` is
`new Date(string)`, whose reading of a string that is not a date is left to the engine. -/
def entryDateKey (dateParse : String → Option JSDate) (item : ScheduledEntry) : String :=
  match item.date with
  | some s =>
    if s ≠ "" ∧ (codeUnits s).length = 10 then s else formatDateKeyD (dateParse s)
  | none => formatDateKeyD (dateParse "")

/-- The body of the `forEach` of `loadScheduledMachines` for one entry. -/
def insertEntry (dateParse : String → Option JSDate) (m : ScheduledMap)
    (item : ScheduledEntry) : ScheduledMap :=
  let dateKey := entryDateKey dateParse item
  let m1 := if !mapHas m dateKey then mapSet m dateKey [] else m
  mapPush m1 dateKey item

/-- What `dataManager.getScheduledMachines` did: it threw, it answered `success: false`, or
it answered `success: true` with `data` (`none` when `data` is not an array). -/
inductive ScheduleAnswer where
  | threw
  | failure
  | success (data : Option (List ScheduledEntry))
  deriving DecidableEq, Repr

/-- The state change of the method `loadScheduledMachines`, given the gateway's answer. With
`success: true` the map is cleared and refilled; a `data` that is not an array throws after
the clearing, and the `catch` only logs. -/
def loadScheduledMachines (dateParse : String → Option JSDate) (cal : CalendarManager)
    (user : Option User) (answer : ScheduleAnswer) : CalendarManager :=
  match user with
  | none => cal
  | some _ =>
    match answer with
    | .threw => cal
    | .failure => cal
    | .success none => { cal with scheduledMachines := [] }
    | .success (some data) =>
      { cal with scheduledMachines := data.foldl (insertEntry dateParse) [] }

/-- `Array.prototype.findIndex`; `none` stands for -1. -/
def findIndex {α : Type} (p : α → Bool) : List α → Option Nat
  | [] => none
  | x :: xs => if p x then some 0 else (findIndex p xs).map (· + 1)

/-- What `dataManager.deleteScheduledEntry` did. -/
inductive DeleteAnswer where
  | threw
  | failure
  | success
  deriving DecidableEq, Repr

/-- The callback of the `forEach` of `unscheduleMachineById` on the entry `(key, arr)` it
visits: the first element with the id is spliced out of `arr`, and the visited key is deleted
when that leaves `arr` empty (`none`). No other entry of the map is touched. -/
def unscheduleVisit (entryId : String) (kv : String × List ScheduledEntry) :
    Option (String × List ScheduledEntry) :=
  match findIndex (fun it => decide (it.id.toJSString = entryId)) kv.2 with
  | none => some kv
  | some idx =>
    let arr := kv.2.eraseIdx idx
    if arr.length = 0 then none else some (kv.1, arr)

/-- The state change of the method `unscheduleMachineById`; `entryId` is the attribute value
read from the button (`none` for `null`). -/
def unscheduleMachineById (cal : CalendarManager) (user : Option User)
    (entryId : Option String) (answer : DeleteAnswer) : CalendarManager :=
  match user, entryId with
  | none, _ => cal
  | some _, none => cal
  | some _, some eid =>
    if eid = "" then cal
    else
      match answer with
      | .success =>
        { cal with scheduledMachines := cal.scheduledMachines.filterMap (unscheduleVisit eid) }
      | .failure => cal
      | .threw => cal

/-- The comparator of the sort of `renderUpcomingSessions`, as the order it induces: `a` is
not placed after `b`. -/
def upcomingOrder (a b : String × ScheduledEntry) : Prop :=
  localeCompare a.1 b.1 ≤ 0

instance : DecidableRel upcomingOrder := fun a b => by
  unfold upcomingOrder; infer_instance

/-- The array `upcoming` of `renderUpcomingSessions` before it is sorted. -/
def collectUpcoming (m : ScheduledMap) (todayKey : String) : List (String × ScheduledEntry) :=
  m.foldl
    (fun upcoming kv =>
      if jsStrGe kv.1 todayKey then upcoming ++ kv.2.map (fun it => (kv.1, it)) else upcoming)
    []

/-- The sessions that `renderUpcomingSessions` renders, in order, with `now` the value of
`new Date()`. `Array.prototype.sort` is stable and is taken as the stable insertion sort. -/
def renderUpcomingSessions (m : ScheduledMap) (now : JSDate) : List (String × ScheduledEntry) :=
  let todayKey := formatDateKey now
  let upcoming := List.insertionSort upcomingOrder (collectUpcoming m todayKey)
  if upcoming.length = 0 then [] else upcoming.take 10

/-- The local `dateKey` of `showScheduledMachines`: `date.toISOString().split('T')[0]`. -/
def showScheduledMachinesKey (utcOffsetMinutes : Int) (date : JSDate) : String :=
  String.mk ((splitOnChar 'T' (toISOString utcOffsetMinutes date).data).headD [])

/-- The method `showScheduledMachines`: the list `scheduled` it looks up, for which the
notification is shown when it is not empty. -/
def showScheduledMachines (utcOffsetMinutes : Int) (cal : CalendarManager) (date : JSDate) :
    List ScheduledEntry :=
  (mapGet cal.scheduledMachines (showScheduledMachinesKey utcOffsetMinutes date)).getD []

/-- The two range bounds that `getScheduledMachinesRange` passes to the gateway. -/
def getScheduledMachinesRange (utcOffsetMinutes : Int) (startDate endDate : JSDate) :
    String × String :=
  (String.mk ((splitOnChar 'T' (toISOString utcOffsetMinutes startDate).data).headD []),
   String.mk ((splitOnChar 'T' (toISOString utcOffsetMinutes endDate).data).headD []))

/-- The method `renderDayView`: the list `scheduled` it looks up for the day-view date. -/
def renderDayView (cal : CalendarManager) : List ScheduledEntry :=
  (mapGet cal.scheduledMachines (formatDateKey cal.dayViewDate)).getD []

/-- The click handler of `.prev-month` and `#full-prev-month` up to its call of
`loadScheduledMachines`. -/
def onPrevMonthClick (cal : CalendarManager) : CalendarManager :=
  { cal with currentDate := setMonth cal.currentDate ((cal.currentDate.month : Int) - 1) }

/-- The click handler of `.next-month` and `#full-next-month` up to its call of
`loadScheduledMachines`. -/
def onNextMonthClick (cal : CalendarManager) : CalendarManager :=
  { cal with currentDate := setMonth cal.currentDate ((cal.currentDate.month : Int) + 1) }

/-- The events that change a `CalendarManager` after its construction: a run of
`loadScheduledMachines` or of `unscheduleMachineById` with what the gateway answered, and
the two month buttons. -/
inductive CalendarEvent where
  | load (user : Option User) (answer : ScheduleAnswer)
  | unschedule (user : Option User) (entryId : Option String) (answer : DeleteAnswer)
  | prevMonth
  | nextMonth
  deriving DecidableEq, Repr

/-- The state after one event. -/
def CalendarManager.handle (dateParse : String → Option JSDate) (cal : CalendarManager) :
    CalendarEvent → CalendarManager
  | .load user answer => loadScheduledMachines dateParse cal user answer
  | .unschedule user entryId answer => unscheduleMachineById cal user entryId answer
  | .prevMonth => onPrevMonthClick cal
  | .nextMonth => onNextMonthClick cal

/-- The state after a sequence of events. -/
def CalendarManager.run (dateParse : String → Option JSDate) (cal : CalendarManager)
    (events : List CalendarEvent) : CalendarManager :=
  events.foldl (CalendarManager.handle dateParse) cal

/-- The calendar month after `(year, month)`. -/
def monthAfter (ym : Int × Nat) : Int × Nat :=
  if ym.2 = 11 then (ym.1 + 1, 0) else (ym.1, ym.2 + 1)

/-- The calendar month before `(year, month)`. -/
def monthBefore (ym : Int × Nat) : Int × Nat :=
  if ym.2 = 0 then (ym.1 - 1, 11) else (ym.1, ym.2 - 1)

/-- The day of `a` is not after the day of `b`, in the order of the calendar (the time of
day plays no part). -/
def dayNotAfter (a b : JSDate) : Prop :=
  a.year < b.year ∨
    (a.year = b.year ∧ (a.month < b.month ∨ (a.month = b.month ∧ a.day ≤ b.day)))

instance (a b : JSDate) : Decidable (dayNotAfter a b) := by
  unfold dayNotAfter; infer_instance

/-- The code units of the text YYYY-MM-DD for the year `y` below 10000, the month `m`
(0 = January) and the day `d`. -/
def keyUnits (y m d : Nat) : List Nat :=
  [48 + y / 1000, 48 + y / 100 % 10, 48 + y / 10 % 10, 48 + y % 10, 45,
    48 + (m + 1) / 10, 48 + (m + 1) % 10, 45, 48 + d / 10, 48 + d % 10]

/-- `Math.round` on an exact rational: the nearest integer, a half going up. -/
def mathRound (x : ℚ) : Int :=
  Int.floor (x + 1 / 2)

/-- The three numbers that `updateMonthStats` writes into the sidebar. -/
structure MonthStats where
  scheduled : Nat
  completed : Nat
  successPct : Int
  deriving DecidableEq, Repr

/-- The method `updateMonthStats` (the three sidebar elements being there); `dayStart` is the
time zone's start of each day (see `newDate`). -/
def updateMonthStats (dayStart : Int → Nat → Nat → Nat) (cal : CalendarManager) :
    MonthStats :=
  let y := cal.currentDate.year
  let m : Int := cal.currentDate.month
  let startKey := formatDateKeyD (newDate dayStart (some y) m 1)
  let endKey := formatDateKeyD (newDate dayStart (some y) (m + 1) 0)
  let scheduledCount : Nat := cal.scheduledMachines.foldl
    (fun count kv =>
      if jsStrGe kv.1 startKey && jsStrLe kv.1 endKey then count + kv.2.length else count) 0
  let completedCount : Nat := 0
  let successPct : Int :=
    if scheduledCount > 0 then
      mathRound (toDouble (toDouble ((completedCount : ℚ) / (scheduledCount : ℚ)) * 100))
    else 0
  { scheduled := scheduledCount, completed := completedCount, successPct := successPct }

/-- The part of a date key in front of the day: the year, a hyphen, the month in two digits
and a hyphen. -/
def keyPrefix (y : Int) (m : Nat) : List Char :=
  intToString y ++ '-' :: padStart 2 '0' (natToString (m + 1)) ++ ['-']

/-! ## Gateway: the machine catalog (`src/js/data.js`) -/

/-- The constant `DEMO_MACHINES`. -/
def DEMO_MACHINES : List Machine :=
  [ { id := 1, name := "Injection", difficulty := "Muy Fácil", ip := "10.88.0.2", os := "Linux",
      techniques := ["SSH", "SQLi", "DockerLabs"], certifications := ["OSCP"],
      tags := ["Beginner", "SSH"], video := "NmDQvmCgkv8", download_ova := "",
      download_docker :=
        "https://mega.nz/file/rZlAERjY#152uP-zS7pTC0hbPaZB7aO6_puij633u4pW-jpMuctk" },
    { id := 2, name := "ICA_1", difficulty := "Fácil", ip := "192.168.1.152", os := "Linux",
      techniques := ["MYSQL", "Hydra", "VulnHub"], certifications := ["OSCP"],
      tags := ["Beginner", "SSH"], video := "", download_ova := "", download_docker := "" } ]

/-- `hay.includes(needle)` on the characters of two strings. -/
def includesChars : List Char → List Char → Bool
  | [], needle => needle.isEmpty
  | c :: cs, needle => needle.isPrefixOf (c :: cs) || includesChars cs needle

/-- `hay.includes(needle)`. -/
def jsIncludes (hay needle : String) : Bool :=
  includesChars hay.data needle.data

/-- `s.toLowerCase()`, on the letters A to Z. A character outside them never becomes one of
the letters of "relation" or "table" next to its neighbours, so the two tests made on the
result are those of the full conversion. -/
def toLowerCase (s : String) : String :=
  String.mk (s.data.map Char.toLower)

/-- An error value thrown in or returned to `getMachines`: its `message` and `code`, each
possibly missing. -/
structure BackendError where
  message : Option String
  code : Option String
  deriving DecidableEq, Repr

/-- The value of `a || b` for two strings that may be missing, `none` when both are falsy
(missing or empty). -/
def orString (a b : Option String) : Option String :=
  match a with
  | some s => if s ≠ "" then some s else (match b with
    | some t => if t ≠ "" then some t else none
    | none => none)
  | none =>
    match b with
    | some t => if t ≠ "" then some t else none
    | none => none

/-- The text `msg` of the `catch` of `getMachines`:
`(error && (error.message || error.code || '')) + ''`. -/
def errorText (error : BackendError) : String :=
  (orString error.message error.code).getD ""

/-- The test `looksLikeMissingTable` of the `catch` of `getMachines`. -/
def looksLikeMissingTable (msg : String) : Bool :=
  jsIncludes msg "42P01" || jsIncludes (toLowerCase msg) "relation" ||
    jsIncludes (toLowerCase msg) "table"

/-- The `filters` argument of `getMachines`; a field is `none` when it is not set. -/
structure Filters where
  difficulty : Option String
  os : Option String
  techniques : Option String
  tags : Option String
  search : Option String
  deriving DecidableEq, Repr

/-- A filter value that passes the test `if (filters.x)`: set and not empty. -/
def supplied (v : Option String) : Option String :=
  match v with
  | some s => if s ≠ "" then some s else none
  | none => none

/-- The query that `getMachines` builds on the table `machines`: the operators it adds and
the range it asks for. -/
structure MachinesQuery where
  eqDifficulty : Option String
  eqOs : Option String
  containsTechniques : Option (List String)
  containsTags : Option (List String)
  ilikeName : Option String
  rangeFrom : Int
  rangeTo : Int
  deriving DecidableEq, Repr

/-- The query built by `getMachines` for its arguments. -/
def buildMachinesQuery (filters : Filters) (page pageSize : Int) : MachinesQuery :=
  let fromRow := (page - 1) * pageSize
  let toRow := fromRow + pageSize - 1
  { eqDifficulty := supplied filters.difficulty,
    eqOs := supplied filters.os,
    containsTechniques := (supplied filters.techniques).map (fun t => [t]),
    containsTags := (supplied filters.tags).map (fun t => [t]),
    ilikeName := (supplied filters.search).map (fun s => "%" ++ s ++ "%"),
    rangeFrom := fromRow,
    rangeTo := toRow }

/-- What awaiting the query gives: it throws, or it resolves to `{ data, error, count }`. -/
inductive QueryResponse where
  | threw (error : BackendError)
  | answered (data : Option (List Machine)) (error : Option BackendError) (count : Option Nat)
  deriving DecidableEq, Repr

/-- The object returned by `getMachines`. -/
structure MachinesResult where
  success : Bool
  data : Option (List Machine)
  totalCount : Option Nat
  error : Option String
  deriving DecidableEq, Repr

/-- The result `{ success: true, data: demo, totalCount: demo.length }`. -/
def demoResult : MachinesResult :=
  { success := true, data := some DEMO_MACHINES, totalCount := some DEMO_MACHINES.length,
    error := none }

/-- The `catch` block of `getMachines`. -/
def getMachinesCatch (error : BackendError) : MachinesResult :=
  let msg := errorText error
  if looksLikeMissingTable msg then demoResult
  else { success := false, data := none, totalCount := none, error := error.message }

/-- The method `getMachines`; `client` is what `ensureClient` resolved to (`none` when no
client is available) as the function that runs a query. -/
def getMachines (client : Option (MachinesQuery → QueryResponse)) (filters : Filters)
    (page pageSize : Int) : MachinesResult :=
  match client with
  | none => getMachinesCatch { message := some "Supabase client no disponible", code := none }
  | some run =>
    match run (buildMachinesQuery filters page pageSize) with
    | .threw error => getMachinesCatch error
    | .answered data error count =>
      match error with
      | some e => getMachinesCatch e
      | none =>
        match data with
        | none => demoResult
        | some rows =>
          if rows.length = 0 then demoResult
          else { success := true, data := some rows, totalCount := count, error := none }

/-- A row passes the operators of a query: `eq` is equality, `contains` asks for every
listed value in the array column, and `ilike` is the pattern match of the database, given
as `ilike value pattern`. -/
def satisfiesQuery (ilike : String → String → Bool) (q : MachinesQuery) (m : Machine) : Bool :=
  (q.eqDifficulty.all (fun v => decide (m.difficulty = v))) &&
  (q.eqOs.all (fun v => decide (m.os = v))) &&
  (q.containsTechniques.all (fun l => l.all (fun t => decide (t ∈ m.techniques)))) &&
  (q.containsTags.all (fun l => l.all (fun t => decide (t ∈ m.tags)))) &&
  (q.ilikeName.all (fun p => ilike m.name p))

/-- A machine satisfies every filter that was supplied: the difficulty and the operating
system are the ones asked for, the technique and the tag are among the machine's, and the
name matches the search text anywhere (`ilike` with a `%` on both sides). -/
def satisfiesFilters (ilike : String → String → Bool) (filters : Filters) (m : Machine) : Prop :=
  (∀ v, supplied filters.difficulty = some v → m.difficulty = v) ∧
  (∀ v, supplied filters.os = some v → m.os = v) ∧
  (∀ v, supplied filters.techniques = some v → v ∈ m.techniques) ∧
  (∀ v, supplied filters.tags = some v → v ∈ m.tags) ∧
  (∀ v, supplied filters.search = some v → ilike m.name ("%" ++ v ++ "%") = true)

/-- A backend that holds the rows `table` and applies the operators of the query it is
sent, then the range. -/
def filteringBackend (ilike : String → String → Bool) (table : List Machine)
    (q : MachinesQuery) : QueryResponse :=
  let rows := table.filter (satisfiesQuery ilike q)
  .answered (some ((rows.drop q.rangeFrom.toNat).take (q.rangeTo - q.rangeFrom + 1).toNat))
    none (some rows.length)

/-! ## Schedule export (`src/js/calendar.js`) -/

/-- One element of the array `scheduleData` of `exportSchedule`. -/
structure ScheduleRow where
  date : String
  machine : String
  difficulty : String
  os : String
  deriving DecidableEq, Repr

/-- `Array.prototype.join` on an array of strings. -/
def jsJoin (sep : String) : List String → String
  | [] => ""
  | [x] => x
  | x :: y :: rest => x ++ sep ++ jsJoin sep (y :: rest)

/-- The value of `s || 'Unknown'` for a string that may be missing. -/
def orUnknown (s : Option String) : String :=
  match s with
  | some v => if v ≠ "" then v else "Unknown"
  | none => "Unknown"

/-- The array `scheduleData` that `exportSchedule` builds from the scheduled map. -/
def scheduleData (m : ScheduledMap) : List ScheduleRow :=
  m.flatMap (fun kv =>
    kv.2.map (fun item =>
      { date := kv.1,
        machine := orUnknown (item.machines.map (·.name)),
        difficulty := orUnknown (item.machines.map (·.difficulty)),
        os := orUnknown (item.machines.map (·.os)) }))

/-- The row that `convertToCSV` makes of one element: the machine name goes between double
quotes. -/
def csvRow (item : ScheduleRow) : List String :=
  [item.date, "\"" ++ item.machine ++ "\"", item.difficulty, item.os]

/-- The header row of `convertToCSV`. -/
def csvHeaders : List String :=
  ["Fecha", "Máquina", "Dificultad", "Sistema Operativo"]

/-- The method `convertToCSV`. -/
def convertToCSV (data : List ScheduleRow) : String :=
  let rows := data.map csvRow
  jsJoin "\n" ((csvHeaders :: rows).map (fun row => jsJoin "," row))

/-- The CSV text that `exportSchedule` hands to the download, `none` when there is nothing
to export (a warning is shown instead). -/
def exportSchedule (m : ScheduledMap) : Option String :=
  let data := scheduleData m
  if data.length = 0 then none else some (convertToCSV data)

/-- The lines of a text: its pieces between line feeds. -/
def csvLines (s : String) : List String :=
  (splitOnChar '\n' s.data).map String.mk

/-! ## Status actions of the view layer (`src/js/ui.js`, `src/js/main.js`) -/

/-- The state of a checkbox of a machine card. -/
structure Checkbox where
  checked : Bool
  disabled : Bool
  deriving DecidableEq, Repr

/-- A call `dataManager.updateUserMachineStatus(userId, machineId, status)`. -/
structure StatusWrite where
  userId : String
  machineId : String
  status : String
  deriving DecidableEq, Repr

/-- What a status handler did: the checkbox it was fired on (or synchronises) afterwards,
the gateway writes it made, and the notifications it showed (text and kind). -/
structure HandlerOutcome where
  checkbox : Checkbox
  writes : List StatusWrite
  notifications : List (String × String)
  deriving DecidableEq, Repr

/-- The method `handleWantedChange`, fired on `target` after the click changed its `checked`;
`gatewayOk` is the `success` of the gateway's answer. -/
def handleWantedChange (user : Option User) (machineId : String) (target : Checkbox)
    (gatewayOk : Bool) : HandlerOutcome :=
  let isWanted := target.checked
  match user with
  | none => { checkbox := target, writes := [], notifications := [] }
  | some u =>
    let status := if isWanted then "deseada" else "none"
    let write : StatusWrite := { userId := u.id, machineId := machineId, status := status }
    if gatewayOk then
      { checkbox := target, writes := [write],
        notifications :=
          [("Máquina " ++ (if isWanted then "añadida a" else "eliminada de") ++ " deseadas",
            "success")] }
    else
      { checkbox := { target with checked := !isWanted }, writes := [write],
        notifications := [("Error actualizando estado", "error")] }

/-- The method `handleSolvedChange`, fired on `target` after the click changed its `checked`;
`confirmed` is the answer to `window.confirm` and `gatewayOk` the `success` of the gateway's
answer. The refresh of the statistics and of the trophies that follows a successful write
makes no status write. -/
def handleSolvedChange (user : Option User) (machineId : String) (target : Checkbox)
    (confirmed gatewayOk : Bool) : HandlerOutcome :=
  let isSolved := target.checked
  match user with
  | none => { checkbox := target, writes := [], notifications := [] }
  | some u =>
    if !isSolved then
      { checkbox := { target with checked := true }, writes := [],
        notifications :=
          [("Una máquina marcada como resuelta no puede deshacerse.", "error")] }
    else if !confirmed then
      { checkbox := { target with checked := false }, writes := [], notifications := [] }
    else
      let write : StatusWrite := { userId := u.id, machineId := machineId, status := "resuelta" }
      if gatewayOk then
        { checkbox := { target with disabled := true }, writes := [write],
          notifications := [("Máquina marcada como resuelta", "success")] }
      else
        { checkbox := { target with checked := false }, writes := [write],
          notifications := [("Error actualizando estado", "error")] }

/-- What a handler of the modal did: the checkbox of the machine's card afterwards (`none`
when the page has no such card), the gateway writes made, and the notifications shown. -/
structure ModalOutcome where
  card : Option Checkbox
  writes : List StatusWrite
  notifications : List (String × String)
  deriving DecidableEq, Repr

/-- The click handler of the modal button `mark-wanted`, for the machine shown in the modal
(`none` when there is none). After a successful write the label of the card's wanted checkbox
is clicked, which toggles the checkbox and fires its `change` listener, `handleWantedChange`,
with the toggled state (`changeOk` is the gateway's answer to the write of that listener);
the checkbox is then forced to checked. The state of the checkbox is the one at the end of
the click handler. -/
def markWantedClick (user : Option User) (currentMachine : Option Machine)
    (card : Option Checkbox) (gatewayOk changeOk : Bool) : ModalOutcome :=
  match user, currentMachine with
  | some u, some machine =>
    let machineId := String.mk (natToString machine.id)
    let write : StatusWrite := { userId := u.id, machineId := machineId, status := "deseada" }
    if gatewayOk then
      match card with
      | none =>
        { card := none, writes := [write],
          notifications := [("Máquina marcada como deseada", "success")] }
      | some cb =>
        let toggled : Checkbox := { cb with checked := !cb.checked }
        let change := handleWantedChange (some u) machineId toggled changeOk
        { card := some { toggled with checked := true },
          writes := write :: change.writes,
          notifications := ("Máquina marcada como deseada", "success") :: change.notifications }
    else
      { card := card, writes := [write],
        notifications := [("Error al marcar como deseada", "error")] }
  | _, _ => { card := card, writes := [], notifications := [] }

/-- The click handler of the modal button `mark-solved`; the checkbox is the solved checkbox
of the machine's card, set without firing its listener. -/
def markSolvedClick (user : Option User) (currentMachine : Option Machine)
    (card : Option Checkbox) (confirmed gatewayOk : Bool) : ModalOutcome :=
  match user, currentMachine with
  | some u, some machine =>
    if !confirmed then { card := card, writes := [], notifications := [] }
    else
      let write : StatusWrite :=
        { userId := u.id, machineId := String.mk (natToString machine.id), status := "resuelta" }
      if gatewayOk then
        { card := card.map (fun _ => { checked := true, disabled := true }), writes := [write],
          notifications := [("Máquina marcada como resuelta", "success")] }
      else
        { card := card, writes := [write],
          notifications := [("Error al marcar como resuelta", "error")] }
  | _, _ => { card := card, writes := [], notifications := [] }

/-- The stored statuses, one record for each user and machine that has one. -/
abbrev StatusStore := List StatusWrite

/-- The stored status of a machine for a user. -/
def storedStatus (store : StatusStore) (userId machineId : String) : Option String :=
  (store.find? (fun r => decide (r.userId = userId ∧ r.machineId = machineId))).map (·.status)

/-- A gateway that accepts the write: the record of the user and machine is replaced. -/
def applyWrite (store : StatusStore) (w : StatusWrite) : StatusStore :=
  w :: store.filter (fun r => !decide (r.userId = w.userId ∧ r.machineId = w.machineId))

/-- The store after the gateway accepted a sequence of writes. -/
def applyWrites (store : StatusStore) (ws : List StatusWrite) : StatusStore :=
  ws.foldl applyWrite store

/-- A status action of the view layer on a machine card or on the modal. -/
inductive StatusAction where
  | wantedChange (machineId : String) (target : Checkbox)
  | solvedChange (machineId : String) (target : Checkbox) (confirmed : Bool)
  | markWanted (machine : Machine) (card : Option Checkbox)
  | markSolved (machine : Machine) (card : Option Checkbox) (confirmed : Bool)
  deriving DecidableEq, Repr

/-- The gateway writes that a status action makes for the signed-in user `user`, the
gateway accepting each of them. -/
def StatusAction.writes (user : Option User) : StatusAction → List StatusWrite
  | .wantedChange machineId target => (handleWantedChange user machineId target true).writes
  | .solvedChange machineId target confirmed =>
    (handleSolvedChange user machineId target confirmed true).writes
  | .markWanted machine card => (markWantedClick user (some machine) card true true).writes
  | .markSolved machine card confirmed =>
    (markSolvedClick user (some machine) card confirmed true).writes

/-- The store after a sequence of status actions. -/
def runStatusActions (user : Option User) (store : StatusStore) (actions : List StatusAction) :
    StatusStore :=
  actions.foldl (fun st a => applyWrites st (a.writes user)) store

/-! ## Roadmap (`src/js/roadmap.js`) -/

/-- A machine of a roadmap; `completed` is `none` when the object has no such property. -/
structure RoadmapMachine where
  id : Nat
  name : String
  difficulty : String
  ip : String
  os : String
  techniques : List String
  certifications : List String
  tags : List String
  video : String
  completed : Option Bool
  deriving DecidableEq, Repr

/-- A certification with its roadmap. -/
structure Certification where
  id : Nat
  name : String
  provider : String
  description : String
  difficulty : String
  estimatedTime : String
  machinesRequired : Nat
  machines : List RoadmapMachine
  deriving DecidableEq, Repr

/-- The fields of a `RoadmapManager` instance. -/
structure RoadmapManager where
  certifications : List Certification
  selectedCertification : Option Certification
  deriving DecidableEq, Repr

/-- The method `generateOSCPMachines`. -/
def generateOSCPMachines : List RoadmapMachine :=
  [ { id := 1, name := "Injection", difficulty := "Muy Fácil", ip := "10.88.0.2", os := "Linux",
      techniques := ["SSH", "SQLi"], certifications := ["OSCP"], tags := ["Beginner", "SSH"],
      video := "NmDQvmCgkv8", completed := none } ]

/-- The method `generateCEHMachines`. -/
def generateCEHMachines : List RoadmapMachine :=
  []

/-- The method `generateEJPTMachines`. -/
def generateEJPTMachines : List RoadmapMachine :=
  [ { id := 1, name := "Injection", difficulty := "Muy Fácil", ip := "10.88.0.2", os := "Linux",
      techniques := ["SSH", "SQLi"], certifications := ["OSCP"], tags := ["Beginner", "SSH"],
      video := "NmDQvmCgkv8", completed := none } ]

/-- The method `loadCertifications`. -/
def loadCertifications (s : RoadmapManager) : RoadmapManager :=
  { s with certifications :=
      [ { id := 1, name := "OSCP (Offensive Security Certified Professional)",
          provider := "Offensive Security",
          description := "Certificación de pentesting práctico reconocida mundialmente",
          difficulty := "Avanzado", estimatedTime := "2-3 meses", machinesRequired := 40,
          machines := generateOSCPMachines },
        { id := 2, name := "CEH (Certified Ethical Hacker)", provider := "EC-Council",
          description := "Certificación fundamental en hacking ético",
          difficulty := "Intermedio", estimatedTime := "1-2 meses", machinesRequired := 25,
          machines := generateCEHMachines },
        { id := 3, name := "eJPT (eLearnSecurity Junior Penetration Tester)",
          provider := "eLearnSecurity",
          description := "Certificación inicial perfecta para empezar en pentesting",
          difficulty := "Principiante", estimatedTime := "1 mes", machinesRequired := 15,
          machines := generateEJPTMachines } ] }

/-- The constructor followed by `loadCertifications`, as `init` runs it. -/
def RoadmapManager.new : RoadmapManager :=
  loadCertifications { certifications := [], selectedCertification := none }

/-- The state change of `selectCertification`; `certId` is `none` for `NaN`. -/
def selectCertification (s : RoadmapManager) (certId : Option Nat) : RoadmapManager :=
  { s with selectedCertification := s.certifications.find? (fun c => decide (some c.id = certId)) }

/-- The object that `calculateProgress` returns; the percentage is a double, given as a
rational. -/
structure Progress where
  completed : Nat
  total : Nat
  remaining : Int
  percentage : ℚ
  deriving DecidableEq

/-- The truth value of `m.completed`. -/
def isCompleted (m : RoadmapMachine) : Bool :=
  m.completed = some true

/-- The method `calculateProgress`. -/
def calculateProgress (s : RoadmapManager) : Progress :=
  match s.selectedCertification with
  | none => { completed := 0, total := 0, remaining := 0, percentage := 0 }
  | some cert =>
    let total := cert.machines.length
    let completed := (cert.machines.filter isCompleted).length
    let remaining : Int := (total : Int) - (completed : Int)
    let percentage : ℚ :=
      if total > 0 then toDouble (toDouble ((completed : ℚ) / (total : ℚ)) * 100) else 0
    { completed := completed, total := total, remaining := remaining, percentage := percentage }

/-- A checkbox of the roadmap: the machine id of its `data-machine-id` and its state. -/
structure RoadmapCheckbox where
  machineId : String
  checked : Bool
  deriving DecidableEq, Repr

/-- What `updateMachineProgress` did: the manager afterwards, whether the machine's element
carries the class `completed`, the progress handed to `updateProgressDisplay`, and the
notifications shown. -/
structure ProgressOutcome where
  manager : RoadmapManager
  completedClass : Bool
  displayed : Progress
  notifications : List (String × String)
  deriving DecidableEq

/-- The method `updateMachineProgress`. The class of the element follows the checkbox, the
progress is computed from the manager's fields, `saveMachineProgress` only writes to the
console, and no field of the manager is assigned. -/
def updateMachineProgress (s : RoadmapManager) (checkbox : RoadmapCheckbox) : ProgressOutcome :=
  let isCompleted := checkbox.checked
  let progress := calculateProgress s
  { manager := s,
    completedClass := isCompleted,
    displayed := progress,
    notifications :=
      if progress.percentage = 100 then
        [("¡Felicidades! Has completado todas las máquinas para " ++
            (match s.selectedCertification with
              | some cert => cert.name
              | none => ""), "success")]
      else [] }

/-! ## Gateway: user statuses, statistics and notes (`src/js/data.js`) -/

/-- What a request to the backend gave: it threw, or it answered with `data` and `error`, each
possibly `null`. -/
inductive QueryAnswer (α : Type) where
  | threw (error : BackendError)
  | answered (data : Option α) (error : Option BackendError)
  deriving DecidableEq, Repr

/-- The error thrown when `ensureClient` gives no client. -/
def noClientError : BackendError :=
  { message := some "Supabase client no disponible", code := none }

/-- The `TypeError` of reading a property of `null`; its text depends on the engine. -/
def typeError : BackendError :=
  { message := none, code := none }

/-- The value `o[k]` of a property of an object, `none` when the object has no such
property. -/
def propGet {α : Type} (o : List (Nat × α)) (k : Nat) : Option α :=
  (o.find? (fun kv => decide (kv.1 = k))).map (·.2)

/-- What a key of `localStorage` holds: a text that `JSON.parse` rejects, or the JSON text of a
value. -/
inductive Stored (α : Type) where
  | unparsable
  | json (value : α)
  deriving DecidableEq, Repr

/-- The keys of `localStorage` of one kind, each with what it holds. -/
abbrev LocalStorage (α : Type) := List (String × Stored α)

/-- `localStorage.getItem(key)`. -/
def getItem {α : Type} (ls : LocalStorage α) (key : String) : Option (Stored α) :=
  (ls.find? (fun kv => decide (kv.1 = key))).map (·.2)

/-- `localStorage.setItem(key, JSON.stringify(value))`. -/
def setItem {α : Type} (ls : LocalStorage α) (key : String) (value : α) : LocalStorage α :=
  if ls.any (fun kv => decide (kv.1 = key)) then
    ls.map (fun kv => if kv.1 = key then (key, Stored.json value) else kv)
  else ls ++ [(key, Stored.json value)]

/-- The object kept under `user_machines:<userId>`: its property names are the decimal texts
of machine ids, each given here by the id (`String(machineId)` and `Number(mid)` pass from one
to the other), with the status as value. The pairs stand in the order of their first
assignment; no result below depends on the order in which the object lists them. -/
abbrev StatusObject := List (Nat × String)

/-- The assignment `map[String(machineId)] = status`. -/
def propSet (o : StatusObject) (k : Nat) (v : String) : StatusObject :=
  if o.any (fun kv => decide (kv.1 = k)) then
    o.map (fun kv => if kv.1 = k then (k, v) else kv)
  else o ++ [(k, v)]

/-- The key `user_machines:<userId>`. -/
def userMachinesKey (userId : String) : String :=
  "user_machines:" ++ userId

/-- The value of `JSON.parse(localStorage.getItem(key) || default)`, `none` when it throws. -/
def parseItem {α : Type} (ls : LocalStorage α) (key : String) (default : α) : Option α :=
  match getItem ls key with
  | none => some default
  | some (.json v) => some v
  | some .unparsable => none

/-- A row of `user_machines` as the gateway returns it. -/
structure StatusRecord where
  status : String
  user_id : String
  machine_id : Nat
  deriving DecidableEq, Repr

/-- The object returned by the status methods of the gateway. -/
structure StatusResult where
  success : Bool
  data : Option StatusRecord
  error : Option String
  deriving DecidableEq, Repr

/-- The `catch` of `getUserMachineStatus`: the read from `localStorage`. -/
def getUserMachineStatusCatch (error : BackendError) (storage : LocalStorage StatusObject)
    (userId : String) (machineId : Nat) : StatusResult :=
  match parseItem storage (userMachinesKey userId) [] with
  | none => { success := false, data := none, error := error.message }
  | some map =>
    let status := (propGet map machineId).filter (fun s => decide (s ≠ ""))
    { success := true,
      data := status.map (fun s => { status := s, user_id := userId, machine_id := machineId }),
      error := none }

/-- The method `getUserMachineStatus`; `client` is `none` when `ensureClient` gives no client,
and otherwise the answer to the request. -/
def getUserMachineStatus (client : Option (QueryAnswer StatusRecord))
    (storage : LocalStorage StatusObject) (userId : String) (machineId : Nat) : StatusResult :=
  match client with
  | none => getUserMachineStatusCatch noClientError storage userId machineId
  | some (.threw error) => getUserMachineStatusCatch error storage userId machineId
  | some (.answered data (some error)) =>
    if error.code ≠ some "PGRST116" then
      getUserMachineStatusCatch error storage userId machineId
    else { success := true, data := data, error := none }
  | some (.answered data none) => { success := true, data := data, error := none }

/-- The `catch` of `updateUserMachineStatus`: the write to `localStorage`; `setItemOk` tells
whether `setItem` accepts the text (it throws when the quota is exceeded). -/
def updateUserMachineStatusCatch (error : BackendError) (setItemOk : Bool)
    (storage : LocalStorage StatusObject) (userId : String) (machineId : Nat) (status : String) :
    StatusResult × LocalStorage StatusObject :=
  match parseItem storage (userMachinesKey userId) [] with
  | none => ({ success := false, data := none, error := error.message }, storage)
  | some map =>
    if setItemOk then
      ({ success := true,
         data := some { user_id := userId, machine_id := machineId, status := status },
         error := none },
       setItem storage (userMachinesKey userId) (propSet map machineId status))
    else ({ success := false, data := none, error := error.message }, storage)

/-- The method `updateUserMachineStatus`, with the state of `localStorage` after it;
`readClient` is the client of the inner `getUserMachineStatus`, `writeClient` that of the
update (first component, asked when a row exists) or insert (second component). -/
def updateUserMachineStatus (readClient : Option (QueryAnswer StatusRecord))
    (writeClient : Option (QueryAnswer StatusRecord × QueryAnswer StatusRecord))
    (setItemOk : Bool) (storage : LocalStorage StatusObject) (userId : String)
    (machineId : Nat) (status : String) : StatusResult × LocalStorage StatusObject :=
  let existing := getUserMachineStatus readClient storage userId machineId
  match writeClient with
  | none => updateUserMachineStatusCatch noClientError setItemOk storage userId machineId status
  | some answers =>
    match (if existing.data.isSome then answers.1 else answers.2) with
    | .threw error =>
      updateUserMachineStatusCatch error setItemOk storage userId machineId status
    | .answered _ (some error) =>
      updateUserMachineStatusCatch error setItemOk storage userId machineId status
    | .answered data none => ({ success := true, data := data, error := none }, storage)

/-- The object returned by `getUserStats`. -/
structure StatsResult where
  success : Bool
  data : Option UserStats
  error : Option String
  deriving DecidableEq, Repr

/-- The `catch` of `getUserStats`: the count over `Object.values(map)`. -/
def getUserStatsCatch (error : BackendError) (storage : LocalStorage StatusObject)
    (userId : String) : StatsResult :=
  match parseItem storage (userMachinesKey userId) [] with
  | none => { success := false, data := none, error := error.message }
  | some map =>
    let statuses := map.map (·.2)
    let solved := (statuses.filter (fun s => decide (s = "resuelta"))).length
    let wanted := (statuses.filter (fun s => decide (s = "deseada"))).length
    { success := true, data := some { solved := solved, wanted := wanted, total := solved + wanted },
      error := none }

/-- The method `getUserStats`; the client answers the request for the solved rows and then
the one for the wanted rows (machine ids). -/
def getUserStats (client : Option (QueryAnswer (List Nat) × QueryAnswer (List Nat)))
    (storage : LocalStorage StatusObject) (userId : String) : StatsResult :=
  match client with
  | none => getUserStatsCatch noClientError storage userId
  | some (.threw error, _) => getUserStatsCatch error storage userId
  | some (.answered _ (some solvedError), _) => getUserStatsCatch solvedError storage userId
  | some (.answered _ none, .threw error) => getUserStatsCatch error storage userId
  | some (.answered _ none, .answered _ (some wantedError)) =>
    getUserStatsCatch wantedError storage userId
  | some (.answered solved none, .answered wanted none) =>
    match solved, wanted with
    | some solved, some wanted =>
      { success := true,
        data := some { solved := solved.length, wanted := wanted.length,
                       total := solved.length + wanted.length },
        error := none }
    | _, _ => getUserStatsCatch typeError storage userId

/-- The row `{ id, difficulty }` of the second request of `getSolvedByDifficulty`. -/
structure DifficultyRow where
  id : Nat
  difficulty : Option String
  deriving DecidableEq, Repr

/-- The object `counts` of `getSolvedByDifficulty`. -/
structure DifficultyCounts where
  Facil : Nat
  Media : Nat
  Dificil : Nat
  Insane : Nat
  deriving DecidableEq, Repr

/-- The body of the `forEach` of `getSolvedByDifficulty` on a machine of difficulty
`difficulty`, with `lower` for `toLowerCase`. -/
def countDifficulty (lower : String → String) (counts : DifficultyCounts)
    (difficulty : Option String) : DifficultyCounts :=
  let d := lower (difficulty.getD "")
  if jsIncludes d "fácil" || jsIncludes d "facil" then { counts with Facil := counts.Facil + 1 }
  else if jsIncludes d "media" then { counts with Media := counts.Media + 1 }
  else if jsIncludes d "difícil" || jsIncludes d "dificil" then
    { counts with Dificil := counts.Dificil + 1 }
  else if jsIncludes d "insane" then { counts with Insane := counts.Insane + 1 }
  else counts

/-- The `forEach` of `getSolvedByDifficulty` over the difficulties of the solved machines. -/
def tallyDifficulties (lower : String → String) (difficulties : List (Option String)) :
    DifficultyCounts :=
  difficulties.foldl (countDifficulty lower) { Facil := 0, Media := 0, Dificil := 0, Insane := 0 }

/-- The object returned by `getSolvedByDifficulty`. -/
structure DifficultyResult where
  success : Bool
  data : Option DifficultyCounts
  error : Option String
  deriving DecidableEq, Repr

/-- The `catch` of `getSolvedByDifficulty`: the tally over the machines of `DEMO_MACHINES`
whose id has the stored status `resuelta`. -/
def getSolvedByDifficultyCatch (error : BackendError) (storage : LocalStorage StatusObject)
    (userId : String) : DifficultyResult :=
  match parseItem storage (userMachinesKey userId) [] with
  | none => { success := false, data := none, error := error.message }
  | some map =>
    let solvedIds := (map.filter (fun kv => decide (kv.2 = "resuelta"))).map (·.1)
    let all := DEMO_MACHINES
    { success := true,
      data := some (tallyDifficulties toLowerCase
        ((all.filter (fun m => solvedIds.contains m.id)).map (fun m =>
          some m.difficulty))),
      error := none }

/-- The method `getSolvedByDifficulty`; the client answers the request for the solved rows
(machine ids) and then, for their ids, the request for the machines. -/
def getSolvedByDifficulty
    (client : Option (QueryAnswer (List Nat) × (List Nat → QueryAnswer (List DifficultyRow))))
    (storage : LocalStorage StatusObject) (userId : String) : DifficultyResult :=
  match client with
  | none => getSolvedByDifficultyCatch noClientError storage userId
  | some (.threw error, _) => getSolvedByDifficultyCatch error storage userId
  | some (.answered _ (some error), _) => getSolvedByDifficultyCatch error storage userId
  | some (.answered solved none, machinesOf) =>
    let ids := solved.getD []
    if ids.length = 0 then
      { success := true, data := some { Facil := 0, Media := 0, Dificil := 0, Insane := 0 },
        error := none }
    else
      match machinesOf ids with
      | .threw mErr => getSolvedByDifficultyCatch mErr storage userId
      | .answered _ (some mErr) => getSolvedByDifficultyCatch mErr storage userId
      | .answered machines none =>
        { success := true,
          data := some (tallyDifficulties toLowerCase ((machines.getD []).map (·.difficulty))),
          error := none }

/-- The machines of a status object whose stored status is `status`. -/
def machinesWithStatus (map : StatusObject) (status : String) : List Nat :=
  (map.map (·.1)).filter (fun k => decide (propGet map k = some status))

/-- The sum of the four counts. -/
def DifficultyCounts.sum (c : DifficultyCounts) : Nat :=
  c.Facil + c.Media + c.Dificil + c.Insane

/-- A note as the gateway returns it. -/
structure Note where
  id : String
  name : String
  content : String
  timestamp : String
  deriving DecidableEq, Repr

/-- The argument `noteData` of `addNote`. -/
structure NoteData where
  name : String
  content : String
  timestamp : String
  deriving DecidableEq, Repr

/-- The object returned by the note methods of the gateway. -/
structure NotesResult where
  success : Bool
  data : Option (List Note)
  error : Option String
  deriving DecidableEq, Repr

/-- The key `notes:<userId>:<Number(machineId)>`. -/
def notesKey (userId : String) (machineId : Nat) : String :=
  "notes:" ++ userId ++ ":" ++ String.mk (natToString machineId)

/-- The `catch` of `getMachineNotes`: the stored list as it stands. -/
def getMachineNotesCatch (error : BackendError) (storage : LocalStorage (List Note))
    (userId : String) (machineId : Nat) : NotesResult :=
  match parseItem storage (notesKey userId machineId) [] with
  | none => { success := false, data := none, error := error.message }
  | some list => { success := true, data := some list, error := none }

/-- The method `getMachineNotes`; the client answers the request, which asks for the rows in
ascending order of `timestamp`. -/
def getMachineNotes (client : Option (QueryAnswer (List Note)))
    (storage : LocalStorage (List Note)) (userId : String) (machineId : Nat) : NotesResult :=
  match client with
  | none => getMachineNotesCatch noClientError storage userId machineId
  | some (.threw error) => getMachineNotesCatch error storage userId machineId
  | some (.answered _ (some error)) => getMachineNotesCatch error storage userId machineId
  | some (.answered data none) => { success := true, data := data, error := none }

/-- The `catch` of `addNote`: the note is pushed at the end of the stored list; `id` is the
generated id. -/
def addNoteCatch (error : BackendError) (setItemOk : Bool) (id : String)
    (storage : LocalStorage (List Note)) (userId : String) (machineId : Nat)
    (noteData : NoteData) : NotesResult × LocalStorage (List Note) :=
  match parseItem storage (notesKey userId machineId) [] with
  | none => ({ success := false, data := none, error := error.message }, storage)
  | some list =>
    let toSave : Note :=
      { id := id, name := noteData.name, content := noteData.content,
        timestamp := noteData.timestamp }
    if setItemOk then
      ({ success := true, data := some [toSave], error := none },
       setItem storage (notesKey userId machineId) (list ++ [toSave]))
    else ({ success := false, data := none, error := error.message }, storage)

/-- The method `addNote`, with the state of `localStorage` after it. -/
def addNote (client : Option (QueryAnswer (List Note))) (setItemOk : Bool) (id : String)
    (storage : LocalStorage (List Note)) (userId : String) (machineId : Nat)
    (noteData : NoteData) : NotesResult × LocalStorage (List Note) :=
  match client with
  | none => addNoteCatch noClientError setItemOk id storage userId machineId noteData
  | some (.threw error) => addNoteCatch error setItemOk id storage userId machineId noteData
  | some (.answered _ (some error)) =>
    addNoteCatch error setItemOk id storage userId machineId noteData
  | some (.answered data none) => ({ success := true, data := data, error := none }, storage)

/-- The list that `loadNotes` of `src/js/notes.js` hands to `displayNotes`, which renders it
in its order: `result.data || []` of a successful answer (`none` when the answer is a
failure and nothing is rendered). -/
def loadNotes (result : NotesResult) : Option (List Note) :=
  if result.success then some (result.data.getD []) else none

/-- The seconds of a timestamp `MM:SS` accepted by `validateTimestamp`
(`/^([0-5]?[0-9]):([0-5][0-9])$/`), `none` for any other text. -/
def timestampSeconds (timestamp : String) : Option Nat :=
  match splitOnChar ':' timestamp.data with
  | [mm, ss] =>
    if (mm.length = 1 ∨ mm.length = 2) ∧ ss.length = 2 ∧ mm.all isDigit ∧ ss.all isDigit ∧
        digitsValue mm < 60 ∧ digitsValue ss < 60 then
      some (digitsValue mm * 60 + digitsValue ss)
    else none
  | _ => none

/-- A list of notes is in ascending order of in-video timestamp; a text that is not a
timestamp counts as `00:00`, as which `createNoteElement` shows a missing one. -/
def AscendingTimestamps (notes : List Note) : Prop :=
  List.Pairwise
    (fun a b => (timestampSeconds a.timestamp).getD 0 ≤ (timestampSeconds b.timestamp).getD 0)
    notes

instance (notes : List Note) : Decidable (AscendingTimestamps notes) := by
  unfold AscendingTimestamps
  infer_instance

/-! ## Calendar grid and day view (`src/js/calendar.js`) -/

/-- The number `firstWeekday` of empty cells before day 1 in the method `renderFullCalendar`,
from the value of `firstDay.getDay()`. -/
def firstWeekday (getDay : Nat) : Nat :=
  (getDay + 6) % 7

/-- The number `firstWeekdayMini` of empty cells before day 1 in `renderMiniCalendar`. -/
def firstWeekdayMini (getDay : Nat) : Nat :=
  (getDay + 6) % 7

/-- The number `blanks` of empty cells of the standalone function `renderFullCalendar`. -/
def blanks (firstDayIndex : Nat) : Int :=
  if firstDayIndex = 0 then 6 else (firstDayIndex : Int) - 1

/-- One run of the click listener that `setupEventListeners` adds to `#prev-day`.
`sameObject` tells whether `selectedDate` is the object of `dayViewDate` (they are assigned the
same `Date` by a click on a day of the full calendar and by `scheduleMachine`), in which case
it changes with it. -/
def prevDayListener (cal : CalendarManager) (sameObject : Bool) : CalendarManager :=
  let d := setDate cal.dayViewDate ((cal.dayViewDate.day : Int) - 1)
  { cal with dayViewDate := d, selectedDate := if sameObject then some d else cal.selectedDate }

/-- One run of the click listener that `setupEventListeners` adds to `#next-day`. -/
def nextDayListener (cal : CalendarManager) (sameObject : Bool) : CalendarManager :=
  let d := setDate cal.dayViewDate ((cal.dayViewDate.day : Int) + 1)
  { cal with dayViewDate := d, selectedDate := if sameObject then some d else cal.selectedDate }

/-- A `CalendarManager` on its page: whether the page has the buttons `#prev-day` and
`#next-day` and the container `#full-calendar`, and how many click listeners
`setupEventListeners` has added so far to each of the two buttons. -/
structure CalendarPage where
  cal : CalendarManager
  hasDayButtons : Bool
  hasFullCalendar : Bool
  dayListeners : Nat
  deriving DecidableEq, Repr

/-- The method `setupEventListeners`, for the day buttons: each call adds one more listener
to `#prev-day` and one more to `#next-day` when the page has them. -/
def setupEventListeners (p : CalendarPage) : CalendarPage :=
  if p.hasDayButtons then { p with dayListeners := p.dayListeners + 1 } else p

/-- The method `renderFullCalendar`, for the listeners: it returns at once without the
container, and otherwise ends with a call of `setupEventListeners`. -/
def renderFullCalendar (p : CalendarPage) : CalendarPage :=
  if p.hasFullCalendar then setupEventListeners p else p

/-- The method `loadScheduledMachines` on the page: after a successful answer whose rows
were read, the views are rendered again, `renderFullCalendar` among them. -/
def loadScheduledMachinesPage (dateParse : String → Option JSDate) (p : CalendarPage)
    (user : Option User) (answer : ScheduleAnswer) : CalendarPage :=
  let q := { p with cal := loadScheduledMachines dateParse p.cal user answer }
  match user, answer with
  | some _, .success (some _) => renderFullCalendar q
  | _, _ => q

/-- The constructor with its call of `init` on a page, `now` being the value of `new Date()`:
`setupEventListeners`, the start of `loadScheduledMachines`, `renderDayView` and
`renderFullCalendar` run at once, and the rest of `loadScheduledMachines` when the gateway
has answered. -/
def CalendarPage.new (dateParse : String → Option JSDate) (now : JSDate)
    (hasDayButtons hasFullCalendar : Bool) (user : Option User) (answer : ScheduleAnswer) :
    CalendarPage :=
  let p0 : CalendarPage :=
    { cal := CalendarManager.new now, hasDayButtons := hasDayButtons,
      hasFullCalendar := hasFullCalendar, dayListeners := 0 }
  loadScheduledMachinesPage dateParse (renderFullCalendar (setupEventListeners p0)) user answer

/-- A click on `#next-day`: every listener that `setupEventListeners` added runs, one after
the other. -/
def clickNextDay (p : CalendarPage) (sameObject : Bool) : CalendarPage :=
  { p with cal := Nat.iterate (fun cal => nextDayListener cal sameObject) p.dayListeners p.cal }

/-- A click on `#prev-day`. -/
def clickPrevDay (p : CalendarPage) (sameObject : Bool) : CalendarPage :=
  { p with cal := Nat.iterate (fun cal => prevDayListener cal sameObject) p.dayListeners p.cal }

/-- All entries of the scheduled map, in the order of the map and of its lists. -/
def allEntries (m : ScheduledMap) : List ScheduledEntry :=
  m.flatMap (·.2)

/-! ## Properties of the trophy engine -/

theorem mem_setAdd (s : List String) (x y : String) : y ∈ setAdd s x ↔ y ∈ s ∨ y = x := by
  unfold setAdd
  split
  · constructor
    · intro h; exact Or.inl h
    · rintro (h | h)
      · exact h
      · subst h; assumption
  · simp

theorem mem_foldl_setAdd (p : Trophy → Bool) (l : List Trophy) (U : List String) (y : String) :
    y ∈ l.foldl (fun acc trophy => if p trophy then setAdd acc trophy.id else acc) U ↔
      y ∈ U ∨ ∃ t ∈ l, p t = true ∧ t.id = y := by
  induction l generalizing U with
  | nil => simp
  | cons t l ih =>
    rw [List.foldl_cons, ih]
    by_cases hp : p t = true
    · simp only [hp, if_true, mem_setAdd, List.mem_cons, exists_eq_or_imp, true_and]
      constructor
      · rintro ((h | h) | h)
        · exact Or.inl h
        · exact Or.inr (Or.inl h.symm)
        · exact Or.inr (Or.inr h)
      · rintro (h | h | h)
        · exact Or.inl (Or.inl h)
        · exact Or.inl (Or.inr h.symm)
        · exact Or.inr h
    · simp [hp]

/-- On the catalog the switch of `calculateUnlockedTrophies` unlocks exactly the trophies
whose numeric requirement is at most the solved count. -/
theorem unlockedBySwitch_catalog (c : Nat) (t : Trophy) (ht : t ∈ trophyCatalog) :
    unlockedBySwitch c t = true ↔ ∃ n, t.requirement = Requirement.num n ∧ n ≤ c := by
  simp only [trophyCatalog, List.mem_cons, List.mem_singleton, List.not_mem_nil, or_false] at ht
  rcases ht with rfl | rfl | rfl | rfl | rfl | rfl | rfl <;>
    simp [unlockedBySwitch, geRequirement]

/-- C1 (as amended): on the catalog, `calculateUnlockedTrophies` with `userStats.solved = c`
leaves in the unlocked set exactly the ids that were in it before together with the ids of the
catalog trophies whose requirement is at most `c`; starting from the empty set this is exactly
the set of ids of the trophies whose requirement is at most `c`. -/
theorem calculateUnlockedTrophies_adds (U : List String) (stats : UserStats) (id : String) :
    (id ∈ (calculateUnlockedTrophies
        { trophies := trophyCatalog, userTrophies := U, userStats := some stats }).userTrophies ↔
      id ∈ U ∨ ∃ t ∈ trophyCatalog, t.id = id ∧
        ∃ n, t.requirement = Requirement.num n ∧ n ≤ stats.solved) ∧
    (id ∈ (calculateUnlockedTrophies
        { trophies := trophyCatalog, userTrophies := [], userStats := some stats }).userTrophies ↔
      ∃ t ∈ trophyCatalog, t.id = id ∧
        ∃ n, t.requirement = Requirement.num n ∧ n ≤ stats.solved) := by
  have key : ∀ V : List String,
      (id ∈ (calculateUnlockedTrophies
        { trophies := trophyCatalog, userTrophies := V, userStats := some stats }).userTrophies ↔
      id ∈ V ∨ ∃ t ∈ trophyCatalog, t.id = id ∧
        ∃ n, t.requirement = Requirement.num n ∧ n ≤ stats.solved) := by
    intro V
    simp only [calculateUnlockedTrophies]
    rw [mem_foldl_setAdd]
    constructor
    · rintro (h | ⟨t, ht, hp, hid⟩)
      · exact Or.inl h
      · exact Or.inr ⟨t, ht, hid, (unlockedBySwitch_catalog _ t ht).1 hp⟩
    · rintro (h | ⟨t, ht, hid, hn⟩)
      · exact Or.inl h
      · exact Or.inr ⟨t, ht, (unlockedBySwitch_catalog _ t ht).2 hn, hid⟩
  refine ⟨key U, ?_⟩
  have h := key []
  simpa using h

/-- C1 (as stated) fails: with "guru" already in the set and a solved count of 0, the id
"guru" is still in the set after the call although its requirement 200 exceeds 0. -/
theorem calculateUnlockedTrophies_keeps_locked :
    ¬ (∀ id : String,
        id ∈ (calculateUnlockedTrophies
          { trophies := trophyCatalog, userTrophies := ["guru"],
            userStats := some { solved := 0, wanted := 0, total := 0 } }).userTrophies ↔
        ∃ t ∈ trophyCatalog, t.id = id ∧ ∃ n, t.requirement = Requirement.num n ∧ n ≤ 0) := by
  intro h
  have hmem := (h "guru").1 (by decide)
  obtain ⟨t, ht, _, n, hn, hle⟩ := hmem
  have hn0 : n = 0 := Nat.le_zero.mp hle
  subst hn0
  simp only [trophyCatalog, List.mem_cons, List.mem_singleton, List.not_mem_nil, or_false] at ht
  rcases ht with rfl | rfl | rfl | rfl | rfl | rfl | rfl <;> simp at hn

theorem checkLoop_eq (stats : UserStats) (ts : List Trophy) (hnd : (ts.map (·.id)).Nodup)
    (U : List String) (acc : List Trophy) :
    checkLoop (some stats) ts (U, acc) =
      some (U ++ (ts.filter (isNewlyAchieved U stats.solved)).map (·.id),
            acc ++ ts.filter (isNewlyAchieved U stats.solved)) := by
  induction ts generalizing U acc with
  | nil => simp [checkLoop]
  | cons t rest ih =>
    have hnd' : (rest.map (·.id)).Nodup := (List.nodup_cons.mp hnd).2
    have hnot : ∀ t' ∈ rest, t'.id ≠ t.id := by
      intro t' ht' heq
      apply (List.nodup_cons.mp hnd).1
      exact List.mem_map.mpr ⟨t', ht', heq⟩
    unfold checkLoop
    by_cases h1 : setHas U t.id = true
    · simp [h1, ih hnd', isNewlyAchieved]
    · by_cases h2 : t.type = "machine_count"
      · by_cases h3 : geRequirement stats.solved t.requirement = true
        · have hU : setAdd U t.id = U ++ [t.id] := by
            unfold setAdd
            have : t.id ∉ U := by simpa [setHas] using h1
            simp [this]
          have hcongr : rest.filter (isNewlyAchieved (U ++ [t.id]) stats.solved) =
              rest.filter (isNewlyAchieved U stats.solved) := by
            apply List.filter_congr
            intro t' ht'
            have := hnot t' ht'
            simp [isNewlyAchieved, setHas, this]
          have hq : isNewlyAchieved U stats.solved t = true := by
            simp [isNewlyAchieved, achievedBySwitch, h1, h2, h3]
          simp [h1, h2, h3, hU, ih hnd', hcongr, hq]
        · have hq : isNewlyAchieved U stats.solved t = false := by
            simp [isNewlyAchieved, achievedBySwitch, h2, h3]
          simp [h1, h2, h3, ih hnd', hq]
      · have hq : isNewlyAchieved U stats.solved t = false := by
          simp [isNewlyAchieved, achievedBySwitch, h2]
        simp [h1, h2, ih hnd', hq]

theorem trophyCatalog_nodup : (trophyCatalog.map (·.id)).Nodup := by decide

theorem isNewlyAchieved_catalog (U : List String) (c : Nat) (t : Trophy)
    (ht : t ∈ trophyCatalog) :
    isNewlyAchieved U c t = true ↔
      t.type = "machine_count" ∧ (∃ n, t.requirement = Requirement.num n ∧ n ≤ c) ∧ t.id ∉ U := by
  simp only [trophyCatalog, List.mem_cons, List.mem_singleton, List.not_mem_nil, or_false] at ht
  rcases ht with rfl | rfl | rfl | rfl | rfl | rfl | rfl <;>
    simp [isNewlyAchieved, achievedBySwitch, geRequirement, setHas, and_comm]

/-- C5: on the catalog, for every known unlocked set `U` and every solved count,
`checkForNewTrophies` returns, in catalog order, exactly the machine_count trophies whose
requirement is at most the solved count and whose id is not in `U`, notifies each of them
once, leaves `U` followed by their ids as the unlocked set, and an immediate second call
returns no trophy and changes nothing. With `U` empty and one solved machine the result is
exactly "first_blood", and "apprentice" is not unlocked. -/
theorem checkForNewTrophies_catalog (U : List String) (stats : UserStats) :
    ∃ r, checkForNewTrophies
          { trophies := trophyCatalog, userTrophies := U, userStats := some stats } = some r ∧
      (∀ t, t ∈ r.newTrophies ↔
        t ∈ trophyCatalog ∧ t.type = "machine_count" ∧
          (∃ n, t.requirement = Requirement.num n ∧ n ≤ stats.solved) ∧ t.id ∉ U) ∧
      r.newTrophies.Sublist trophyCatalog ∧
      r.notified = r.newTrophies ∧
      r.manager.userTrophies = U ++ r.newTrophies.map (·.id) ∧
      r.manager.trophies = trophyCatalog ∧
      r.manager.userStats = some stats ∧
      (∃ r2, checkForNewTrophies r.manager = some r2 ∧
        r2.newTrophies = [] ∧ r2.notified = [] ∧ r2.manager = r.manager) ∧
      (∀ w n : Nat,
        (checkForNewTrophies
          { trophies := trophyCatalog, userTrophies := [],
            userStats := some { solved := 1, wanted := w, total := n } }).map
            (fun r1 => (r1.newTrophies.map (·.id), r1.notified.map (·.id),
              r1.manager.userTrophies, setHas r1.manager.userTrophies "apprentice")) =
          some (["first_blood"], ["first_blood"], ["first_blood"], false)) := by
  have h1 := checkLoop_eq stats trophyCatalog trophyCatalog_nodup U []
  have hr : checkForNewTrophies
      { trophies := trophyCatalog, userTrophies := U, userStats := some stats } =
      some { manager :=
              { trophies := trophyCatalog,
                userTrophies :=
                  U ++ (trophyCatalog.filter (isNewlyAchieved U stats.solved)).map (·.id),
                userStats := some stats },
             newTrophies := [] ++ trophyCatalog.filter (isNewlyAchieved U stats.solved),
             notified := [] ++ trophyCatalog.filter (isNewlyAchieved U stats.solved) } := by
    simp only [checkForNewTrophies, h1]
  refine ⟨_, hr, ?_, ?_, rfl, ?_, rfl, rfl, ?_, ?_⟩
  · intro t
    simp only [List.nil_append, List.mem_filter]
    constructor
    · rintro ⟨ht, hq⟩
      exact ⟨ht, (isNewlyAchieved_catalog U _ t ht).1 hq⟩
    · rintro ⟨ht, hq⟩
      exact ⟨ht, (isNewlyAchieved_catalog U _ t ht).2 hq⟩
  · simp only [List.nil_append]
    exact List.filter_sublist _
  · simp only [List.nil_append]
  · have h2 := checkLoop_eq stats trophyCatalog trophyCatalog_nodup
      (U ++ (trophyCatalog.filter (isNewlyAchieved U stats.solved)).map (·.id)) []
    have hempty : trophyCatalog.filter (isNewlyAchieved
        (U ++ (trophyCatalog.filter (isNewlyAchieved U stats.solved)).map (·.id))
        stats.solved) = [] := by
      rw [List.filter_eq_nil_iff]
      intro t ht hq
      simp only [isNewlyAchieved, setHas, Bool.and_eq_true, Bool.not_eq_true',
        decide_eq_false_iff_not, List.mem_append, List.mem_map, List.mem_filter, not_or,
        not_exists, not_and] at hq
      obtain ⟨⟨hU, hnew⟩, hach⟩ := hq
      exact hnew t ⟨ht, hU, hach⟩ rfl
    rw [hempty] at h2
    refine ⟨{ manager :=
              { trophies := trophyCatalog,
                userTrophies :=
                  U ++ (trophyCatalog.filter (isNewlyAchieved U stats.solved)).map (·.id),
                userStats := some stats },
              newTrophies := [], notified := [] }, ?_, rfl, rfl, rfl⟩
    simp only [checkForNewTrophies, h2, List.map_nil, List.append_nil]
  · intro w n
    rfl

/-! ## Properties of the user level -/

/-- C2: for every solved count `c` (and whatever the level was before), `calculateUserLevel`
sets 'Omniscient' if c >= 200, 'Guru' if 100 <= c < 200, 'Elite Hacker' if 50 <= c < 100,
'Pro Hacker' if 25 <= c < 50, 'Hacker' if 10 <= c < 25 and 'Noob' if c < 10; the level at
0, 10, 25, 50, 100, 200 is Noob, Hacker, Pro Hacker, Elite Hacker, Guru, Omniscient. -/
theorem calculateUserLevel_thresholds (c : Nat) (lvl : String) :
    (200 ≤ c → (calculateUserLevel (profileWithSolved c lvl)).userLevel = "Omniscient") ∧
    (100 ≤ c ∧ c < 200 → (calculateUserLevel (profileWithSolved c lvl)).userLevel = "Guru") ∧
    (50 ≤ c ∧ c < 100 →
      (calculateUserLevel (profileWithSolved c lvl)).userLevel = "Elite Hacker") ∧
    (25 ≤ c ∧ c < 50 → (calculateUserLevel (profileWithSolved c lvl)).userLevel = "Pro Hacker") ∧
    (10 ≤ c ∧ c < 25 → (calculateUserLevel (profileWithSolved c lvl)).userLevel = "Hacker") ∧
    (c < 10 → (calculateUserLevel (profileWithSolved c lvl)).userLevel = "Noob") ∧
    (calculateUserLevel (profileWithSolved 0 lvl)).userLevel = "Noob" ∧
    (calculateUserLevel (profileWithSolved 10 lvl)).userLevel = "Hacker" ∧
    (calculateUserLevel (profileWithSolved 25 lvl)).userLevel = "Pro Hacker" ∧
    (calculateUserLevel (profileWithSolved 50 lvl)).userLevel = "Elite Hacker" ∧
    (calculateUserLevel (profileWithSolved 100 lvl)).userLevel = "Guru" ∧
    (calculateUserLevel (profileWithSolved 200 lvl)).userLevel = "Omniscient" := by
  refine ⟨?_, ?_, ?_, ?_, ?_, ?_, rfl, rfl, rfl, rfl, rfl, rfl⟩
  · intro h
    simp [calculateUserLevel, profileWithSolved, h]
  · rintro ⟨h1, h2⟩
    have : ¬ 200 ≤ c := by omega
    simp [calculateUserLevel, profileWithSolved, *]
  · rintro ⟨h1, h2⟩
    have : ¬ 200 ≤ c := by omega
    have : ¬ 100 ≤ c := by omega
    simp [calculateUserLevel, profileWithSolved, *]
  · rintro ⟨h1, h2⟩
    have : ¬ 200 ≤ c := by omega
    have : ¬ 100 ≤ c := by omega
    have : ¬ 50 ≤ c := by omega
    simp [calculateUserLevel, profileWithSolved, *]
  · rintro ⟨h1, h2⟩
    have : ¬ 200 ≤ c := by omega
    have : ¬ 100 ≤ c := by omega
    have : ¬ 50 ≤ c := by omega
    have : ¬ 25 ≤ c := by omega
    simp [calculateUserLevel, profileWithSolved, *]
  · intro h
    have : ¬ 200 ≤ c := by omega
    have : ¬ 100 ≤ c := by omega
    have : ¬ 50 ≤ c := by omega
    have : ¬ 25 ≤ c := by omega
    have : ¬ 10 ≤ c := by omega
    simp [calculateUserLevel, profileWithSolved, *]

/-- The level that `calculateUserLevel` sets, by the range of the solved count. -/
theorem userLevel_ranges (c : Nat) (lvl : String) :
    (200 ≤ c → (calculateUserLevel (profileWithSolved c lvl)).userLevel = "Omniscient") ∧
    (100 ≤ c ∧ c < 200 → (calculateUserLevel (profileWithSolved c lvl)).userLevel = "Guru") ∧
    (50 ≤ c ∧ c < 100 →
      (calculateUserLevel (profileWithSolved c lvl)).userLevel = "Elite Hacker") ∧
    (25 ≤ c ∧ c < 50 → (calculateUserLevel (profileWithSolved c lvl)).userLevel = "Pro Hacker") ∧
    (10 ≤ c ∧ c < 25 → (calculateUserLevel (profileWithSolved c lvl)).userLevel = "Hacker") ∧
    (c < 10 → (calculateUserLevel (profileWithSolved c lvl)).userLevel = "Noob") := by
  simp only [calculateUserLevel, profileWithSolved, ge_iff_le]
  refine ⟨?_, ?_, ?_, ?_, ?_, ?_⟩ <;> intro h <;> split_ifs <;> first | rfl | omega

/-- The rank of the level computed for `c`, as a step function of `c`. -/
theorem levelRank_calculateUserLevel (c : Nat) (lvl : String) :
    levelRank (calculateUserLevel (profileWithSolved c lvl)).userLevel =
      if 200 ≤ c then 5 else if 100 ≤ c then 4 else if 50 ≤ c then 3
      else if 25 ≤ c then 2 else if 10 ≤ c then 1 else 0 := by
  simp only [calculateUserLevel, profileWithSolved, ge_iff_le]
  split_ifs <;> rfl

/-- C3: the level is monotonically non-decreasing in the solved count, in the order
Noob < Hacker < Pro Hacker < Elite Hacker < Guru < Omniscient, whatever the levels held
before the two computations. -/
theorem calculateUserLevel_mono (c1 c2 : Nat) (lvl1 lvl2 : String) (h : c1 ≤ c2) :
    levelRank (calculateUserLevel (profileWithSolved c1 lvl1)).userLevel ≤
      levelRank (calculateUserLevel (profileWithSolved c2 lvl2)).userLevel := by
  rw [levelRank_calculateUserLevel, levelRank_calculateUserLevel]
  split_ifs <;> omega

/-- Witness of C3 at the solved counts 24 and 25. -/
theorem calculateUserLevel_mono_witness :
    24 ≤ 25 ∧
    levelRank (calculateUserLevel (profileWithSolved 24 "Noob")).userLevel ≤
      levelRank (calculateUserLevel (profileWithSolved 25 "Hacker")).userLevel :=
  ⟨by decide, calculateUserLevel_mono 24 25 "Noob" "Hacker" (by decide)⟩

/-- The rounding moves a number by at most one half. -/
theorem roundHalfEven_sub_le (x : ℚ) : |(roundHalfEven x : ℚ) - x| ≤ 1 / 2 := by
  have h0 : (0 : ℚ) ≤ x - (⌊x⌋ : ℚ) := sub_nonneg.mpr (Int.floor_le x)
  have h1 : x - (⌊x⌋ : ℚ) < 1 := by
    have := Int.lt_floor_add_one x
    linarith
  unfold roundHalfEven
  split_ifs with ha hb hc
  · rw [abs_le]; constructor <;> linarith
  · push_cast; rw [abs_le]; constructor <;> linarith
  · rw [abs_le]; constructor <;> linarith
  · push_cast; rw [abs_le]; constructor <;> linarith

/-- An integer less than one half away from a number is its rounding. -/
theorem roundHalfEven_eq (x : ℚ) (n : Int) (h : |x - (n : ℚ)| < 1 / 2) : roundHalfEven x = n := by
  have h1 := roundHalfEven_sub_le x
  have h2 : |((roundHalfEven x - n : Int) : ℚ)| < 1 := by
    push_cast
    calc |(roundHalfEven x : ℚ) - n| = |((roundHalfEven x : ℚ) - x) + (x - n)| := by ring_nf
      _ ≤ |(roundHalfEven x : ℚ) - x| + |x - n| := abs_add _ _
      _ < 1 := by linarith
  have h3 : |roundHalfEven x - n| < 1 := by
    have : ((|roundHalfEven x - n| : Int) : ℚ) < ((1 : Int) : ℚ) := by
      rw [Int.cast_abs]; simpa using h2
    exact_mod_cast this
  have h4 : roundHalfEven x - n = 0 := Int.abs_lt_one_iff.mp h3
  omega

/-- The rounding of a number that is not negative is not negative. -/
theorem roundHalfEven_nonneg (x : ℚ) (h : 0 ≤ x) : 0 ≤ roundHalfEven x := by
  have hf : 0 ≤ ⌊x⌋ := Int.floor_nonneg.mpr h
  unfold roundHalfEven
  split_ifs <;> omega

/-- The double nearest to a positive number. -/
theorem toDouble_of_pos (x : ℚ) (hx : 0 < x) :
    toDouble x =
      (roundHalfEven (x * (2 : ℚ) ^ (52 - Int.log 2 x)) : ℚ) * (2 : ℚ) ^ (Int.log 2 x - 52) := by
  have h1 : x ≠ 0 := ne_of_gt hx
  have h2 : ¬ x < 0 := not_lt.mpr hx.le
  simp only [toDouble, h1, h2, if_false, abs_of_pos hx, one_mul]

/-- The binary exponent of a positive number lying between two powers of two. -/
theorem log_two_eq (x : ℚ) (e : Int) (hx : 0 < x) (h1 : (2 : ℚ) ^ e ≤ x)
    (h2 : x < (2 : ℚ) ^ (e + 1)) : Int.log 2 x = e := by
  have ha : e ≤ Int.log 2 x := by
    have := (Int.zpow_le_iff_le_log (b := 2) (by norm_num) hx (x := e)).mp (by exact_mod_cast h1)
    exact this
  have hb : Int.log 2 x < e + 1 := by
    have := (Int.lt_zpow_iff_log_lt (b := 2) (by norm_num) hx (x := e + 1)).mp
      (by exact_mod_cast h2)
    exact this
  omega

/-- The double nearest to a positive number, from its binary exponent `e` and the integer
`n` nearest to its 53-bit scaling. -/
theorem toDouble_eq (x : ℚ) (e n : Int) (hx : 0 < x) (h1 : (2 : ℚ) ^ e ≤ x)
    (h2 : x < (2 : ℚ) ^ (e + 1)) (hn : |x * (2 : ℚ) ^ (52 - e) - (n : ℚ)| < 1 / 2) :
    toDouble x = (n : ℚ) * (2 : ℚ) ^ (e - 52) := by
  rw [toDouble_of_pos x hx, log_two_eq x e hx h1 h2, roundHalfEven_eq _ n hn]

/-- The double nearest to a number that is not negative is not negative. -/
theorem toDouble_nonneg (x : ℚ) (hx : 0 ≤ x) : 0 ≤ toDouble x := by
  rcases eq_or_lt_of_le hx with h | h
  · simp [toDouble, ← h]
  · rw [toDouble_of_pos x h]
    apply mul_nonneg
    · exact_mod_cast roundHalfEven_nonneg _ (mul_nonneg hx (zpow_nonneg (by norm_num) _))
    · exact zpow_nonneg (by norm_num) _

/-- The double nearest to `x` differs from `x` by at most `x / 2 ^ 53`. -/
theorem toDouble_sub_le (x : ℚ) (hx : 0 ≤ x) : |toDouble x - x| ≤ x / 2 ^ 53 := by
  rcases eq_or_lt_of_le hx with h | h
  · simp [toDouble, ← h]
  · rw [toDouble_of_pos x h]
    have hlog : (2 : ℚ) ^ Int.log 2 x ≤ x := by
      have := Int.zpow_log_le_self (b := 2) (r := x) (by norm_num) h
      exact_mod_cast this
    set e := Int.log 2 x with he
    have hs : (0 : ℚ) < (2 : ℚ) ^ (e - 52) := zpow_pos (by norm_num) _
    have hinv : (2 : ℚ) ^ (52 - e) * (2 : ℚ) ^ (e - 52) = 1 := by
      rw [← zpow_add₀ (by norm_num : (2 : ℚ) ≠ 0)]
      simp
    have hr := roundHalfEven_sub_le (x * (2 : ℚ) ^ (52 - e))
    have heq : (roundHalfEven (x * (2 : ℚ) ^ (52 - e)) : ℚ) * (2 : ℚ) ^ (e - 52) - x =
        ((roundHalfEven (x * (2 : ℚ) ^ (52 - e)) : ℚ) - x * (2 : ℚ) ^ (52 - e)) *
          (2 : ℚ) ^ (e - 52) := by
      rw [sub_mul, mul_assoc, hinv, mul_one]
    rw [heq, abs_mul, abs_of_pos hs]
    have h53 : (2 : ℚ) ^ (e - 52) = (2 : ℚ) ^ e / 2 ^ 52 := by
      rw [zpow_sub₀ (by norm_num : (2 : ℚ) ≠ 0)]
      norm_num
    calc |(roundHalfEven (x * (2 : ℚ) ^ (52 - e)) : ℚ) - x * (2 : ℚ) ^ (52 - e)| *
          (2 : ℚ) ^ (e - 52) ≤ 1 / 2 * (2 : ℚ) ^ (e - 52) :=
          mul_le_mul_of_nonneg_right hr hs.le
      _ = (2 : ℚ) ^ e / 2 ^ 53 := by rw [h53]; ring
      _ ≤ x / 2 ^ 53 := by
          apply div_le_div_of_nonneg_right hlog
          positivity

/-- The rounded percentage `(c / n) * 100` of a count `c` up to `n` is within `1 / 2 ^ 45`
of the exact `100 * c / n`. -/
theorem percent_sub_le (c n : ℚ) (hc : 0 ≤ c) (hn : 0 < n) (hcn : c ≤ n) :
    |toDouble (toDouble (c / n) * 100) - 100 * c / n| ≤ 1 / 2 ^ 45 := by
  have hq0 : 0 ≤ c / n := div_nonneg hc hn.le
  have hq1 : c / n ≤ 1 := (div_le_one hn).mpr hcn
  have h1 := toDouble_sub_le (c / n) hq0
  have hd0 := toDouble_nonneg (c / n) hq0
  have h1' := abs_le.mp h1
  have hd1' : toDouble (c / n) * 100 ≤ 128 := by
    have : c / n / 2 ^ 53 ≤ 1 / 2 ^ 53 := by
      apply div_le_div_of_nonneg_right hq1
      positivity
    have h28 : (1 : ℚ) / 2 ^ 53 ≤ 28 / 100 := by norm_num
    linarith [h1'.2]
  have hp0 : 0 ≤ toDouble (c / n) * 100 := by positivity
  have h2 := toDouble_sub_le (toDouble (c / n) * 100) hp0
  have e : toDouble (toDouble (c / n) * 100) - 100 * c / n =
      (toDouble (toDouble (c / n) * 100) - toDouble (c / n) * 100) +
        100 * (toDouble (c / n) - c / n) := by ring
  rw [e]
  have ha : |100 * (toDouble (c / n) - c / n)| ≤ 100 / 2 ^ 53 := by
    rw [abs_mul, abs_of_pos (by norm_num : (0 : ℚ) < 100)]
    have : |toDouble (c / n) - c / n| ≤ 1 / 2 ^ 53 := by
      refine h1.trans ?_
      apply div_le_div_of_nonneg_right hq1
      positivity
    linarith
  have hb : |toDouble (toDouble (c / n) * 100) - toDouble (c / n) * 100| ≤ 128 / 2 ^ 53 := by
    refine h2.trans ?_
    apply div_le_div_of_nonneg_right hd1'
    positivity
  calc |(toDouble (toDouble (c / n) * 100) - toDouble (c / n) * 100) +
        100 * (toDouble (c / n) - c / n)|
      ≤ |toDouble (toDouble (c / n) * 100) - toDouble (c / n) * 100| +
        |100 * (toDouble (c / n) - c / n)| := abs_add _ _
    _ ≤ 128 / 2 ^ 53 + 100 / 2 ^ 53 := add_le_add hb ha
    _ ≤ 1 / 2 ^ 45 := by norm_num

/-- The rounded progress cut at 100 is within `1 / 2 ^ 45` of the exact progress cut
at 100. -/
theorem progress_sub_le (c n : ℚ) (hc : 0 ≤ c) (hn : 0 < n) (hcn : c ≤ n) :
    |min (toDouble (toDouble (c / n) * 100)) 100 - min 100 (100 * c / n)| ≤ 1 / 2 ^ 45 := by
  have hlip := abs_min_sub_min_le_max (toDouble (toDouble (c / n) * 100)) 100 (100 * c / n) 100
  rw [min_comm 100 (100 * c / n)]
  refine hlip.trans ?_
  simp only [sub_self, abs_zero]
  exact max_le (percent_sub_le c n hc hn hcn) (by positivity)

/-- The progress at a level with a next threshold, for the statistics of `c` solved
machines. -/
theorem getLevelProgress_eq (c : Nat) (l : String) (n : ℚ)
    (hl : (if l = "Noob" then some (10 : ℚ)
      else if l = "Hacker" then some 25
      else if l = "Pro Hacker" then some 50
      else if l = "Elite Hacker" then some 100
      else if l = "Guru" then some 200
      else none) = some n) :
    getLevelProgress { userStats := some { solved := c, wanted := 0, total := c },
                       userLevel := l } =
      min (toDouble (toDouble ((c : ℚ) / n) * 100)) 100 := by
  simp only [getLevelProgress, hl]

/-- The state after `calculateUserLevel`, from the level it set. -/
theorem calculateUserLevel_eq (c : Nat) (lvl l : String)
    (hl : (calculateUserLevel (profileWithSolved c lvl)).userLevel = l) :
    calculateUserLevel (profileWithSolved c lvl) =
      { userStats := some { solved := c, wanted := 0, total := c }, userLevel := l } := by
  have hstats : (calculateUserLevel (profileWithSolved c lvl)).userStats =
      some { solved := c, wanted := 0, total := c } := by
    simp only [calculateUserLevel, profileWithSolved]
    split_ifs <;> rfl
  cases hp : calculateUserLevel (profileWithSolved c lvl) with
  | mk us ul =>
    rw [hp] at hstats hl
    simp only at hstats hl
    rw [hstats, hl]

/-- C4 (as amended): once `calculateUserLevel` has set the level for `c`, `getLevelProgress`
is min((c / nextThreshold) * 100, 100) in double arithmetic, the quotient and the product
each rounded to the nearest double, with nextThreshold 10 below 10 solved, 25 below 25, 50
below 50, 100 below 100 and 200 below 200; it is within 1 / 2 ^ 45 of
min(100, 100 * c / nextThreshold); it is 100 from 200 solved on (Omniscient); and it lies
between 0 and 100. -/
theorem getLevelProgress_after_level (c : Nat) (lvl : String) :
    (c < 10 →
      getLevelProgress (calculateUserLevel (profileWithSolved c lvl)) =
        min (toDouble (toDouble ((c : ℚ) / 10) * 100)) 100 ∧
      |getLevelProgress (calculateUserLevel (profileWithSolved c lvl)) -
        min 100 (100 * (c : ℚ) / 10)| ≤ 1 / 2 ^ 45) ∧
    (10 ≤ c ∧ c < 25 →
      getLevelProgress (calculateUserLevel (profileWithSolved c lvl)) =
        min (toDouble (toDouble ((c : ℚ) / 25) * 100)) 100 ∧
      |getLevelProgress (calculateUserLevel (profileWithSolved c lvl)) -
        min 100 (100 * (c : ℚ) / 25)| ≤ 1 / 2 ^ 45) ∧
    (25 ≤ c ∧ c < 50 →
      getLevelProgress (calculateUserLevel (profileWithSolved c lvl)) =
        min (toDouble (toDouble ((c : ℚ) / 50) * 100)) 100 ∧
      |getLevelProgress (calculateUserLevel (profileWithSolved c lvl)) -
        min 100 (100 * (c : ℚ) / 50)| ≤ 1 / 2 ^ 45) ∧
    (50 ≤ c ∧ c < 100 →
      getLevelProgress (calculateUserLevel (profileWithSolved c lvl)) =
        min (toDouble (toDouble ((c : ℚ) / 100) * 100)) 100 ∧
      |getLevelProgress (calculateUserLevel (profileWithSolved c lvl)) -
        min 100 (100 * (c : ℚ) / 100)| ≤ 1 / 2 ^ 45) ∧
    (100 ≤ c ∧ c < 200 →
      getLevelProgress (calculateUserLevel (profileWithSolved c lvl)) =
        min (toDouble (toDouble ((c : ℚ) / 200) * 100)) 100 ∧
      |getLevelProgress (calculateUserLevel (profileWithSolved c lvl)) -
        min 100 (100 * (c : ℚ) / 200)| ≤ 1 / 2 ^ 45) ∧
    (200 ≤ c → getLevelProgress (calculateUserLevel (profileWithSolved c lvl)) = 100) ∧
    0 ≤ getLevelProgress (calculateUserLevel (profileWithSolved c lvl)) ∧
    getLevelProgress (calculateUserLevel (profileWithSolved c lvl)) ≤ 100 := by
  have hc : (0 : ℚ) ≤ (c : ℚ) := Nat.cast_nonneg c
  have hlvl := userLevel_ranges c lvl
  have hstep : ∀ (l : String) (n : Nat),
      (calculateUserLevel (profileWithSolved c lvl)).userLevel = l →
      (if l = "Noob" then some (10 : ℚ)
        else if l = "Hacker" then some 25
        else if l = "Pro Hacker" then some 50
        else if l = "Elite Hacker" then some 100
        else if l = "Guru" then some 200
        else none) = some (n : ℚ) → 0 < n → c ≤ n →
      getLevelProgress (calculateUserLevel (profileWithSolved c lvl)) =
        min (toDouble (toDouble ((c : ℚ) / n) * 100)) 100 ∧
      |getLevelProgress (calculateUserLevel (profileWithSolved c lvl)) -
        min 100 (100 * (c : ℚ) / n)| ≤ 1 / 2 ^ 45 := by
    intro l n hl hn hpos hle
    rw [calculateUserLevel_eq c lvl l hl, getLevelProgress_eq c l n hn]
    exact ⟨rfl, progress_sub_le c n hc (by exact_mod_cast hpos) (by exact_mod_cast hle)⟩
  have e1 := fun h : c < 10 => hstep "Noob" 10 (hlvl.2.2.2.2.2 h) (by decide) (by decide)
    (by omega)
  have e2 := fun h : 10 ≤ c ∧ c < 25 => hstep "Hacker" 25 (hlvl.2.2.2.2.1 h) (by decide)
    (by decide) (by omega)
  have e3 := fun h : 25 ≤ c ∧ c < 50 => hstep "Pro Hacker" 50 (hlvl.2.2.2.1 h) (by decide)
    (by decide) (by omega)
  have e4 := fun h : 50 ≤ c ∧ c < 100 => hstep "Elite Hacker" 100 (hlvl.2.2.1 h) (by decide)
    (by decide) (by omega)
  have e5 := fun h : 100 ≤ c ∧ c < 200 => hstep "Guru" 200 (hlvl.2.1 h) (by decide)
    (by decide) (by omega)
  have e6 : 200 ≤ c → getLevelProgress (calculateUserLevel (profileWithSolved c lvl)) = 100 := by
    intro h
    rw [calculateUserLevel_eq c lvl _ (hlvl.1 h)]
    simp [getLevelProgress]
  have hnn : ∀ n : Nat, 0 ≤ min (toDouble (toDouble ((c : ℚ) / (n : ℚ)) * 100)) 100 := by
    intro n
    exact le_min (toDouble_nonneg _ (mul_nonneg (toDouble_nonneg _
      (div_nonneg hc (Nat.cast_nonneg n))) (by norm_num))) (by norm_num)
  refine ⟨by simpa using e1, by simpa using e2, by simpa using e3, by simpa using e4,
    by simpa using e5, e6, ?_, ?_⟩
  · by_cases h1 : c < 10
    · rw [(e1 h1).1]; exact hnn _
    by_cases h2 : c < 25
    · rw [(e2 ⟨by omega, h2⟩).1]; exact hnn _
    by_cases h3 : c < 50
    · rw [(e3 ⟨by omega, h3⟩).1]; exact hnn _
    by_cases h4 : c < 100
    · rw [(e4 ⟨by omega, h4⟩).1]; exact hnn _
    by_cases h5 : c < 200
    · rw [(e5 ⟨by omega, h5⟩).1]; exact hnn _
    · rw [e6 (by omega)]; norm_num
  · by_cases h1 : c < 10
    · rw [(e1 h1).1]; exact min_le_right _ _
    by_cases h2 : c < 25
    · rw [(e2 ⟨by omega, h2⟩).1]; exact min_le_right _ _
    by_cases h3 : c < 50
    · rw [(e3 ⟨by omega, h3⟩).1]; exact min_le_right _ _
    by_cases h4 : c < 100
    · rw [(e4 ⟨by omega, h4⟩).1]; exact min_le_right _ _
    by_cases h5 : c < 200
    · rw [(e5 ⟨by omega, h5⟩).1]; exact min_le_right _ _
    · rw [e6 (by omega)]

/-- C4 (as stated) fails: for 14 solved machines the level is Hacker with next threshold 25;
`14 / 25` rounds to the double 5044031582654956 / 2 ^ 53, one hundred times that rounds to
7881299347898369 / 2 ^ 47, and `getLevelProgress` returns that number, 56.00000000000001,
where 100 * 14 / 25 is 56. -/
theorem getLevelProgress_at_14 :
    (calculateUserLevel (profileWithSolved 14 "Noob")).userLevel = "Hacker" ∧
    toDouble ((14 : ℚ) / 25) = 5044031582654956 / 2 ^ 53 ∧
    getLevelProgress (calculateUserLevel (profileWithSolved 14 "Noob")) = 56 + 1 / 2 ^ 47 ∧
    min (100 : ℚ) (100 * (14 : ℚ) / 25) = 56 ∧
    getLevelProgress (calculateUserLevel (profileWithSolved 14 "Noob")) ≠
      min (100 : ℚ) (100 * ((14 : Nat) : ℚ) / 25) := by
  have hl : (calculateUserLevel (profileWithSolved 14 "Noob")).userLevel = "Hacker" := by decide
  have hd1 : toDouble ((14 : ℚ) / 25) = 5044031582654956 / 2 ^ 53 := by
    rw [toDouble_eq ((14 : ℚ) / 25) (-1) 5044031582654956 (by norm_num) (by norm_num)
      (by norm_num) (by norm_num [abs_lt])]
    norm_num
  have hd2 : toDouble ((5044031582654956 : ℚ) / 2 ^ 53 * 100) = 56 + 1 / 2 ^ 47 := by
    rw [toDouble_eq ((5044031582654956 : ℚ) / 2 ^ 53 * 100) 5 7881299347898369 (by norm_num)
      (by norm_num) (by norm_num) (by norm_num [abs_lt])]
    norm_num
  have hg : getLevelProgress (calculateUserLevel (profileWithSolved 14 "Noob")) =
      56 + 1 / 2 ^ 47 := by
    rw [calculateUserLevel_eq 14 "Noob" "Hacker" hl, getLevelProgress_eq 14 "Hacker" 25 (by decide)]
    rw [show ((14 : Nat) : ℚ) = 14 by norm_num, hd1, hd2]
    norm_num
  refine ⟨hl, hd1, hg, by norm_num, ?_⟩
  rw [hg]
  norm_num

/-! ## Properties of strings and dates -/

theorem digitChar_toNat (d : Nat) (h : d < 10) : (digitChar d).toNat = 48 + d := by
  interval_cases d <;> rfl

theorem isDigit_digitChar (d : Nat) (h : d < 10) : isDigit (digitChar d) = true := by
  simp [isDigit, digitChar_toNat d h]
  omega

theorem natDigitsAux_isDigit (fuel n : Nat) : ∀ c ∈ natDigitsAux fuel n, isDigit c = true := by
  induction fuel generalizing n with
  | zero => simp [natDigitsAux]
  | succ fuel ih =>
    intro c hc
    unfold natDigitsAux at hc
    split at hc
    · rename_i h
      simp only [List.mem_singleton] at hc
      subst hc
      exact isDigit_digitChar n h
    · simp only [List.mem_append, List.mem_singleton] at hc
      rcases hc with hc | hc
      · exact ih _ c hc
      · subst hc
        exact isDigit_digitChar _ (Nat.mod_lt _ (by decide))

theorem natDigitsAux_ne_nil (fuel n : Nat) : natDigitsAux (fuel + 1) n ≠ [] := by
  unfold natDigitsAux
  split <;> simp

theorem digitsValue_append_singleton (l : List Char) (c : Char) :
    digitsValue (l ++ [c]) = digitsValue l * 10 + (c.toNat - 48) := by
  simp [digitsValue, List.foldl_append]

theorem digitsValue_natDigitsAux (fuel n : Nat) (h : n < fuel) :
    digitsValue (natDigitsAux fuel n) = n := by
  induction fuel generalizing n with
  | zero => omega
  | succ fuel ih =>
    unfold natDigitsAux
    split
    · rename_i hlt
      simp [digitsValue, digitChar_toNat n hlt]
    · rename_i hge
      rw [digitsValue_append_singleton, ih (n / 10) (by omega),
        digitChar_toNat _ (Nat.mod_lt _ (by decide))]
      omega

theorem natToString_isDigit (n : Nat) : ∀ c ∈ natToString n, isDigit c = true :=
  natDigitsAux_isDigit _ _

theorem natToString_ne_nil (n : Nat) : natToString n ≠ [] :=
  natDigitsAux_ne_nil _ _

theorem digitsValue_natToString (n : Nat) : digitsValue (natToString n) = n :=
  digitsValue_natDigitsAux _ _ (Nat.lt_succ_self n)

theorem digitsValue_zeros (k : Nat) (l : List Char) :
    digitsValue (List.replicate k '0' ++ l) = digitsValue l := by
  have h : ∀ k : Nat, List.foldl (fun acc (c : Char) => acc * 10 + (c.toNat - 48)) 0
      (List.replicate k '0') = 0 := by
    intro k
    induction k with
    | zero => rfl
    | succ k ih => rw [List.replicate_succ', List.foldl_append, ih]; rfl
  simp [digitsValue, List.foldl_append, h]

theorem padStart_isDigit (k : Nat) (l : List Char) (h : ∀ c ∈ l, isDigit c = true) :
    ∀ c ∈ padStart k '0' l, isDigit c = true := by
  intro c hc
  simp only [padStart, List.mem_append, List.mem_replicate] at hc
  rcases hc with ⟨_, rfl⟩ | hc
  · decide
  · exact h c hc

theorem padStart_ne_nil (k : Nat) (c : Char) (l : List Char) (h : l ≠ []) :
    padStart k c l ≠ [] := by
  simp [padStart, h]

theorem digitsValue_padStart (k : Nat) (l : List Char) :
    digitsValue (padStart k '0' l) = digitsValue l :=
  digitsValue_zeros _ _

/-- A run of digits is read back by `parseInt` as its value. -/
theorem parseInt_digits (l : List Char) (hne : l ≠ []) (hd : ∀ c ∈ l, isDigit c = true) :
    parseInt l = some (digitsValue l : Int) := by
  cases l with
  | nil => exact absurd rfl hne
  | cons c cs =>
    have hc : isDigit c = true := hd c (List.mem_cons_self _ _)
    have hrange : 48 ≤ c.toNat ∧ c.toNat ≤ 57 := by simpa [isDigit] using hc
    have hws : isJSWhitespace c = false := by
      have hne : ∀ k ∈ [9, 10, 11, 12, 13, 32, 160, 5760, 8192, 8193, 8194, 8195, 8196, 8197,
          8198, 8199, 8200, 8201, 8202, 8232, 8233, 8239, 8287, 12288, 65279], c.toNat ≠ k := by
        intro k hk
        simp only [List.mem_cons, List.mem_singleton, List.not_mem_nil, or_false] at hk
        omega
      simp only [isJSWhitespace, decide_eq_false_iff_not]
      intro hmem
      exact hne _ hmem rfl
    have hminus : c ≠ '-' := by
      intro h; subst h; revert hrange; decide
    have hplus : c ≠ '+' := by
      intro h; subst h; revert hrange; decide
    have htake : (c :: cs).takeWhile isDigit = c :: cs := by
      rw [List.takeWhile_eq_self_iff]
      exact hd
    have hdrop : (c :: cs).dropWhile isJSWhitespace = c :: cs := by
      simp [List.dropWhile, hws]
    have hsigned : (match (c :: cs) with
        | '-' :: r => (true, r)
        | '+' :: r => (false, r)
        | _ => (false, c :: cs)) = (false, c :: cs) := by
      split
      · rename_i heq; exact absurd (List.cons.inj heq).1 hminus
      · rename_i heq; exact absurd (List.cons.inj heq).1 hplus
      · rfl
    simp only [parseInt, hdrop, hsigned, htake]
    simp

theorem splitOnChar_no_sep (sep : Char) (l : List Char) (h : sep ∉ l) :
    splitOnChar sep l = [l] := by
  induction l with
  | nil => rfl
  | cons c cs ih =>
    have hc : c ≠ sep := fun heq => h (heq ▸ List.mem_cons_self _ _)
    have hcs : sep ∉ cs := fun hmem => h (List.mem_cons_of_mem _ hmem)
    simp [splitOnChar, hc, ih hcs]

theorem splitOnChar_append (sep : Char) (l rest : List Char) (h : sep ∉ l) :
    splitOnChar sep (l ++ sep :: rest) = l :: splitOnChar sep rest := by
  induction l with
  | nil => simp [splitOnChar]
  | cons c cs ih =>
    have hc : c ≠ sep := fun heq => h (heq ▸ List.mem_cons_self _ _)
    have hcs : sep ∉ cs := fun hmem => h (List.mem_cons_of_mem _ hmem)
    simp [splitOnChar, hc, ih hcs]

theorem not_mem_of_isDigit (sep : Char) (hsep : isDigit sep = false) (l : List Char)
    (hd : ∀ c ∈ l, isDigit c = true) : sep ∉ l := by
  intro hmem
  have := hd sep hmem
  rw [hsep] at this
  exact Bool.false_ne_true this

theorem iterate_nextDay (y : Int) (m ms k : Nat) (d : Nat) (h : d + k ≤ daysInMonth y m) :
    Nat.iterate nextDay k { year := y, month := m, day := d, ms := ms } =
      { year := y, month := m, day := d + k, ms := ms } := by
  induction k generalizing d with
  | zero => rfl
  | succ k ih =>
    rw [Function.iterate_succ_apply]
    have hstep : nextDay { year := y, month := m, day := d, ms := ms } =
        { year := y, month := m, day := d + 1, ms := ms } := by
      have : d < daysInMonth y m := by omega
      simp [nextDay, this]
    rw [hstep, ih (d + 1) (by omega)]
    congr 1
    omega

/-- `MakeDay` on a month from 0 to 11 and a day of that month is that very day. -/
theorem makeDay_valid (y : Int) (m d ms : Nat) (hm : m < 12) (hd1 : 1 ≤ d)
    (hd2 : d ≤ daysInMonth y m) :
    makeDay y (m : Int) (d : Int) ms = { year := y, month := m, day := d, ms := ms } := by
  have h1 : (m : Int) / 12 = 0 := by omega
  have h2 : ((m : Int) % 12).toNat = m := by omega
  have h3 : (0 : Int) ≤ (d : Int) - 1 := by omega
  have h4 : ((d : Int) - 1).toNat = d - 1 := by omega
  simp only [makeDay, addDays, h1, h2, h3, h4, if_true, add_zero]
  rw [iterate_nextDay y m ms (d - 1) 1 (by omega)]
  congr 1
  omega

theorem unitsLt_irrefl (a : List Nat) : unitsLt a a = false := by
  induction a with
  | nil => rfl
  | cons x xs ih => simp [unitsLt, ih]

theorem unitsLt_asymm (a b : List Nat) (h : unitsLt a b = true) : unitsLt b a = false := by
  induction a generalizing b with
  | nil => cases b <;> simp [unitsLt] at h ⊢
  | cons x xs ih =>
    cases b with
    | nil => simp [unitsLt] at h
    | cons y ys =>
      simp only [unitsLt] at h ⊢
      split_ifs at h ⊢ <;> first | omega | rfl | exact ih _ h

/-- If `c` is below `a`, every `b` is above `c` or below `a`. -/
theorem unitsLt_cases (c a b : List Nat) (h : unitsLt c a = true) :
    unitsLt c b = true ∨ unitsLt b a = true := by
  induction c generalizing a b with
  | nil =>
    cases a with
    | nil => simp [unitsLt] at h
    | cons x xs =>
      cases b with
      | nil => right; simp [unitsLt]
      | cons y ys => left; simp [unitsLt]
  | cons z zs ih =>
    cases a with
    | nil => simp [unitsLt] at h
    | cons x xs =>
      cases b with
      | nil => right; simp [unitsLt]
      | cons y ys =>
        simp only [unitsLt] at h ⊢
        by_cases h1 : z < y
        · left; simp [h1]
        · by_cases h2 : y < z
          · right
            have : y < x := by
              split_ifs at h <;> omega
            simp [this]
          · have hzy : z = y := by omega
            subst hzy
            by_cases h3 : z < x
            · right; simp [h3]
            · have h4 : ¬ x < z := by
                intro h4; simp [h3, h4] at h
              simp only [h3, h4, if_false] at h
              simp only [h1, if_false, h3, h4]
              exact ih _ _ h

/-! ## Properties of the calendar -/

/-- The key of a local date of a year from 0 on is read back by `parseDateKey` as
`new Date(year, month, day)` with the numbers of the date. -/
theorem parseDateKey_formatDateKey_newDate (dayStart : Int → Nat → Nat → Nat) (D : JSDate)
    (hv : D.Valid) (h0 : 0 ≤ D.year) :
    parseDateKey dayStart (formatDateKey D) =
      newDate dayStart (some D.year) (D.month : Int) (D.day : Int) := by
  obtain ⟨hm, hd1, hd2, _⟩ := hv
  have hY : intToString D.year = natToString D.year.toNat := by
    have : ¬ D.year < 0 := by omega
    simp [intToString, this]
  have hminus : isDigit '-' = false := by decide
  have hYd := natToString_isDigit D.year.toNat
  have hMd := padStart_isDigit 2 _ (natToString_isDigit (D.month + 1))
  have hDd := padStart_isDigit 2 _ (natToString_isDigit D.day)
  have hsplit : splitOnChar '-' (formatDateKey D).data =
      [natToString D.year.toNat, padStart 2 '0' (natToString (D.month + 1)),
        padStart 2 '0' (natToString D.day)] := by
    have hdata : (formatDateKey D).data = natToString D.year.toNat ++
        '-' :: (padStart 2 '0' (natToString (D.month + 1)) ++
          '-' :: padStart 2 '0' (natToString D.day)) := by
      simp [formatDateKey, hY]
    rw [hdata, splitOnChar_append _ _ _ (not_mem_of_isDigit _ hminus _ hYd),
      splitOnChar_append _ _ _ (not_mem_of_isDigit _ hminus _ hMd),
      splitOnChar_no_sep _ _ (not_mem_of_isDigit _ hminus _ hDd)]
  have hpY := parseInt_digits _ (natToString_ne_nil D.year.toNat) hYd
  have hpM := parseInt_digits _
    (padStart_ne_nil 2 '0' _ (natToString_ne_nil (D.month + 1))) hMd
  have hpD := parseInt_digits _ (padStart_ne_nil 2 '0' _ (natToString_ne_nil D.day)) hDd
  rw [digitsValue_natToString] at hpY
  rw [digitsValue_padStart, digitsValue_natToString] at hpM hpD
  have hyr : ((D.year.toNat : Nat) : Int) = D.year := Int.toNat_of_nonneg (by omega)
  have hday0 : ¬ ((D.day : Nat) : Int) = 0 := by omega
  have hm0 : ¬ ((D.month : Int) + 1 = 0) := by omega
  simp only [parseDateKey, hsplit, List.map_cons, List.map_nil, hpY, hpM, hpD, List.get?,
    Option.join, orOne, hyr, hday0, if_false, Nat.cast_add, Nat.cast_one, hm0,
    Option.bind, id]
  rw [show ((D.month : Int) + 1 - 1) = (D.month : Int) by ring]

/-- From year 1 to year 99, a year and the year 1900 later are leap years together. -/
theorem isLeapYear_add_1900 (y : Int) (h1 : 1 ≤ y) (h2 : y ≤ 99) :
    isLeapYear (1900 + y) = isLeapYear y := by
  unfold isLeapYear
  rw [decide_eq_decide]
  constructor <;> intro h <;> omega

/-- A day of a month of a year from 0 to 99 is a day of that month 1900 years later, but
for 29 February of the year 0. -/
theorem day_le_daysInMonth_add_1900 (y : Int) (m d : Nat) (h0 : 0 ≤ y) (h2 : y ≤ 99)
    (hd : d ≤ daysInMonth y m) (hne : ¬ (y = 0 ∧ m = 1 ∧ d = 29)) :
    d ≤ daysInMonth (1900 + y) m := by
  by_cases hm : m = 1
  · subst hm
    by_cases hy : y = 0
    · subst hy
      have h29 : daysInMonth 0 1 = 29 := by decide
      have h28 : daysInMonth (1900 + 0) 1 = 28 := by decide
      rw [h29] at hd
      rw [h28]
      have : d ≠ 29 := fun h => hne ⟨rfl, rfl, h⟩
      omega
    · have hl := isLeapYear_add_1900 y (by omega) h2
      simp only [daysInMonth, hl] at hd ⊢
      exact hd
  · have he : daysInMonth (1900 + y) m = daysInMonth y m := by
      unfold daysInMonth
      split <;> first | rfl | exact absurd rfl hm
    rw [he]
    exact hd

set_option maxRecDepth 8000 in
/-- The year 1900 has no 29 February: `MakeDay` gives 1 March. -/
theorem makeDay_1900_feb_29 :
    makeDay (1900 + 0) ((1 : Nat) : Int) ((29 : Nat) : Int) 0 =
      { year := 1900, month := 2, day := 1, ms := 0 } := by
  decide

/-- C6 (as amended): for every local date `D` whose year is at least 100 (every four-digit
year included), `parseDateKey (formatDateKey D)` is a date with the same local year, month
and day as `D`, at the time at which that day starts in the time zone; Dec 31, Jan 1, Feb 29
and every month end are instances. For a year from 0 to 99 the date read back is in the year
1900 + year: the same month and day of that year, and 1 March 1900 for 29 February of the
year 0. -/
theorem parseDateKey_formatDateKey (dayStart : Int → Nat → Nat → Nat) (D : JSDate)
    (hv : D.Valid) :
    (100 ≤ D.year →
      parseDateKey dayStart (formatDateKey D) =
        some { year := D.year, month := D.month, day := D.day,
               ms := dayStart D.year D.month D.day }) ∧
    (0 ≤ D.year → D.year ≤ 99 →
      ∃ d : JSDate, parseDateKey dayStart (formatDateKey D) = some d ∧
        d.year = 1900 + D.year ∧
        (¬ (D.year = 0 ∧ D.month = 1 ∧ D.day = 29) → d.month = D.month ∧ d.day = D.day) ∧
        (D.year = 0 ∧ D.month = 1 ∧ D.day = 29 → d.month = 2 ∧ d.day = 1)) := by
  have hv' := hv
  obtain ⟨hm, hd1, hd2, _⟩ := hv
  constructor
  · intro hy
    have hrange : ¬ (0 ≤ D.year ∧ D.year ≤ 99) := by omega
    rw [parseDateKey_formatDateKey_newDate dayStart D hv' (by omega)]
    simp only [newDate, hrange, if_false, makeDay_valid D.year D.month D.day 0 hm hd1 hd2]
  · intro h0 h99
    have hrange : 0 ≤ D.year ∧ D.year ≤ 99 := ⟨h0, h99⟩
    rw [parseDateKey_formatDateKey_newDate dayStart D hv' h0]
    simp only [newDate, hrange, and_self, if_true]
    by_cases hex : D.year = 0 ∧ D.month = 1 ∧ D.day = 29
    · obtain ⟨hy0, hm1, hd29⟩ := hex
      rw [hy0, hm1, hd29]
      rw [makeDay_1900_feb_29]
      exact ⟨_, rfl, rfl, fun h => absurd ⟨rfl, rfl, rfl⟩ h, fun _ => ⟨rfl, rfl⟩⟩
    · have hfit := day_le_daysInMonth_add_1900 D.year D.month D.day h0 h99 hd2 hex
      rw [makeDay_valid (1900 + D.year) D.month D.day 0 hm hd1 hfit]
      exact ⟨_, rfl, rfl, fun _ => ⟨rfl, rfl⟩, fun h => absurd h hex⟩

set_option maxRecDepth 8000 in
/-- Witness of C6 on the boundary dates: the leap day, Dec 31, Jan 1 and the last days of
months of 28, 30 and 31 days, in a time zone whose clocks skip the midnight of 9 March 2025
(the date read back for that day is at 01:00); and 15 June of the year 50, read back in
1950. -/
theorem parseDateKey_formatDateKey_witness :
    parseDateKey (fun y m d => if y = 2025 ∧ m = 2 ∧ d = 9 then 3600000 else 0)
      (formatDateKey ⟨2024, 1, 29, 43200000⟩) = some ⟨2024, 1, 29, 0⟩ ∧
    parseDateKey (fun y m d => if y = 2025 ∧ m = 2 ∧ d = 9 then 3600000 else 0)
      (formatDateKey ⟨2024, 11, 31, 86399999⟩) = some ⟨2024, 11, 31, 0⟩ ∧
    parseDateKey (fun y m d => if y = 2025 ∧ m = 2 ∧ d = 9 then 3600000 else 0)
      (formatDateKey ⟨2025, 0, 1, 0⟩) = some ⟨2025, 0, 1, 0⟩ ∧
    parseDateKey (fun y m d => if y = 2025 ∧ m = 2 ∧ d = 9 then 3600000 else 0)
      (formatDateKey ⟨2025, 1, 28, 0⟩) = some ⟨2025, 1, 28, 0⟩ ∧
    parseDateKey (fun y m d => if y = 2025 ∧ m = 2 ∧ d = 9 then 3600000 else 0)
      (formatDateKey ⟨2025, 3, 30, 0⟩) = some ⟨2025, 3, 30, 0⟩ ∧
    parseDateKey (fun y m d => if y = 2025 ∧ m = 2 ∧ d = 9 then 3600000 else 0)
      (formatDateKey ⟨2025, 6, 31, 0⟩) = some ⟨2025, 6, 31, 0⟩ ∧
    parseDateKey (fun y m d => if y = 2025 ∧ m = 2 ∧ d = 9 then 3600000 else 0)
      (formatDateKey ⟨2025, 2, 9, 43200000⟩) = some ⟨2025, 2, 9, 3600000⟩ ∧
    (∃ d : JSDate,
      parseDateKey (fun y m d => if y = 2025 ∧ m = 2 ∧ d = 9 then 3600000 else 0)
        (formatDateKey ⟨50, 5, 15, 0⟩) = some d ∧ d.year = 1950 ∧ d.month = 5 ∧ d.day = 15) := by
  refine ⟨(parseDateKey_formatDateKey _ ⟨2024, 1, 29, 43200000⟩ (by decide)).1 (by decide),
    (parseDateKey_formatDateKey _ ⟨2024, 11, 31, 86399999⟩ (by decide)).1 (by decide),
    (parseDateKey_formatDateKey _ ⟨2025, 0, 1, 0⟩ (by decide)).1 (by decide),
    (parseDateKey_formatDateKey _ ⟨2025, 1, 28, 0⟩ (by decide)).1 (by decide),
    (parseDateKey_formatDateKey _ ⟨2025, 3, 30, 0⟩ (by decide)).1 (by decide),
    (parseDateKey_formatDateKey _ ⟨2025, 6, 31, 0⟩ (by decide)).1 (by decide),
    (parseDateKey_formatDateKey _ ⟨2025, 2, 9, 43200000⟩ (by decide)).1 (by decide), ?_⟩
  obtain ⟨d, hd, hy, hmd, _⟩ :=
    (parseDateKey_formatDateKey (fun y m d => if y = 2025 ∧ m = 2 ∧ d = 9 then 3600000 else 0)
      ⟨50, 5, 15, 0⟩ (by decide)).2 (by decide) (by decide)
  exact ⟨d, hd, hy, hmd (by decide)⟩

set_option maxRecDepth 8000 in
/-- C6 (as stated) fails: the local date 1 January of the year 50 is formatted as "50-01-01",
which `parseDateKey` reads back as 1 January 1950, because `new Date(y, m, d)` takes a year
from 0 to 99 as 1900 + y. -/
theorem parseDateKey_formatDateKey_year_50 :
    JSDate.Valid ⟨50, 0, 1, 0⟩ ∧
    formatDateKey ⟨50, 0, 1, 0⟩ = "50-01-01" ∧
    parseDateKey (fun _ _ _ => 0) (formatDateKey ⟨50, 0, 1, 0⟩) = some ⟨1950, 0, 1, 0⟩ ∧
    ¬ ∃ d : JSDate, parseDateKey (fun _ _ _ => 0) (formatDateKey ⟨50, 0, 1, 0⟩) = some d ∧
        d.year = 50 ∧ d.month = 0 ∧ d.day = 1 := by
  have h : parseDateKey (fun _ _ _ => 0) (formatDateKey ⟨50, 0, 1, 0⟩) =
      some ⟨1950, 0, 1, 0⟩ := by decide
  refine ⟨by decide, by decide, h, ?_⟩
  rintro ⟨d, hd, hyear, _⟩
  rw [h] at hd
  cases hd
  exact absurd hyear (by decide)

/-- C7 at the failing input: local midnight of 10 March 2025 in an environment one hour
ahead of UTC. `showScheduledMachines` looks up "2025-03-09", the UTC day, where
`formatDateKey` gives "2025-03-10"; an entry stored under the latter is found by
`renderDayView` and missed by `showScheduledMachines`; the range bounds of
`getScheduledMachinesRange` for 1 to 31 March are one day early as well. -/
theorem showScheduledMachines_uses_utc_day :
    parseDateKey (fun _ _ _ => 0) "2025-03-10" = some ⟨2025, 2, 10, 0⟩ ∧
    formatDateKey ⟨2025, 2, 10, 0⟩ = "2025-03-10" ∧
    showScheduledMachinesKey 60 ⟨2025, 2, 10, 0⟩ = "2025-03-09" ∧
    showScheduledMachines 60
      { currentDate := ⟨2025, 2, 10, 0⟩, selectedDate := some ⟨2025, 2, 10, 0⟩,
        scheduledMachines := [("2025-03-10", [⟨.num 7, 1, some "2025-03-10", none⟩])],
        dayViewDate := ⟨2025, 2, 10, 0⟩ } ⟨2025, 2, 10, 0⟩ = [] ∧
    renderDayView
      { currentDate := ⟨2025, 2, 10, 0⟩, selectedDate := some ⟨2025, 2, 10, 0⟩,
        scheduledMachines := [("2025-03-10", [⟨.num 7, 1, some "2025-03-10", none⟩])],
        dayViewDate := ⟨2025, 2, 10, 0⟩ } = [⟨.num 7, 1, some "2025-03-10", none⟩] ∧
    getScheduledMachinesRange 60 ⟨2025, 2, 1, 0⟩ ⟨2025, 2, 31, 0⟩ =
      ("2025-02-28", "2025-03-30") ∧
    (formatDateKey ⟨2025, 2, 1, 0⟩, formatDateKey ⟨2025, 2, 31, 0⟩) =
      ("2025-03-01", "2025-03-31") := by
  refine ⟨by decide, by decide, by decide, by decide, by decide, by decide, by decide⟩

/-- For a day of the month up to the 28th the month handlers move the displayed month by
exactly one calendar month and keep the day. -/
theorem month_click_small_day (cal : CalendarManager) (hv : cal.currentDate.Valid)
    (hd : cal.currentDate.day ≤ 28) :
    ((onNextMonthClick cal).currentDate.year, (onNextMonthClick cal).currentDate.month) =
        monthAfter (cal.currentDate.year, cal.currentDate.month) ∧
    ((onPrevMonthClick cal).currentDate.year, (onPrevMonthClick cal).currentDate.month) =
        monthBefore (cal.currentDate.year, cal.currentDate.month) := by
  obtain ⟨hm, hd1, _, _⟩ := hv
  have hdim : ∀ (y : Int) (m : Nat), 28 ≤ daysInMonth y m := by
    intro y m
    unfold daysInMonth
    split <;> try decide
    split <;> decide
  generalize hcd : cal.currentDate = cd at *
  obtain ⟨y, m, d, ms⟩ := cd
  simp only at hm hd1 hd
  have hiter : ∀ (y' : Int) (m' : Nat),
      Nat.iterate nextDay (d - 1) { year := y', month := m', day := 1, ms := ms } =
        { year := y', month := m', day := d, ms := ms } := by
    intro y' m'
    rw [iterate_nextDay y' m' ms (d - 1) 1 (by have := hdim y' m'; omega)]
    congr 1
    omega
  have h3 : (0 : Int) ≤ (d : Int) - 1 := by omega
  have h4 : ((d : Int) - 1).toNat = d - 1 := by omega
  constructor
  · simp only [onNextMonthClick, hcd, setMonth, makeDay, addDays, h3, h4, if_true, hiter,
      monthAfter]
    by_cases h11 : m = 11
    · subst h11; simp
    · have e1 : ((m : Int) + 1) / 12 = 0 := by omega
      have e2 : (((m : Int) + 1) % 12).toNat = m + 1 := by omega
      simp [h11, e1, e2]
  · simp only [onPrevMonthClick, hcd, setMonth, makeDay, addDays, h3, h4, if_true, hiter,
      monthBefore]
    by_cases h0 : m = 0
    · subst h0; simp; omega
    · have e1 : ((m : Int) - 1) / 12 = 0 := by omega
      have e2 : (((m : Int) - 1) % 12).toNat = m - 1 := by omega
      simp [h0, e1, e2]

set_option maxRecDepth 8000 in
/-- C8 at the failing inputs: from 31 January 2025 one next-month step leaves the calendar on
3 March 2025, so the displayed month is March and not February; from 31 March 2025 one
previous-month step leaves it on 3 March 2025, so the displayed month does not change. -/
theorem onNextMonthClick_skips_february :
    JSDate.Valid ⟨2025, 0, 31, 0⟩ ∧
    (onNextMonthClick (CalendarManager.new ⟨2025, 0, 31, 0⟩)).currentDate = ⟨2025, 2, 3, 0⟩ ∧
    monthAfter (2025, 0) = (2025, 1) ∧
    JSDate.Valid ⟨2025, 2, 31, 0⟩ ∧
    (onPrevMonthClick (CalendarManager.new ⟨2025, 2, 31, 0⟩)).currentDate = ⟨2025, 2, 3, 0⟩ ∧
    monthBefore (2025, 2) = (2025, 1) := by
  refine ⟨by decide, by decide, by decide, by decide, by decide, by decide⟩

theorem mapHas_eq_false (m : ScheduledMap) (key : String) :
    mapHas m key = false ↔ ∀ kv ∈ m, kv.1 ≠ key := by
  simp [mapHas]

theorem mapHas_eq_true (m : ScheduledMap) (key : String) :
    mapHas m key = true ↔ key ∈ m.map (·.1) := by
  simp only [mapHas, List.any_eq_true, decide_eq_true_eq, List.mem_map]

/-- In a map with distinct keys, `get` returns the list of the only entry with the key. -/
theorem mapGet_of_mem (m : ScheduledMap) (hk : NodupKeys m) (kv : String × List ScheduledEntry)
    (hmem : kv ∈ m) : mapGet m kv.1 = some kv.2 := by
  induction m with
  | nil => simp at hmem
  | cons hd tl ih =>
    have hnd := List.nodup_cons.mp hk
    rcases List.mem_cons.mp hmem with rfl | h
    · simp [mapGet]
    · have hne : hd.1 ≠ kv.1 := by
        intro heq
        exact hnd.1 (List.mem_map.mpr ⟨kv, h, heq.symm⟩)
      have := ih hnd.2 h
      simp only [mapGet] at this ⊢
      simp [List.find?, hne, this]

theorem mapGet_none (m : ScheduledMap) (key : String) (h : ∀ kv ∈ m, kv.1 ≠ key) :
    mapGet m key = none := by
  induction m with
  | nil => rfl
  | cons hd tl ih =>
    have h1 : hd.1 ≠ key := h hd (List.mem_cons_self _ _)
    have h2 := ih (fun kv hkv => h kv (List.mem_cons_of_mem _ hkv))
    simp only [mapGet] at h2 ⊢
    simp [List.find?, h1, h2]

theorem unscheduleVisit_key (eid : String) (kv kv' : String × List ScheduledEntry)
    (h : unscheduleVisit eid kv = some kv') : kv'.1 = kv.1 := by
  unfold unscheduleVisit at h
  split at h
  · cases h; rfl
  · simp only at h
    split at h
    · cases h
    · cases h; rfl

theorem unscheduleVisit_ne_nil (eid : String) (kv kv' : String × List ScheduledEntry)
    (h : unscheduleVisit eid kv = some kv') (hne : kv.2 ≠ []) : kv'.2 ≠ [] := by
  unfold unscheduleVisit at h
  split at h
  · cases h; exact hne
  · simp only at h
    split at h
    · cases h
    · rename_i hlen
      cases h
      intro hnil
      simp only at hnil
      exact hlen (by rw [hnil]; rfl)

theorem unscheduleVisit_single (eid key : String) (e : ScheduledEntry)
    (he : e.id.toJSString = eid) : unscheduleVisit eid (key, [e]) = none := by
  simp [unscheduleVisit, findIndex, he]

theorem filterMap_keys_sublist (eid : String) (m : ScheduledMap) :
    ((m.filterMap (unscheduleVisit eid)).map (·.1)).Sublist (m.map (·.1)) := by
  induction m with
  | nil => simp
  | cons hd tl ih =>
    rw [List.filterMap_cons]
    split
    · exact ih.trans (List.sublist_cons_self _ _)
    · rename_i kv' hkv
      rw [List.map_cons, List.map_cons, unscheduleVisit_key eid hd kv' hkv]
      exact ih.cons₂ _

theorem mapPush_keys (m : ScheduledMap) (key : String) (item : ScheduledEntry) :
    (mapPush m key item).map (·.1) = m.map (·.1) := by
  simp only [mapPush, List.map_map]
  apply List.map_congr_left
  intro kv _
  simp only [Function.comp]
  split <;> rfl

theorem mapPush_noEmpty (m : ScheduledMap) (key : String) (item : ScheduledEntry)
    (h : ∀ kv ∈ m, kv.1 ≠ key → kv.2 ≠ []) : NoEmptyBucket (mapPush m key item) := by
  intro kv' hkv'
  simp only [mapPush, List.mem_map] at hkv'
  obtain ⟨kv, hkv, rfl⟩ := hkv'
  split
  · simp
  · rename_i hne
    exact h kv hkv hne

/-- One step of the loading loop keeps the keys distinct and the lists non-empty. -/
theorem insertEntry_inv (dateParse : String → Option JSDate) (m : ScheduledMap)
    (item : ScheduledEntry) (hk : NodupKeys m) (he : NoEmptyBucket m) :
    NodupKeys (insertEntry dateParse m item) ∧ NoEmptyBucket (insertEntry dateParse m item) := by
  unfold insertEntry
  simp only []
  generalize entryDateKey dateParse item = key
  by_cases hhas : mapHas m key = true
  · simp only [hhas, Bool.not_true, Bool.false_eq_true, if_false]
    refine ⟨?_, mapPush_noEmpty _ _ _ (fun kv hkv _ => he kv hkv)⟩
    unfold NodupKeys
    rw [mapPush_keys]
    exact hk
  · have hfalse : mapHas m key = false := by simpa using hhas
    simp only [hfalse, Bool.not_false, if_true, mapSet, Bool.false_eq_true, if_false]
    refine ⟨?_, mapPush_noEmpty _ _ _ ?_⟩
    · unfold NodupKeys
      rw [mapPush_keys, List.map_append, List.map_singleton]
      have hnot : key ∉ m.map (·.1) := by
        rw [← mapHas_eq_true]; simp [hfalse]
      exact List.Nodup.append hk (List.nodup_singleton _) (by simpa using hnot)
    · intro kv hkv hne
      rcases List.mem_append.mp hkv with h | h
      · exact he kv h
      · simp only [List.mem_singleton] at h
        subst h
        exact absurd rfl hne

/-- The map is built by the constructor and by `loadScheduledMachines`; both leave distinct
keys and no empty list, whatever the gateway answers. -/
theorem loadScheduledMachines_inv (dateParse : String → Option JSDate) (cal : CalendarManager)
    (user : Option User) (answer : ScheduleAnswer) (hk : NodupKeys cal.scheduledMachines)
    (he : NoEmptyBucket cal.scheduledMachines) :
    NodupKeys (loadScheduledMachines dateParse cal user answer).scheduledMachines ∧
    NoEmptyBucket (loadScheduledMachines dateParse cal user answer).scheduledMachines := by
  have hfold : ∀ (data : List ScheduledEntry) (m : ScheduledMap),
      NodupKeys m → NoEmptyBucket m →
      NodupKeys (data.foldl (insertEntry dateParse) m) ∧
        NoEmptyBucket (data.foldl (insertEntry dateParse) m) := by
    intro data
    induction data with
    | nil => intro m h1 h2; exact ⟨h1, h2⟩
    | cons item rest ih =>
      intro m h1 h2
      have := insertEntry_inv dateParse m item h1 h2
      exact ih _ this.1 this.2
  have hnil : NodupKeys ([] : ScheduledMap) ∧ NoEmptyBucket ([] : ScheduledMap) :=
    ⟨by decide, by decide⟩
  unfold loadScheduledMachines
  cases user with
  | none => exact ⟨hk, he⟩
  | some u =>
    cases answer with
    | threw => exact ⟨hk, he⟩
    | failure => exact ⟨hk, he⟩
    | success data =>
      cases data with
      | none => exact hnil
      | some data => exact hfold data [] hnil.1 hnil.2

/-- A successful `unscheduleMachineById` keeps the keys distinct and leaves no empty list in
a map that had none. -/
theorem unscheduleVisit_inv (eid : String) (m : ScheduledMap) (hk : NodupKeys m)
    (he : NoEmptyBucket m) :
    NodupKeys (m.filterMap (unscheduleVisit eid)) ∧
      NoEmptyBucket (m.filterMap (unscheduleVisit eid)) := by
  refine ⟨List.Nodup.sublist (filterMap_keys_sublist eid _) hk, ?_⟩
  intro kv' hkv'
  obtain ⟨kv, hkv, hvisit⟩ := List.mem_filterMap.mp hkv'
  exact unscheduleVisit_ne_nil eid kv kv' hvisit (he kv hkv)

theorem unscheduleMachineById_inv (cal : CalendarManager) (user : Option User)
    (entryId : Option String) (answer : DeleteAnswer) (hk : NodupKeys cal.scheduledMachines)
    (he : NoEmptyBucket cal.scheduledMachines) :
    NodupKeys (unscheduleMachineById cal user entryId answer).scheduledMachines ∧
    NoEmptyBucket (unscheduleMachineById cal user entryId answer).scheduledMachines := by
  unfold unscheduleMachineById
  cases user with
  | none => exact ⟨hk, he⟩
  | some u =>
    cases entryId with
    | none => exact ⟨hk, he⟩
    | some eid =>
      simp only []
      split
      · exact ⟨hk, he⟩
      · cases answer with
        | threw => exact ⟨hk, he⟩
        | failure => exact ⟨hk, he⟩
        | success => exact unscheduleVisit_inv eid _ hk he

/-- Every state reached from the constructor has distinct keys and no empty list. -/
theorem run_inv (dateParse : String → Option JSDate) (now : JSDate)
    (events : List CalendarEvent) :
    NodupKeys ((CalendarManager.new now).run dateParse events).scheduledMachines ∧
    NoEmptyBucket ((CalendarManager.new now).run dateParse events).scheduledMachines := by
  have h : ∀ (events : List CalendarEvent) (cal : CalendarManager),
      NodupKeys cal.scheduledMachines → NoEmptyBucket cal.scheduledMachines →
      NodupKeys (cal.run dateParse events).scheduledMachines ∧
        NoEmptyBucket (cal.run dateParse events).scheduledMachines := by
    intro events
    induction events with
    | nil => intro cal h1 h2; exact ⟨h1, h2⟩
    | cons ev rest ih =>
      intro cal h1 h2
      have hstep : NodupKeys (cal.handle dateParse ev).scheduledMachines ∧
          NoEmptyBucket (cal.handle dateParse ev).scheduledMachines := by
        cases ev with
        | load user answer => exact loadScheduledMachines_inv dateParse cal user answer h1 h2
        | unschedule user entryId answer =>
          exact unscheduleMachineById_inv cal user entryId answer h1 h2
        | prevMonth => exact ⟨h1, h2⟩
        | nextMonth => exact ⟨h1, h2⟩
      exact ih _ hstep.1 hstep.2
  have hnil : NodupKeys ([] : ScheduledMap) ∧ NoEmptyBucket ([] : ScheduledMap) :=
    ⟨by decide, by decide⟩
  exact h events (CalendarManager.new now) hnil.1 hnil.2

/-- C9: in every state the calendar reaches from its constructor (by loads, unschedules and
month steps, whatever the gateway answered), after a successful `unscheduleMachineById(id)`
no date key of the scheduled map maps to an empty list; and a date key that held exactly the
one entry with that id is no longer in the map: `has(dateKey)` is false. -/
theorem unscheduleMachineById_no_empty_bucket (dateParse : String → Option JSDate)
    (now : JSDate) (events : List CalendarEvent) (user : User) (eid : String)
    (hid : eid ≠ "") :
    NoEmptyBucket (unscheduleMachineById ((CalendarManager.new now).run dateParse events)
      (some user) (some eid) .success).scheduledMachines ∧
    (∀ (key : String) (e : ScheduledEntry),
      mapGet ((CalendarManager.new now).run dateParse events).scheduledMachines key = some [e] →
      e.id.toJSString = eid →
      mapHas (unscheduleMachineById ((CalendarManager.new now).run dateParse events)
        (some user) (some eid) .success).scheduledMachines key = false) := by
  obtain ⟨hk, he⟩ := run_inv dateParse now events
  generalize (CalendarManager.new now).run dateParse events = cal at hk he
  refine ⟨(unscheduleMachineById_inv cal (some user) (some eid) .success hk he).2, ?_⟩
  have hmap : (unscheduleMachineById cal (some user) (some eid) .success).scheduledMachines =
      cal.scheduledMachines.filterMap (unscheduleVisit eid) := by
    simp [unscheduleMachineById, hid]
  rw [hmap]
  intro key e hget hide
  rw [mapHas_eq_false]
  intro kv' hkv' hkey
  obtain ⟨kv, hkv, hvisit⟩ := List.mem_filterMap.mp hkv'
  have hk1 : kv.1 = key := by rw [← unscheduleVisit_key eid kv kv' hvisit, hkey]
  have hget' := mapGet_of_mem _ hk kv hkv
  rw [hk1, hget] at hget'
  have hkv2 : kv = (key, [e]) := by
    cases kv with
    | mk k v =>
      simp only at hk1 hget'
      rw [hk1, ← Option.some.inj hget']
  rw [hkv2, unscheduleVisit_single eid key e hide] at hvisit
  cases hvisit

/-- Witness of C9: one entry is loaded on 2025-03-10 and then unscheduled; the key is in the
map before and not after. -/
theorem unscheduleMachineById_no_empty_bucket_witness :
    mapHas ((CalendarManager.new ⟨2025, 2, 10, 0⟩).run (fun _ => none)
      [.load (some ⟨"u1"⟩)
        (.success (some [⟨.num 7, 1, some "2025-03-10", none⟩]))]).scheduledMachines
      "2025-03-10" = true ∧
    mapHas (unscheduleMachineById
      ((CalendarManager.new ⟨2025, 2, 10, 0⟩).run (fun _ => none)
        [.load (some ⟨"u1"⟩) (.success (some [⟨.num 7, 1, some "2025-03-10", none⟩]))])
      (some ⟨"u1"⟩) (some "7") .success).scheduledMachines "2025-03-10" = false :=
  ⟨by decide,
   (unscheduleMachineById_no_empty_bucket (fun _ => none) ⟨2025, 2, 10, 0⟩
      [.load (some ⟨"u1"⟩) (.success (some [⟨.num 7, 1, some "2025-03-10", none⟩]))]
      ⟨"u1"⟩ "7" (by decide)).2
      "2025-03-10" ⟨.num 7, 1, some "2025-03-10", none⟩ (by decide) (by decide)⟩

theorem upcomingOrder_iff (a b : String × ScheduledEntry) :
    upcomingOrder a b ↔ jsStrLe a.1 b.1 = true := by
  unfold upcomingOrder localeCompare jsStrLe
  by_cases h1 : jsStrLt a.1 b.1 = true
  · have h2 : jsStrLt b.1 a.1 = false := unitsLt_asymm _ _ h1
    simp [h1, h2]
  · by_cases h2 : jsStrLt b.1 a.1 = true
    · simp [h1, h2]
    · simp [h1, h2]

theorem upcomingOrder_of_key_eq (a b : String × ScheduledEntry) (h : a.1 = b.1) :
    upcomingOrder a b := by
  rw [upcomingOrder_iff, jsStrLe, h, jsStrLt, unitsLt_irrefl]
  rfl

theorem upcomingOrder_total (a b : String × ScheduledEntry) :
    upcomingOrder a b ∨ upcomingOrder b a := by
  rw [upcomingOrder_iff, upcomingOrder_iff]
  unfold jsStrLe
  by_cases h : jsStrLt b.1 a.1 = true
  · right
    have := unitsLt_asymm _ _ h
    simp only [jsStrLt] at this ⊢
    simp [this]
  · left
    simpa using h

theorem upcomingOrder_trans (a b c : String × ScheduledEntry) (h1 : upcomingOrder a b)
    (h2 : upcomingOrder b c) : upcomingOrder a c := by
  rw [upcomingOrder_iff] at h1 h2 ⊢
  unfold jsStrLe jsStrLt at h1 h2 ⊢
  by_contra hca
  have hca' : unitsLt (codeUnits c.1) (codeUnits a.1) = true := by simpa using hca
  rcases unitsLt_cases _ _ (codeUnits b.1) hca' with h | h
  · simp [h] at h2
  · simp [h] at h1

/-- Inserting into the sorted part leaves the elements of each key in their order: the new
element goes in front of those of its own key. -/
theorem orderedInsert_filter_key (key : String) (a : String × ScheduledEntry)
    (l : List (String × ScheduledEntry)) :
    (List.orderedInsert upcomingOrder a l).filter (fun x => decide (x.1 = key)) =
      (a :: l).filter (fun x => decide (x.1 = key)) := by
  induction l with
  | nil => rfl
  | cons b l ih =>
    rw [List.orderedInsert]
    split
    · rfl
    · rename_i hnot
      have hne : b.1 ≠ a.1 := fun heq => hnot (upcomingOrder_of_key_eq a b heq.symm)
      rw [List.filter_cons, ih]
      by_cases hb : b.1 = key
      · have ha : a.1 ≠ key := fun h => hne (hb.trans h.symm)
        simp [List.filter_cons, hb, ha]
      · simp [List.filter_cons, hb]

/-- The sort is stable: the elements of each key are in the order they had. -/
theorem insertionSort_filter_key (key : String) (l : List (String × ScheduledEntry)) :
    (List.insertionSort upcomingOrder l).filter (fun x => decide (x.1 = key)) =
      l.filter (fun x => decide (x.1 = key)) := by
  induction l with
  | nil => rfl
  | cons a l ih =>
    rw [List.insertionSort, orderedInsert_filter_key, List.filter_cons, List.filter_cons, ih]

theorem collectUpcoming_eq (m : ScheduledMap) (todayKey : String) :
    collectUpcoming m todayKey =
      m.flatMap (fun kv =>
        if jsStrGe kv.1 todayKey then kv.2.map (fun it => (kv.1, it)) else []) := by
  have h : ∀ (m : ScheduledMap) (acc : List (String × ScheduledEntry)),
      m.foldl (fun upcoming kv =>
        if jsStrGe kv.1 todayKey then upcoming ++ kv.2.map (fun it => (kv.1, it))
        else upcoming) acc =
      acc ++ m.flatMap (fun kv =>
        if jsStrGe kv.1 todayKey then kv.2.map (fun it => (kv.1, it)) else []) := by
    intro m
    induction m with
    | nil => intro acc; simp
    | cons kv m ih =>
      intro acc
      rw [List.foldl_cons, ih, List.flatMap_cons]
      split <;> simp
  simpa [collectUpcoming] using h m []

/-- The collected entries of one key are the list stored under that key, when the key is not
before today's, and none otherwise. -/
theorem collectUpcoming_filter_key (m : ScheduledMap) (hk : NodupKeys m)
    (todayKey key : String) :
    (collectUpcoming m todayKey).filter (fun x => decide (x.1 = key)) =
      if jsStrGe key todayKey then ((mapGet m key).getD []).map (fun it => (key, it))
      else [] := by
  rw [collectUpcoming_eq]
  induction m with
  | nil => simp [mapGet]
  | cons kv m ih =>
    have hnd := List.nodup_cons.mp hk
    have ih' := ih hnd.2
    rw [List.flatMap_cons, List.filter_append, ih']
    by_cases hkey : kv.1 = key
    · have hrest : ∀ kv' ∈ m, kv'.1 ≠ key := by
        intro kv' hkv' heq
        exact hnd.1 (List.mem_map.mpr ⟨kv', hkv', heq.trans hkey.symm⟩)
      have hget : mapGet (kv :: m) key = some kv.2 := by
        simp [mapGet, List.find?, hkey]
      rw [mapGet_none m key hrest, hget]
      subst hkey
      by_cases hge : jsStrGe kv.1 todayKey = true
      · have hall : kv.2.filter ((fun x : String × ScheduledEntry => decide (x.1 = kv.1)) ∘
            fun it => (kv.1, it)) = kv.2 := by
          rw [List.filter_eq_self]
          intro it _
          simp
        simp [hge, List.filter_map, hall]
      · simp [hge]
    · have hget : mapGet (kv :: m) key = mapGet m key := by
        simp [mapGet, List.find?, hkey]
      rw [hget]
      have hfirst : (if jsStrGe kv.1 todayKey = true then kv.2.map (fun it => (kv.1, it))
          else []).filter (fun x => decide (x.1 = key)) = [] := by
        split
        · simp [List.filter_map, Function.comp, hkey]
        · rfl
      rw [hfirst, List.nil_append]

set_option maxRecDepth 8000 in
/-- C10: for every scheduled map (its keys distinct) and every today, the upcoming-sessions
list is the first 10 elements of a list that is sorted ascending by date key and whose
elements of each date key are exactly the entries stored under that key, in their stored
order, when the key is >= today's key, and none otherwise. With entries on today-1, today,
today+1 and today+5 (stored in another order, today being 10 March 2025 or 31 December 2024)
the list is exactly the entries of today, today+1, today+5 in that order. -/
theorem renderUpcomingSessions_sorted_upcoming (m : ScheduledMap) (hk : NodupKeys m)
    (now : JSDate) :
    (∃ sorted : List (String × ScheduledEntry),
      renderUpcomingSessions m now = sorted.take 10 ∧
      sorted.Pairwise (fun a b => jsStrLe a.1 b.1 = true) ∧
      ∀ key : String, sorted.filter (fun x => decide (x.1 = key)) =
        if jsStrGe key (formatDateKey now) then
          ((mapGet m key).getD []).map (fun it => (key, it))
        else []) ∧
    renderUpcomingSessions
      [ (formatDateKey (addDays ⟨2025, 2, 10, 0⟩ 5), [⟨.num 4, 14, none, none⟩]),
        (formatDateKey (addDays ⟨2025, 2, 10, 0⟩ (-1)), [⟨.num 1, 11, none, none⟩]),
        (formatDateKey (addDays ⟨2025, 2, 10, 0⟩ 1), [⟨.num 3, 13, none, none⟩]),
        (formatDateKey ⟨2025, 2, 10, 0⟩, [⟨.num 2, 12, none, none⟩]) ]
      ⟨2025, 2, 10, 34200000⟩ =
      [ ("2025-03-10", ⟨.num 2, 12, none, none⟩), ("2025-03-11", ⟨.num 3, 13, none, none⟩),
        ("2025-03-15", ⟨.num 4, 14, none, none⟩) ] ∧
    renderUpcomingSessions
      [ (formatDateKey (addDays ⟨2024, 11, 31, 0⟩ 5), [⟨.num 4, 14, none, none⟩]),
        (formatDateKey (addDays ⟨2024, 11, 31, 0⟩ (-1)), [⟨.num 1, 11, none, none⟩]),
        (formatDateKey (addDays ⟨2024, 11, 31, 0⟩ 1), [⟨.num 3, 13, none, none⟩]),
        (formatDateKey ⟨2024, 11, 31, 0⟩, [⟨.num 2, 12, none, none⟩]) ]
      ⟨2024, 11, 31, 34200000⟩ =
      [ ("2024-12-31", ⟨.num 2, 12, none, none⟩), ("2025-01-01", ⟨.num 3, 13, none, none⟩),
        ("2025-01-05", ⟨.num 4, 14, none, none⟩) ] := by
  refine ⟨⟨List.insertionSort upcomingOrder (collectUpcoming m (formatDateKey now)), ?_, ?_, ?_⟩,
    by decide, by decide⟩
  · unfold renderUpcomingSessions
    simp only []
    split
    · rename_i hlen
      rw [List.length_eq_zero] at hlen
      rw [hlen]; rfl
    · rfl
  · haveI : IsTotal (String × ScheduledEntry) upcomingOrder := ⟨upcomingOrder_total⟩
    haveI : IsTrans (String × ScheduledEntry) upcomingOrder := ⟨upcomingOrder_trans⟩
    have hs := List.sorted_insertionSort upcomingOrder
      (collectUpcoming m (formatDateKey now))
    exact List.Pairwise.imp (fun {a b} h => (upcomingOrder_iff a b).1 h) hs
  · intro key
    rw [insertionSort_filter_key, collectUpcoming_filter_key m hk]

/-- Witness of C10: eleven entries on one later date and one on an earlier date; the keys of
the map are distinct. -/
theorem renderUpcomingSessions_sorted_upcoming_witness :
    NodupKeys [("2025-03-09", [⟨.num 1, 11, none, none⟩]),
      ("2025-03-12", [⟨.num 2, 12, none, none⟩])] ∧
    ∃ sorted : List (String × ScheduledEntry),
      renderUpcomingSessions [("2025-03-09", [⟨.num 1, 11, none, none⟩]),
        ("2025-03-12", [⟨.num 2, 12, none, none⟩])] ⟨2025, 2, 10, 0⟩ = sorted.take 10 ∧
      sorted.Pairwise (fun a b => jsStrLe a.1 b.1 = true) ∧
      ∀ key : String, sorted.filter (fun x => decide (x.1 = key)) =
        if jsStrGe key (formatDateKey ⟨2025, 2, 10, 0⟩) then
          ((mapGet [("2025-03-09", [⟨.num 1, 11, none, none⟩]),
            ("2025-03-12", [⟨.num 2, 12, none, none⟩])] key).getD []).map (fun it => (key, it))
        else [] :=
  ⟨by decide,
   (renderUpcomingSessions_sorted_upcoming
      [("2025-03-09", [⟨.num 1, 11, none, none⟩]), ("2025-03-12", [⟨.num 2, 12, none, none⟩])]
      (by decide) ⟨2025, 2, 10, 0⟩).1⟩

/-! ## Order of the date keys -/

theorem natDigitsAux_fuel (fuel n : Nat) (h : n < fuel) :
    natDigitsAux fuel n = natDigitsAux (n + 1) n := by
  induction fuel using Nat.strong_induction_on generalizing n with
  | _ fuel ih =>
    cases fuel with
    | zero => omega
    | succ f =>
      unfold natDigitsAux
      split
      · rfl
      · rename_i hge
        have h1 : n / 10 < f := by omega
        have h2 : n / 10 < n := by omega
        rw [ih f (Nat.lt_succ_self f) (n / 10) h1, ih n (by omega) (n / 10) h2]

theorem natToString_lt_ten (n : Nat) (h : n < 10) : natToString n = [digitChar n] := by
  simp [natToString, natDigitsAux, h]

theorem natToString_ge_ten (n : Nat) (h : 10 ≤ n) :
    natToString n = natToString (n / 10) ++ [digitChar (n % 10)] := by
  have hn : ¬ n < 10 := by omega
  show natDigitsAux (n + 1) n = natDigitsAux (n / 10 + 1) (n / 10) ++ [digitChar (n % 10)]
  rw [natDigitsAux, if_neg hn, natDigitsAux_fuel n (n / 10) (by omega)]

theorem natToString_four (n : Nat) (h1 : 1000 ≤ n) (h2 : n ≤ 9999) :
    natToString n = [digitChar (n / 1000), digitChar (n / 100 % 10), digitChar (n / 10 % 10),
      digitChar (n % 10)] := by
  rw [natToString_ge_ten n (by omega), natToString_ge_ten (n / 10) (by omega),
    natToString_ge_ten (n / 10 / 10) (by omega), natToString_lt_ten (n / 10 / 10 / 10) (by omega)]
  have e1 : n / 10 / 10 / 10 = n / 1000 := by omega
  have e2 : n / 10 / 10 % 10 = n / 100 % 10 := by omega
  simp [e1, e2]

theorem padStart_two (k : Nat) (h : k < 100) :
    padStart 2 '0' (natToString k) = [digitChar (k / 10), digitChar (k % 10)] := by
  by_cases h10 : k < 10
  · rw [natToString_lt_ten k h10]
    have e1 : k / 10 = 0 := by omega
    have e2 : k % 10 = k := by omega
    rw [e1, e2]
    rfl
  · rw [natToString_ge_ten k (by omega), natToString_lt_ten (k / 10) (by omega)]
    rfl

theorem unitsLt_cons_cons (a b : Nat) (as bs : List Nat) :
    unitsLt (a :: as) (b :: bs) = true ↔ a < b ∨ (a = b ∧ unitsLt as bs = true) := by
  simp only [unitsLt]
  split_ifs with h1 h2
  · simp [h1]
  · simp only [Bool.false_eq_true, false_iff]; omega
  · have : a = b := by omega
    simp [this]

theorem unitsLt_nil_nil : unitsLt [] [] = true ↔ False := by
  simp [unitsLt]

theorem unitsLt_two_digits (a b : Nat) (r r' : List Nat) :
    unitsLt ((48 + a / 10) :: (48 + a % 10) :: r) ((48 + b / 10) :: (48 + b % 10) :: r') = true ↔
      a < b ∨ (a = b ∧ unitsLt r r' = true) := by
  simp only [unitsLt_cons_cons]
  by_cases hP : unitsLt r r' = true
  · simp only [hP, and_true]
    constructor <;> intro h <;> omega
  · have hP' : unitsLt r r' = false := by simpa using hP
    simp only [hP', Bool.false_eq_true, and_false, or_false]
    constructor <;> intro h <;> omega

theorem keyUnits_eq (y m d : Nat) :
    keyUnits y m d = (48 + (y / 100) / 10) :: (48 + (y / 100) % 10) :: (48 + (y % 100) / 10) ::
      (48 + (y % 100) % 10) :: 45 :: (48 + (m + 1) / 10) :: (48 + (m + 1) % 10) :: 45 ::
      (48 + d / 10) :: (48 + d % 10) :: [] := by
  have e1 : y / 1000 = y / 100 / 10 := by omega
  have e2 : y / 10 % 10 = y % 100 / 10 := by omega
  have e3 : y % 10 = y % 100 % 10 := by omega
  simp only [keyUnits, e1, e2]
  rw [e3]

theorem unitsLt_keyUnits (y m d y' m' d' : Nat) :
    unitsLt (keyUnits y m d) (keyUnits y' m' d') = true ↔
      y < y' ∨ (y = y' ∧ (m < m' ∨ (m = m' ∧ d < d'))) := by
  rw [keyUnits_eq, keyUnits_eq,
    unitsLt_two_digits (y / 100) (y' / 100),
    unitsLt_two_digits (y % 100) (y' % 100),
    unitsLt_cons_cons,
    unitsLt_two_digits (m + 1) (m' + 1),
    unitsLt_cons_cons,
    unitsLt_two_digits d d',
    unitsLt_nil_nil]
  simp only [and_false, or_false, lt_self_iff_false, false_or, true_and]
  constructor <;> intro h <;> omega

theorem utf16Units_digitChar (k : Nat) (h : k < 10) : utf16Units (digitChar k) = [48 + k] := by
  interval_cases k <;> rfl

theorem formatDateKey_fourDigit (a : JSDate) (hv : a.Valid) (h1 : 1000 ≤ a.year)
    (h2 : a.year ≤ 9999) :
    formatDateKey a = String.mk
      [digitChar (a.year.toNat / 1000), digitChar (a.year.toNat / 100 % 10),
        digitChar (a.year.toNat / 10 % 10), digitChar (a.year.toNat % 10), '-',
        digitChar ((a.month + 1) / 10), digitChar ((a.month + 1) % 10), '-',
        digitChar (a.day / 10), digitChar (a.day % 10)] := by
  obtain ⟨hm, hd1, hd2, _⟩ := hv
  have hdim : daysInMonth a.year a.month ≤ 31 := by
    unfold daysInMonth
    split <;> try decide
    split <;> decide
  have hneg : ¬ a.year < 0 := by omega
  simp only [formatDateKey, intToString, hneg, if_false]
  rw [natToString_four a.year.toNat (by omega) (by omega), padStart_two (a.month + 1) (by omega),
    padStart_two a.day (by omega)]
  rfl

theorem codeUnits_formatDateKey (a : JSDate) (hv : a.Valid) (h1 : 1000 ≤ a.year)
    (h2 : a.year ≤ 9999) :
    codeUnits (formatDateKey a) = keyUnits a.year.toNat a.month a.day := by
  have hdim : daysInMonth a.year a.month ≤ 31 := by
    unfold daysInMonth
    split <;> try decide
    split <;> decide
  rw [formatDateKey_fourDigit a hv h1 h2]
  obtain ⟨hm, hd1, hd2, _⟩ := hv
  simp only [codeUnits, List.flatMap_cons, List.flatMap_nil, keyUnits]
  rw [utf16Units_digitChar _ (by omega), utf16Units_digitChar _ (by omega),
    utf16Units_digitChar _ (by omega), utf16Units_digitChar _ (by omega),
    utf16Units_digitChar _ (by omega), utf16Units_digitChar _ (by omega),
    utf16Units_digitChar _ (by omega), utf16Units_digitChar _ (by omega)]
  rfl

theorem jsStrLt_formatDateKey (a b : JSDate) (ha : a.Valid) (hb : b.Valid)
    (hya : 1000 ≤ a.year ∧ a.year ≤ 9999) (hyb : 1000 ≤ b.year ∧ b.year ≤ 9999) :
    jsStrLt (formatDateKey a) (formatDateKey b) = true ↔ ¬ dayNotAfter b a := by
  rw [jsStrLt, codeUnits_formatDateKey a ha hya.1 hya.2,
    codeUnits_formatDateKey b hb hyb.1 hyb.2, unitsLt_keyUnits]
  unfold dayNotAfter
  constructor <;> intro h <;> omega

/-- C11: for all local dates `a` and `b` with four-digit years, `formatDateKey a` is the
10-character text of four year digits, a hyphen, two month digits, a hyphen and two day
digits, and `formatDateKey a <= formatDateKey b` in the order of the strings exactly when the
day of `a` is not after the day of `b`; the comparison `>=` of upcoming sessions and month
statistics and the comparator of the sort agree with it. -/
theorem formatDateKey_lexical_order (a b : JSDate) (ha : a.Valid) (hb : b.Valid)
    (hya : 1000 ≤ a.year ∧ a.year ≤ 9999) (hyb : 1000 ≤ b.year ∧ b.year ≤ 9999) :
    (codeUnits (formatDateKey a)).length = 10 ∧
    formatDateKey a = String.mk
      [digitChar (a.year.toNat / 1000), digitChar (a.year.toNat / 100 % 10),
        digitChar (a.year.toNat / 10 % 10), digitChar (a.year.toNat % 10), '-',
        digitChar ((a.month + 1) / 10), digitChar ((a.month + 1) % 10), '-',
        digitChar (a.day / 10), digitChar (a.day % 10)] ∧
    (jsStrLe (formatDateKey a) (formatDateKey b) = true ↔ dayNotAfter a b) ∧
    (jsStrGe (formatDateKey b) (formatDateKey a) = true ↔ dayNotAfter a b) ∧
    (localeCompare (formatDateKey a) (formatDateKey b) ≤ 0 ↔ dayNotAfter a b) := by
  have hlt := jsStrLt_formatDateKey b a hb ha hyb hya
  have hle : jsStrLe (formatDateKey a) (formatDateKey b) = true ↔ dayNotAfter a b := by
    unfold jsStrLe
    by_cases h : jsStrLt (formatDateKey b) (formatDateKey a) = true
    · have := hlt.1 h
      simp [h, this]
    · have hn : dayNotAfter a b := by
        by_contra hna
        exact h (hlt.2 hna)
      simp [h, hn]
  refine ⟨?_, formatDateKey_fourDigit a ha hya.1 hya.2, hle, ?_, ?_⟩
  · rw [codeUnits_formatDateKey a ha hya.1 hya.2]; rfl
  · exact hle
  · have := upcomingOrder_iff (formatDateKey a, ⟨.num 0, 0, none, none⟩)
      (formatDateKey b, ⟨.num 0, 0, none, none⟩)
    simp only [upcomingOrder] at this
    rw [this, hle]

/-- Witness of C11 across a year end: 31 December 2024 and 1 January 2025. -/
theorem formatDateKey_lexical_order_witness :
    formatDateKey ⟨2024, 11, 31, 0⟩ = "2024-12-31" ∧
    formatDateKey ⟨2025, 0, 1, 0⟩ = "2025-01-01" ∧
    (jsStrLe (formatDateKey ⟨2024, 11, 31, 0⟩) (formatDateKey ⟨2025, 0, 1, 0⟩) = true ↔
      dayNotAfter ⟨2024, 11, 31, 0⟩ ⟨2025, 0, 1, 0⟩) ∧
    (jsStrLe (formatDateKey ⟨2025, 0, 1, 0⟩) (formatDateKey ⟨2024, 11, 31, 0⟩) = true ↔
      dayNotAfter ⟨2025, 0, 1, 0⟩ ⟨2024, 11, 31, 0⟩) :=
  ⟨by decide, by decide,
   (formatDateKey_lexical_order ⟨2024, 11, 31, 0⟩ ⟨2025, 0, 1, 0⟩ (by decide) (by decide)
      (by decide) (by decide)).2.2.1,
   (formatDateKey_lexical_order ⟨2025, 0, 1, 0⟩ ⟨2024, 11, 31, 0⟩ (by decide) (by decide)
      (by decide) (by decide)).2.2.1⟩

/-! ## Properties of the month statistics -/

theorem daysInMonth_bounds (y : Int) (m : Nat) : 28 ≤ daysInMonth y m ∧ daysInMonth y m ≤ 31 := by
  unfold daysInMonth
  split <;> try decide
  split <;> decide

/-- `new Date(y, m, 1)` is the first day of the month, for a year outside 0..99. -/
theorem newDate_first (dayStart : Int → Nat → Nat → Nat) (y : Int) (m : Nat) (hm : m < 12)
    (hy : y < 0 ∨ 100 ≤ y) :
    newDate dayStart (some y) (m : Int) 1 =
      some { year := y, month := m, day := 1, ms := dayStart y m 1 } := by
  have hr : ¬ (0 ≤ y ∧ y ≤ 99) := by omega
  have h := makeDay_valid y m 1 0 hm (le_refl 1) (by have := daysInMonth_bounds y m; omega)
  simp only [Nat.cast_one] at h
  simp only [newDate, hr, if_false, h]

/-- `new Date(y, m + 1, 0)` is the last day of the month `m`, for a year outside 0..99. -/
theorem newDate_last (dayStart : Int → Nat → Nat → Nat) (y : Int) (m : Nat) (hm : m < 12)
    (hy : y < 0 ∨ 100 ≤ y) :
    newDate dayStart (some y) ((m : Int) + 1) 0 =
      some { year := y, month := m, day := daysInMonth y m,
             ms := dayStart y m (daysInMonth y m) } := by
  have hr : ¬ (0 ≤ y ∧ y ≤ 99) := by omega
  have hday : makeDay y ((m : Int) + 1) 0 0 =
      { year := y, month := m, day := daysInMonth y m, ms := 0 } := by
    simp only [makeDay, addDays]
    have hneg : ¬ ((0 : Int) ≤ 0 - 1) := by decide
    have h1 : (-((0 : Int) - 1)).toNat = 1 := by decide
    simp only [hneg, if_false, h1, Function.iterate_one]
    by_cases h11 : m = 11
    · subst h11
      simp [prevDay, daysInMonth]
    · have e1 : ((m : Int) + 1) / 12 = 0 := by omega
      have e2 : (((m : Int) + 1) % 12).toNat = m + 1 := by omega
      simp [prevDay, e1, e2]
  simp only [newDate, hr, if_false, hday]

theorem foldl_count_eq (p : String → Bool) (m : ScheduledMap) (acc : Nat) :
    m.foldl (fun count kv => if p kv.1 then count + kv.2.length else count) acc =
      acc + ((m.filter (fun kv => p kv.1)).map (fun kv => kv.2.length)).sum := by
  induction m generalizing acc with
  | nil => simp
  | cons kv m ih =>
    rw [List.foldl_cons, ih, List.filter_cons]
    split <;> simp [Nat.add_assoc]

theorem formatDateKey_data (d : JSDate) :
    (formatDateKey d).data = keyPrefix d.year d.month ++ padStart 2 '0' (natToString d.day) := by
  simp [formatDateKey, keyPrefix]

theorem isDigit_toNat_lt (c : Char) (h : isDigit c = true) : c.toNat < 65536 := by
  have : 48 ≤ c.toNat ∧ c.toNat ≤ 57 := by simpa [isDigit] using h
  omega

theorem intToString_ascii (y : Int) : ∀ c ∈ intToString y, c.toNat < 65536 := by
  intro c hc
  unfold intToString at hc
  split at hc
  · rcases List.mem_cons.mp hc with rfl | h
    · decide
    · exact isDigit_toNat_lt c (natToString_isDigit _ c h)
  · exact isDigit_toNat_lt c (natToString_isDigit _ c hc)

theorem keyPrefix_ascii (y : Int) (m : Nat) : ∀ c ∈ keyPrefix y m, c.toNat < 65536 := by
  intro c hc
  simp only [keyPrefix, List.mem_append, List.mem_cons, List.mem_singleton, List.not_mem_nil,
    or_false] at hc
  rcases hc with (h | rfl | h) | rfl
  · exact intToString_ascii y c h
  · decide
  · exact isDigit_toNat_lt c (padStart_isDigit 2 _ (natToString_isDigit _) c h)
  · decide

theorem codeUnits_ascii (l : List Char) (h : ∀ c ∈ l, c.toNat < 65536) :
    codeUnits (String.mk l) = l.map Char.toNat := by
  induction l with
  | nil => rfl
  | cons c cs ih =>
    have hc := h c (List.mem_cons_self _ _)
    have ih' := ih (fun x hx => h x (List.mem_cons_of_mem _ hx))
    simp only [codeUnits, List.flatMap_cons, List.map_cons] at ih' ⊢
    rw [ih']
    simp [utf16Units, hc]

theorem two_digit_units (k : Nat) (h : k < 100) :
    (padStart 2 '0' (natToString k)).map Char.toNat = [48 + k / 10, 48 + k % 10] := by
  rw [padStart_two k h]
  simp [digitChar_toNat (k / 10) (by omega), digitChar_toNat (k % 10) (Nat.mod_lt _ (by decide))]

/-- The code units of a date key: those of its prefix, then the two digits of the day. -/
theorem codeUnits_formatDateKey_prefix (d : JSDate) (hd : d.day < 100) :
    codeUnits (formatDateKey d) =
      (keyPrefix d.year d.month).map Char.toNat ++ [48 + d.day / 10, 48 + d.day % 10] := by
  have hdata := formatDateKey_data d
  have hascii : ∀ c ∈ (formatDateKey d).data, c.toNat < 65536 := by
    intro c hc
    rw [hdata, List.mem_append] at hc
    rcases hc with h | h
    · exact keyPrefix_ascii _ _ c h
    · exact isDigit_toNat_lt c (padStart_isDigit 2 _ (natToString_isDigit _) c h)
  have hmk : formatDateKey d = String.mk (formatDateKey d).data := rfl
  rw [hmk, codeUnits_ascii _ hascii, hdata, List.map_append, two_digit_units d.day hd]

theorem unitsLt_append_left (p s t : List Nat) : unitsLt (p ++ s) (p ++ t) = unitsLt s t := by
  induction p with
  | nil => rfl
  | cons x p ih => simp [unitsLt, ih]

/-- A sequence between two sequences that start alike starts like them. -/
theorem between_prefix (p s e k : List Nat)
    (h1 : unitsLt k (p ++ s) = false) (h2 : unitsLt (p ++ e) k = false) :
    ∃ r, k = p ++ r := by
  induction p generalizing k with
  | nil => exact ⟨k, rfl⟩
  | cons x p ih =>
    cases k with
    | nil => simp [unitsLt] at h1
    | cons c k =>
      simp only [List.cons_append, unitsLt] at h1 h2
      have hcx : c = x := by
        by_contra hne
        by_cases hlt : c < x
        · simp [hlt] at h1
        · have hgt : x < c := by omega
          simp [hgt] at h2
      subst hcx
      simp only [lt_self_iff_false, if_false] at h1 h2
      obtain ⟨r, hr⟩ := ih k h1 h2
      exact ⟨r, by rw [hr]; rfl⟩

theorem char_toNat_injective : Function.Injective Char.toNat := by
  intro a b h
  rw [← Char.ofNat_toNat a, ← Char.ofNat_toNat b, h]

theorem natToString_injective (a b : Nat) (h : natToString a = natToString b) : a = b := by
  rw [← digitsValue_natToString a, ← digitsValue_natToString b, h]

theorem padStart_natToString_injective (a b : Nat)
    (h : padStart 2 '0' (natToString a) = padStart 2 '0' (natToString b)) : a = b := by
  have := congrArg digitsValue h
  rwa [digitsValue_padStart, digitsValue_padStart, digitsValue_natToString,
    digitsValue_natToString] at this

/-- The pieces between hyphens of a text that starts with a key prefix. -/
theorem splitOnChar_keyPrefix (y : Int) (m : Nat) (rest : List Char) :
    splitOnChar '-' (keyPrefix y m ++ rest) =
      if y < 0 then
        [] :: natToString (-y).toNat :: padStart 2 '0' (natToString (m + 1)) ::
          splitOnChar '-' rest
      else
        natToString y.toNat :: padStart 2 '0' (natToString (m + 1)) :: splitOnChar '-' rest := by
  have hminus : isDigit '-' = false := by decide
  have hM := not_mem_of_isDigit _ hminus _
    (padStart_isDigit 2 _ (natToString_isDigit (m + 1)))
  have hrest : ∀ Y : List Char, (∀ c ∈ Y, isDigit c = true) →
      splitOnChar '-' (Y ++ '-' :: (padStart 2 '0' (natToString (m + 1)) ++ '-' :: rest)) =
        Y :: padStart 2 '0' (natToString (m + 1)) :: splitOnChar '-' rest := by
    intro Y hY
    rw [splitOnChar_append _ _ _ (not_mem_of_isDigit _ hminus _ hY),
      splitOnChar_append _ _ _ hM]
  have hshape : keyPrefix y m ++ rest =
      intToString y ++ '-' :: (padStart 2 '0' (natToString (m + 1)) ++ '-' :: rest) := by
    simp [keyPrefix]
  rw [hshape]
  by_cases hy : y < 0
  · have hneg : intToString y = '-' :: natToString (-y).toNat := by simp [intToString, hy]
    have hcons : ∀ X : List Char, splitOnChar '-' ('-' :: X) = [] :: splitOnChar '-' X := by
      intro X; simp [splitOnChar]
    rw [hneg, List.cons_append, hcons, hrest _ (natToString_isDigit (-y).toNat)]
    simp [hy]
  · have hpos : intToString y = natToString y.toNat := by simp [intToString, hy]
    rw [hpos, hrest _ (natToString_isDigit y.toNat)]
    simp [hy]

/-- Two key prefixes of which one starts a text that the other starts too are those of one
year and one month. -/
theorem keyPrefix_injective (y y' : Int) (m m' : Nat) (r r' : List Char)
    (h : keyPrefix y m ++ r = keyPrefix y' m' ++ r') : y = y' ∧ m = m' := by
  have hs := congrArg (splitOnChar '-') h
  rw [splitOnChar_keyPrefix, splitOnChar_keyPrefix] at hs
  by_cases hy : y < 0 <;> by_cases hy' : y' < 0 <;> simp only [hy, hy', if_true, if_false] at hs
  · have h1 := (List.cons.inj (List.cons.inj hs).2).1
    have h2 := (List.cons.inj (List.cons.inj (List.cons.inj hs).2).2).1
    have := natToString_injective _ _ h1
    have := padStart_natToString_injective _ _ h2
    omega
  · have h1 := (List.cons.inj hs).1
    exact absurd h1.symm (natToString_ne_nil _)
  · have h1 := (List.cons.inj hs).1
    exact absurd h1 (natToString_ne_nil _)
  · have h1 := (List.cons.inj hs).1
    have h2 := (List.cons.inj (List.cons.inj hs).2).1
    have := natToString_injective _ _ h1
    have := padStart_natToString_injective _ _ h2
    omega

theorem unitsLt_two_digits_nil (a b : Nat) :
    unitsLt [48 + a / 10, 48 + a % 10] [48 + b / 10, 48 + b % 10] = true ↔ a < b := by
  rw [unitsLt_two_digits a b [] [], unitsLt_nil_nil]
  simp

/-- The key of a valid date lies between the keys of the first and the last day of a month
exactly when the date is in that month. -/
theorem formatDateKey_in_month (y : Int) (m : Nat) (d : JSDate) (hd : d.Valid) :
    (jsStrGe (formatDateKey d) (formatDateKey ⟨y, m, 1, 0⟩) &&
      jsStrLe (formatDateKey d) (formatDateKey ⟨y, m, daysInMonth y m, 0⟩)) = true ↔
      d.year = y ∧ d.month = m := by
  obtain ⟨_, hd1, hd2, _⟩ := hd
  have hdim := daysInMonth_bounds y m
  have hdim' := daysInMonth_bounds d.year d.month
  have hUd := codeUnits_formatDateKey_prefix d (by omega)
  have hUf := codeUnits_formatDateKey_prefix ⟨y, m, 1, 0⟩ (by show (1 : Nat) < 100; omega)
  have hUl := codeUnits_formatDateKey_prefix ⟨y, m, daysInMonth y m, 0⟩
    (by show daysInMonth y m < 100; omega)
  simp only at hUf hUl
  simp only [jsStrGe, jsStrLe, jsStrLt, Bool.and_eq_true, Bool.not_eq_true']
  constructor
  · rintro ⟨h1, h2⟩
    rw [hUf] at h1
    rw [hUl] at h2
    obtain ⟨r, hr⟩ := between_prefix _ _ _ _ h1 h2
    have hascii : ∀ c ∈ (formatDateKey d).data, c.toNat < 65536 := by
      intro c hc
      rw [formatDateKey_data, List.mem_append] at hc
      rcases hc with h | h
      · exact keyPrefix_ascii _ _ c h
      · exact isDigit_toNat_lt c (padStart_isDigit 2 _ (natToString_isDigit _) c h)
    have hmk : formatDateKey d = String.mk (formatDateKey d).data := rfl
    rw [hmk, codeUnits_ascii _ hascii] at hr
    obtain ⟨l1, l2, hsplit, hl1, _⟩ := List.map_eq_append_iff.mp hr
    have hl1' : l1 = keyPrefix y m :=
      (List.map_injective_iff.mpr char_toNat_injective) hl1
    rw [formatDateKey_data, hl1'] at hsplit
    exact keyPrefix_injective _ _ _ _ _ _ hsplit
  · rintro ⟨hy, hm⟩
    rw [hUd, hUf, hUl, hy, hm, unitsLt_append_left, unitsLt_append_left]
    rw [hy, hm] at hd2
    constructor
    · have h := unitsLt_two_digits_nil d.day 1
      by_contra hne
      have : d.day < 1 := h.1 (by simpa using hne)
      omega
    · have h := unitsLt_two_digits_nil (daysInMonth y m) d.day
      by_contra hne
      have : daysInMonth y m < d.day := h.1 (by simpa using hne)
      omega

/-- C12 (as amended): for every scheduled map and every displayed month of a year outside
0..99, the scheduled count of `updateMonthStats` is the total number of entries stored under
keys between the key of the first day and the key of the last day of that month, both
inclusive, the last day being the 28th, 29th, 30th or 31st as the month requires; and the key
of a date lies in that range exactly when the date is in the displayed month, so entries of
other months are not counted. -/
theorem updateMonthStats_scheduled (dayStart : Int → Nat → Nat → Nat) (cal : CalendarManager)
    (hv : cal.currentDate.Valid)
    (hy : cal.currentDate.year < 0 ∨ 100 ≤ cal.currentDate.year) :
    (updateMonthStats dayStart cal).scheduled =
      ((cal.scheduledMachines.filter (fun kv =>
          jsStrGe kv.1 (formatDateKey ⟨cal.currentDate.year, cal.currentDate.month, 1, 0⟩) &&
          jsStrLe kv.1 (formatDateKey ⟨cal.currentDate.year, cal.currentDate.month,
            daysInMonth cal.currentDate.year cal.currentDate.month, 0⟩))).map
        (fun kv => kv.2.length)).sum ∧
    28 ≤ daysInMonth cal.currentDate.year cal.currentDate.month ∧
    daysInMonth cal.currentDate.year cal.currentDate.month ≤ 31 ∧
    (∀ d : JSDate, d.Valid →
      ((jsStrGe (formatDateKey d)
          (formatDateKey ⟨cal.currentDate.year, cal.currentDate.month, 1, 0⟩) &&
        jsStrLe (formatDateKey d) (formatDateKey ⟨cal.currentDate.year, cal.currentDate.month,
          daysInMonth cal.currentDate.year cal.currentDate.month, 0⟩)) = true ↔
        d.year = cal.currentDate.year ∧ d.month = cal.currentDate.month)) := by
  have hm := hv.1
  refine ⟨?_, (daysInMonth_bounds _ _).1, (daysInMonth_bounds _ _).2,
    fun d hd => formatDateKey_in_month _ _ d hd⟩
  simp only [updateMonthStats, newDate_first dayStart _ _ hm hy,
    newDate_last dayStart _ _ hm hy, formatDateKeyD]
  rw [show formatDateKey ⟨cal.currentDate.year, cal.currentDate.month, 1,
        dayStart cal.currentDate.year cal.currentDate.month 1⟩ =
      formatDateKey ⟨cal.currentDate.year, cal.currentDate.month, 1, 0⟩ from rfl,
    show formatDateKey ⟨cal.currentDate.year, cal.currentDate.month,
        daysInMonth cal.currentDate.year cal.currentDate.month,
        dayStart cal.currentDate.year cal.currentDate.month
          (daysInMonth cal.currentDate.year cal.currentDate.month)⟩ =
      formatDateKey ⟨cal.currentDate.year, cal.currentDate.month,
        daysInMonth cal.currentDate.year cal.currentDate.month, 0⟩ from rfl]
  rw [foldl_count_eq (fun k =>
    jsStrGe k (formatDateKey ⟨cal.currentDate.year, cal.currentDate.month, 1, 0⟩) &&
    jsStrLe k (formatDateKey ⟨cal.currentDate.year, cal.currentDate.month,
      daysInMonth cal.currentDate.year cal.currentDate.month, 0⟩))]
  simp

/-- Witness of C12: February 2024, with entries on 31 January, 1 and 29 February and 1 March;
the count is 3 (two entries on the leap day). -/
theorem updateMonthStats_scheduled_witness :
    (updateMonthStats (fun _ _ _ => 0)
      { currentDate := ⟨2024, 1, 14, 0⟩, selectedDate := none,
        scheduledMachines :=
          [("2024-01-31", [⟨.num 1, 11, none, none⟩]), ("2024-02-01", [⟨.num 2, 12, none, none⟩]),
           ("2024-02-29", [⟨.num 3, 13, none, none⟩, ⟨.num 4, 14, none, none⟩]),
           ("2024-03-01", [⟨.num 5, 15, none, none⟩])],
        dayViewDate := ⟨2024, 1, 14, 0⟩ }).scheduled = 3 ∧
    daysInMonth 2024 1 = 29 := by
  refine ⟨?_, by decide⟩
  rw [(updateMonthStats_scheduled (fun _ _ _ => 0)
      { currentDate := ⟨2024, 1, 14, 0⟩, selectedDate := none,
        scheduledMachines :=
          [("2024-01-31", [⟨.num 1, 11, none, none⟩]), ("2024-02-01", [⟨.num 2, 12, none, none⟩]),
           ("2024-02-29", [⟨.num 3, 13, none, none⟩, ⟨.num 4, 14, none, none⟩]),
           ("2024-03-01", [⟨.num 5, 15, none, none⟩])],
        dayViewDate := ⟨2024, 1, 14, 0⟩ } (by decide) (by decide)).1]
  decide

set_option maxRecDepth 8000 in
/-- C12 (as stated) fails for a displayed month of a year from 0 to 99: with January of the
year 50 displayed, `new Date(50, 0, 1)` is 1 January 1950, so the entry stored under the key of
10 January 50, which lies between the keys of the first and the last day of the displayed
month, is not counted, and an entry of January 1950 is. -/
theorem updateMonthStats_year_50 :
    JSDate.Valid ⟨50, 0, 15, 0⟩ ∧
    (jsStrGe (formatDateKey ⟨50, 0, 10, 0⟩) (formatDateKey ⟨50, 0, 1, 0⟩) &&
      jsStrLe (formatDateKey ⟨50, 0, 10, 0⟩) (formatDateKey ⟨50, 0, 31, 0⟩)) = true ∧
    (updateMonthStats (fun _ _ _ => 0)
      { currentDate := ⟨50, 0, 15, 0⟩, selectedDate := none,
        scheduledMachines := [(formatDateKey ⟨50, 0, 10, 0⟩, [⟨.num 1, 11, none, none⟩])],
        dayViewDate := ⟨50, 0, 15, 0⟩ }).scheduled = 0 ∧
    (updateMonthStats (fun _ _ _ => 0)
      { currentDate := ⟨50, 0, 15, 0⟩, selectedDate := none,
        scheduledMachines := [(formatDateKey ⟨1950, 0, 10, 0⟩, [⟨.num 1, 11, none, none⟩])],
        dayViewDate := ⟨50, 0, 15, 0⟩ }).scheduled = 1 := by
  refine ⟨by decide, by decide, by decide, by decide⟩

/-! ## Properties of the loading of the scheduled map -/

theorem mapGet_mapPush (m : ScheduledMap) (key' : String) (item : ScheduledEntry)
    (key : String) :
    mapGet (mapPush m key' item) key =
      if key = key' then (mapGet m key).map (· ++ [item]) else mapGet m key := by
  induction m with
  | nil => simp [mapPush, mapGet]
  | cons kv m ih =>
    simp only [mapPush, mapGet, List.map_cons] at ih ⊢
    by_cases h1 : kv.1 = key
    · by_cases h2 : kv.1 = key'
      · have h3 : key = key' := h1.symm.trans h2
        simp [List.find?, h1, h2, h3]
      · have h3 : ¬ key = key' := fun h => h2 (h1.trans h)
        simp [List.find?, h1, h2, h3]
    · by_cases h2 : kv.1 = key'
      · simp only [h2, if_true, List.find?]
        have h1' : ¬ key' = key := fun h => h1 (h2.trans h)
        simp only [h1', decide_False]
        exact ih
      · simp only [h2, if_false, List.find?, h1, decide_False]
        exact ih

theorem mapGet_append_new (m : ScheduledMap) (k key : String) (hk : mapHas m k = false) :
    mapGet (m ++ [(k, [])]) key = if key = k then some [] else mapGet m key := by
  induction m with
  | nil =>
    by_cases h : k = key
    · simp [mapGet, List.find?, h]
    · have h' : ¬ key = k := fun e => h e.symm
      simp [mapGet, List.find?, h, h']
  | cons kv m ih =>
    have hk1 : kv.1 ≠ k := (mapHas_eq_false _ _).1 hk kv (List.mem_cons_self _ _)
    have hk2 : mapHas m k = false := by
      rw [mapHas_eq_false] at hk ⊢
      exact fun x hx => hk x (List.mem_cons_of_mem _ hx)
    have ih' := ih hk2
    simp only [mapGet, List.cons_append, List.find?] at ih' ⊢
    by_cases h1 : kv.1 = key
    · have h2 : ¬ key = k := fun e => hk1 (h1.trans e)
      simp [h1, h2]
    · simp only [h1, decide_False]
      exact ih'

/-- The list under a key after one step of the loading loop. -/
theorem bucket_insertEntry (dateParse : String → Option JSDate) (m : ScheduledMap)
    (item : ScheduledEntry) (key : String) :
    (mapGet (insertEntry dateParse m item) key).getD [] =
      if key = entryDateKey dateParse item then (mapGet m key).getD [] ++ [item]
      else (mapGet m key).getD [] := by
  unfold insertEntry
  simp only []
  generalize entryDateKey dateParse item = k
  by_cases hhas : mapHas m k = true
  · simp only [hhas, Bool.not_true, Bool.false_eq_true, if_false, mapGet_mapPush]
    by_cases hkey : key = k
    · subst hkey
      have hmem : ∃ v, mapGet m key = some v := by
        rw [mapHas_eq_true] at hhas
        obtain ⟨kv, hkv, hk1⟩ := List.mem_map.mp hhas
        simp only [mapGet]
        cases hf : m.find? (fun kv => decide (kv.1 = key)) with
        | none =>
          have := List.find?_eq_none.mp hf kv hkv
          simp [hk1] at this
        | some x => exact ⟨x.2, rfl⟩
      obtain ⟨v, hv⟩ := hmem
      simp [hv]
    · simp [hkey]
  · have hfalse : mapHas m k = false := by simpa using hhas
    simp only [hfalse, Bool.not_false, if_true, mapSet, Bool.false_eq_true, if_false,
      mapGet_mapPush, mapGet_append_new m k key hfalse]
    by_cases hkey : key = k
    · subst hkey
      have hnone : mapGet m key = none :=
        mapGet_none m key ((mapHas_eq_false _ _).1 hfalse)
      simp [hnone]
    · simp [hkey]

theorem mapHas_insertEntry (dateParse : String → Option JSDate) (m : ScheduledMap)
    (item : ScheduledEntry) (key : String) :
    mapHas (insertEntry dateParse m item) key = true ↔
      mapHas m key = true ∨ entryDateKey dateParse item = key := by
  unfold insertEntry
  simp only []
  generalize entryDateKey dateParse item = k
  rw [mapHas_eq_true, mapPush_keys, ← mapHas_eq_true]
  by_cases hhas : mapHas m k = true
  · simp only [hhas, Bool.not_true, Bool.false_eq_true, if_false]
    constructor
    · exact Or.inl
    · rintro (h | h)
      · exact h
      · rw [← h]; exact hhas
  · have hfalse : mapHas m k = false := by simpa using hhas
    simp only [hfalse, Bool.not_false, if_true, mapSet, Bool.false_eq_true, if_false]
    rw [mapHas_eq_true, mapHas_eq_true, List.map_append, List.mem_append]
    simp [eq_comm]

theorem bucket_foldl (dateParse : String → Option JSDate) (data : List ScheduledEntry)
    (m : ScheduledMap) (key : String) :
    (mapGet (data.foldl (insertEntry dateParse) m) key).getD [] =
      (mapGet m key).getD [] ++
        data.filter (fun it => decide (entryDateKey dateParse it = key)) := by
  induction data generalizing m with
  | nil => simp
  | cons it rest ih =>
    rw [List.foldl_cons, ih, bucket_insertEntry, List.filter_cons]
    by_cases h : key = entryDateKey dateParse it
    · simp [h]
    · have h' : ¬ entryDateKey dateParse it = key := fun e => h e.symm
      simp [h, h']

theorem mapHas_foldl (dateParse : String → Option JSDate) (data : List ScheduledEntry)
    (m : ScheduledMap) (key : String) :
    mapHas (data.foldl (insertEntry dateParse) m) key = true ↔
      mapHas m key = true ∨ ∃ it ∈ data, entryDateKey dateParse it = key := by
  induction data generalizing m with
  | nil => simp
  | cons it rest ih =>
    rw [List.foldl_cons, ih, mapHas_insertEntry]
    simp only [List.mem_cons, exists_eq_or_imp, or_assoc]

/-- C13: after a successful `loadScheduledMachines` (a user signed in, `success: true` with
the array `data`), whatever the map held before: the list under every key is the returned
entries whose date key is that key, in the order returned; a key is in the map exactly when
some returned entry has it; the keys are distinct; the date key of an entry whose `date`
field is a 10-character string is that field; the other fields of the calendar are as
before. -/
theorem loadScheduledMachines_replaces (dateParse : String → Option JSDate)
    (cal : CalendarManager) (user : User) (data : List ScheduledEntry) :
    (∀ key : String,
      (mapGet (loadScheduledMachines dateParse cal (some user)
          (.success (some data))).scheduledMachines key).getD [] =
        data.filter (fun it => decide (entryDateKey dateParse it = key))) ∧
    (∀ key : String,
      mapHas (loadScheduledMachines dateParse cal (some user)
          (.success (some data))).scheduledMachines key = true ↔
        ∃ it ∈ data, entryDateKey dateParse it = key) ∧
    NodupKeys (loadScheduledMachines dateParse cal (some user)
      (.success (some data))).scheduledMachines ∧
    (∀ (it : ScheduledEntry) (s : String), it.date = some s → (codeUnits s).length = 10 →
      entryDateKey dateParse it = s) ∧
    (loadScheduledMachines dateParse cal (some user) (.success (some data))).currentDate =
      cal.currentDate ∧
    (loadScheduledMachines dateParse cal (some user) (.success (some data))).selectedDate =
      cal.selectedDate ∧
    (loadScheduledMachines dateParse cal (some user) (.success (some data))).dayViewDate =
      cal.dayViewDate := by
  have hmap : (loadScheduledMachines dateParse cal (some user)
      (.success (some data))).scheduledMachines = data.foldl (insertEntry dateParse) [] := rfl
  refine ⟨?_, ?_, ?_, ?_, rfl, rfl, rfl⟩
  · intro key
    rw [hmap, bucket_foldl]
    simp [mapGet]
  · intro key
    rw [hmap, mapHas_foldl]
    simp [mapHas]
  · have hnil : NodupKeys ([] : ScheduledMap) ∧ NoEmptyBucket ([] : ScheduledMap) :=
      ⟨by decide, by decide⟩
    exact (loadScheduledMachines_inv dateParse { cal with scheduledMachines := [] } (some user)
      (.success (some data)) hnil.1 hnil.2).1
  · intro it s hdate hlen
    have hne : s ≠ "" := by
      intro h
      rw [h] at hlen
      exact absurd hlen (by decide)
    simp [entryDateKey, hdate, hne, hlen]

/-- C14 (as amended): when no user is signed in, when the gateway call throws and when the
gateway answers `success: false`, `loadScheduledMachines` leaves the calendar, and so the
scheduled map, exactly as it was; when `success: true` comes with a `data` that cannot be
iterated, the exception is raised after the map has been cleared, and the map is left
empty. -/
theorem loadScheduledMachines_failure (dateParse : String → Option JSDate)
    (cal : CalendarManager) (user : Option User) (u : User) (answer : ScheduleAnswer) :
    loadScheduledMachines dateParse cal user .threw = cal ∧
    loadScheduledMachines dateParse cal user .failure = cal ∧
    loadScheduledMachines dateParse cal none answer = cal ∧
    (loadScheduledMachines dateParse cal (some u) (.success none)).scheduledMachines = [] := by
  refine ⟨?_, ?_, rfl, rfl⟩ <;> cases user <;> rfl

/-- C14 (as stated) fails: a map holding one entry, then a load answered `success: true`
with a `data` that is not an array; `result.data.forEach` throws after
`scheduledMachines.clear()`, and the map is empty, not what it was. -/
theorem loadScheduledMachines_exception_clears :
    (loadScheduledMachines (fun _ => none)
      { currentDate := ⟨2025, 2, 10, 0⟩, selectedDate := none,
        scheduledMachines := [("2025-03-10", [⟨.num 7, 1, some "2025-03-10", none⟩])],
        dayViewDate := ⟨2025, 2, 10, 0⟩ }
      (some ⟨"u1"⟩) (.success none)).scheduledMachines ≠
      [("2025-03-10", [⟨.num 7, 1, some "2025-03-10", none⟩])] := by
  decide

/-! ## Properties of `getMachines` -/

/-- C15 (as amended): when the backend call of `getMachines` throws the error `e`, the result
is the demo machines with `success: true` and `totalCount` 2 if the text of the error (its
message, or its code when the message is missing or empty) contains '42P01', or 'relation'
or 'table' in any letter case, and otherwise `success: false` with the message of the error;
when no client is available the result is `success: false` with the message 'Supabase client
no disponible'. -/
theorem getMachines_on_throw (run : MachinesQuery → QueryResponse) (filters : Filters)
    (page pageSize : Int) (e : BackendError)
    (h : run (buildMachinesQuery filters page pageSize) = .threw e) :
    (looksLikeMissingTable (errorText e) = true →
      getMachines (some run) filters page pageSize =
        { success := true, data := some DEMO_MACHINES, totalCount := some 2, error := none }) ∧
    (looksLikeMissingTable (errorText e) = false →
      getMachines (some run) filters page pageSize =
        { success := false, data := none, totalCount := none, error := e.message }) ∧
    getMachines none filters page pageSize =
      { success := false, data := none, totalCount := none,
        error := some "Supabase client no disponible" } := by
  refine ⟨?_, ?_, ?_⟩
  · intro hl
    simp only [getMachines, h, getMachinesCatch, hl, if_true]
    rfl
  · intro hl
    simp only [getMachines, h, getMachinesCatch, hl]
    rfl
  · have hl : looksLikeMissingTable
        (errorText { message := some "Supabase client no disponible", code := none }) = false := by
      decide
    simp only [getMachines, getMachinesCatch, hl]
    rfl

/-- Witness of C15: a thrown missing-table error gives the demo machines, a thrown network
error gives `success: false`. -/
theorem getMachines_on_throw_witness :
    getMachines (some (fun _ => .threw ⟨some "relation machines does not exist", some "42P01"⟩))
      ⟨none, none, none, none, none⟩ 1 12 =
      { success := true, data := some DEMO_MACHINES, totalCount := some 2, error := none } ∧
    getMachines (some (fun _ => .threw ⟨some "Failed to fetch", none⟩))
      ⟨none, none, none, none, none⟩ 1 12 =
      { success := false, data := none, totalCount := none, error := some "Failed to fetch" } :=
  ⟨(getMachines_on_throw (fun _ => .threw ⟨some "relation machines does not exist", some "42P01"⟩)
      ⟨none, none, none, none, none⟩ 1 12 _ rfl).1 (by decide),
   (getMachines_on_throw (fun _ => .threw ⟨some "Failed to fetch", none⟩)
      ⟨none, none, none, none, none⟩ 1 12 _ rfl).2.1 (by decide)⟩

/-- C15 (as stated) fails: with no client available the error 'Supabase client no
disponible' is thrown, its text names no missing table, and `getMachines` returns
`success: false`; so it does for a thrown network error. -/
theorem getMachines_throw_not_demo :
    (getMachines none ⟨none, none, none, none, none⟩ 1 12).success = false ∧
    (getMachines none ⟨none, none, none, none, none⟩ 1 12).data = none ∧
    (getMachines (some (fun _ => .threw ⟨some "Failed to fetch", none⟩))
      ⟨none, none, none, none, none⟩ 1 12).success = false := by
  refine ⟨by decide, by decide, by decide⟩

/-- When the backend answers `getMachines` with no rows (`null` or an empty list) and no error,
or with an error whose tested text contains '42P01', or 'relation' or 'table' in any letter
case, the result is `success: true` with the demo machines and `totalCount` 2. The text
tested is the message of the error when it has a non-empty one, and its code otherwise. -/
theorem getMachines_demo_fallback (run : MachinesQuery → QueryResponse) (filters : Filters)
    (page pageSize : Int)
    (h : (∃ count, run (buildMachinesQuery filters page pageSize) = .answered none none count) ∨
      (∃ count, run (buildMachinesQuery filters page pageSize) = .answered (some []) none count) ∨
      (∃ data e count, run (buildMachinesQuery filters page pageSize) =
          .answered data (some e) count ∧ looksLikeMissingTable (errorText e) = true)) :
    getMachines (some run) filters page pageSize =
      { success := true, data := some DEMO_MACHINES, totalCount := some 2, error := none } ∧
    DEMO_MACHINES.length = 2 ∧
    (∀ (e : BackendError) (s : String), e.message = some s → s ≠ "" → errorText e = s) ∧
    (∀ (e : BackendError) (c : String), (e.message = none ∨ e.message = some "") →
      e.code = some c → errorText e = c) := by
  refine ⟨?_, rfl, ?_, ?_⟩
  · rcases h with ⟨count, h⟩ | ⟨count, h⟩ | ⟨data, e, count, h, hl⟩
    · simp only [getMachines, h]; rfl
    · simp only [getMachines, h]; rfl
    · simp only [getMachines, h, getMachinesCatch, hl, if_true]; rfl
  · intro e s hm hs
    simp [errorText, orString, hm, hs]
  · intro e c hm hc
    rcases hm with hm | hm
    · by_cases hce : c = ""
      · simp [errorText, orString, hm, hc, hce]
      · simp [errorText, orString, hm, hc, hce]
    · by_cases hce : c = ""
      · simp [errorText, orString, hm, hc, hce]
      · simp [errorText, orString, hm, hc, hce]

/-- The demo fallback at an empty answer, and at an error without message whose code is
42P01. -/
theorem getMachines_demo_fallback_witness :
    getMachines (some (fun _ => .answered (some []) none (some 0)))
      ⟨none, none, none, none, some "zzz"⟩ 1 12 =
      { success := true, data := some DEMO_MACHINES, totalCount := some 2, error := none } ∧
    getMachines (some (fun _ => .answered none (some ⟨none, some "42P01"⟩) none))
      ⟨none, none, none, none, none⟩ 1 12 =
      { success := true, data := some DEMO_MACHINES, totalCount := some 2, error := none } :=
  ⟨(getMachines_demo_fallback (fun _ => .answered (some []) none (some 0))
      ⟨none, none, none, none, some "zzz"⟩ 1 12 (Or.inr (Or.inl ⟨some 0, rfl⟩))).1,
   (getMachines_demo_fallback (fun _ => .answered none (some ⟨none, some "42P01"⟩) none)
      ⟨none, none, none, none, none⟩ 1 12
      (Or.inr (Or.inr ⟨none, ⟨none, some "42P01"⟩, none, rfl, by decide⟩))).1⟩

set_option maxRecDepth 8000 in
/-- C16: the backend answers `getMachines` with an error whose code is '42P01' (missing table)
and whose message, in Spanish, has none of the three markers. The code passes the test for
'42P01', but the text tested, `error.message || error.code`, is the message, so the code
is never read and `getMachines` returns `success: false` without the demo machines; the
same error without a message gives the demo machines. -/
theorem getMachines_code_ignored :
    jsIncludes "42P01" "42P01" = true ∧
    errorText ⟨some "no existe la relación machines", some "42P01"⟩ =
      "no existe la relación machines" ∧
    looksLikeMissingTable (errorText ⟨some "no existe la relación machines", some "42P01"⟩) =
      false ∧
    getMachines
      (some (fun _ => .answered none (some ⟨some "no existe la relación machines", some "42P01"⟩)
        none))
      ⟨none, none, none, none, none⟩ 1 12 =
      { success := false, data := none, totalCount := none,
        error := some "no existe la relación machines" } ∧
    getMachines (some (fun _ => .answered none (some ⟨none, some "42P01"⟩) none))
      ⟨none, none, none, none, none⟩ 1 12 =
      { success := true, data := some DEMO_MACHINES, totalCount := some 2, error := none } := by
  refine ⟨by decide, by decide, by decide, by decide, by decide⟩

/-- A row that passes the query built from the filters satisfies every supplied filter. -/
theorem satisfiesFilters_of_query (ilike : String → String → Bool) (filters : Filters)
    (page pageSize : Int) (m : Machine)
    (h : satisfiesQuery ilike (buildMachinesQuery filters page pageSize) m = true) :
    satisfiesFilters ilike filters m := by
  simp only [satisfiesQuery, buildMachinesQuery, Bool.and_eq_true] at h
  obtain ⟨⟨⟨⟨h1, h2⟩, h3⟩, h4⟩, h5⟩ := h
  refine ⟨?_, ?_, ?_, ?_, ?_⟩
  · intro v hv
    rw [hv] at h1
    simpa using h1
  · intro v hv
    rw [hv] at h2
    simpa using h2
  · intro v hv
    rw [hv] at h3
    simpa using h3
  · intro v hv
    rw [hv] at h4
    simpa using h4
  · intro v hv
    rw [hv] at h5
    simpa using h5

/-- The model backend applies the operators it is sent. -/
theorem filteringBackend_applies (ilike : String → String → Bool) (table : List Machine)
    (q : MachinesQuery) (rows : List Machine) (e : Option BackendError) (c : Option Nat)
    (h : filteringBackend ilike table q = .answered (some rows) e c) :
    ∀ m ∈ rows, satisfiesQuery ilike q m = true := by
  simp only [filteringBackend, QueryResponse.answered.injEq, Option.some.injEq] at h
  intro m hm
  rw [← h.1] at hm
  have hm' := List.mem_of_mem_drop (List.mem_of_mem_take hm)
  exact (List.mem_filter.mp hm').2

/-- C17 (as amended): given a backend that applies the operators it is sent, a successful
`getMachines` result is either the demo machines (the backend answered with no rows, or with
a missing-table error) or carries the non-empty rows of the backend's answer, each of which
satisfies every filter that was supplied, the filters being combined with logical AND. -/
theorem getMachines_rows_satisfy_filters (ilike : String → String → Bool)
    (run : MachinesQuery → QueryResponse) (filters : Filters) (page pageSize : Int)
    (happ : ∀ q rows e c, run q = .answered (some rows) e c →
      ∀ m ∈ rows, satisfiesQuery ilike q m = true)
    (hs : (getMachines (some run) filters page pageSize).success = true) :
    getMachines (some run) filters page pageSize = demoResult ∨
    ∃ rows count, rows ≠ [] ∧
      run (buildMachinesQuery filters page pageSize) = .answered (some rows) none count ∧
      getMachines (some run) filters page pageSize =
        { success := true, data := some rows, totalCount := count, error := none } ∧
      ∀ m ∈ rows, satisfiesFilters ilike filters m := by
  have hcatch : ∀ e, (getMachinesCatch e).success = true → getMachinesCatch e = demoResult := by
    intro e he
    unfold getMachinesCatch at he ⊢
    simp only [] at he ⊢
    split
    · rfl
    · rename_i hl
      simp [hl] at he
  cases hr : run (buildMachinesQuery filters page pageSize) with
  | threw e =>
    left
    simp only [getMachines, hr] at hs ⊢
    exact hcatch e hs
  | answered data error count =>
    cases error with
    | some e =>
      left
      simp only [getMachines, hr] at hs ⊢
      exact hcatch e hs
    | none =>
      cases data with
      | none => left; simp only [getMachines, hr]
      | some rows =>
        by_cases hlen : rows.length = 0
        · left; simp only [getMachines, hr, hlen, if_true]
        · right
          refine ⟨rows, count, ?_, rfl, ?_, ?_⟩
          · intro hnil; exact hlen (by rw [hnil]; rfl)
          · simp only [getMachines, hr, hlen, if_false]
          · intro m hm
            exact satisfiesFilters_of_query ilike filters page pageSize m
              (happ _ rows none count hr m hm)

/-- Witness of C17: the backend holds the two demo rows and the filter asks for the
difficulty 'Fácil'; the result is the one row 'ICA_1'. -/
theorem getMachines_rows_satisfy_filters_witness :
    (getMachines (some (filteringBackend (fun _ _ => true) DEMO_MACHINES))
      ⟨some "Fácil", none, none, none, none⟩ 1 12).data =
        some (DEMO_MACHINES.filter (fun m => decide (m.name = "ICA_1"))) ∧
    (getMachines (some (filteringBackend (fun _ _ => true) DEMO_MACHINES))
        ⟨some "Fácil", none, none, none, none⟩ 1 12 = demoResult ∨
      ∃ rows count, rows ≠ [] ∧
        filteringBackend (fun _ _ => true) DEMO_MACHINES
          (buildMachinesQuery ⟨some "Fácil", none, none, none, none⟩ 1 12) =
            .answered (some rows) none count ∧
        getMachines (some (filteringBackend (fun _ _ => true) DEMO_MACHINES))
          ⟨some "Fácil", none, none, none, none⟩ 1 12 =
          { success := true, data := some rows, totalCount := count, error := none } ∧
        ∀ m ∈ rows, satisfiesFilters (fun _ _ => true)
          ⟨some "Fácil", none, none, none, none⟩ m) :=
  ⟨by decide,
   getMachines_rows_satisfy_filters (fun _ _ => true)
     (filteringBackend (fun _ _ => true) DEMO_MACHINES)
     ⟨some "Fácil", none, none, none, none⟩ 1 12
     (fun q rows e c h => filteringBackend_applies _ _ q rows e c h) (by decide)⟩

/-- C17 (as stated) fails: the backend holds the two demo rows and applies the operators it
is sent; the filter asks for the difficulty 'Insane', no row passes, and the successful
result carries the two demo machines, whose difficulties are 'Muy Fácil' and 'Fácil'. -/
theorem getMachines_empty_filter_gives_demo :
    (getMachines (some (filteringBackend (fun _ _ => true) DEMO_MACHINES))
      ⟨some "Insane", none, none, none, none⟩ 1 12).success = true ∧
    (getMachines (some (filteringBackend (fun _ _ => true) DEMO_MACHINES))
      ⟨some "Insane", none, none, none, none⟩ 1 12).data = some DEMO_MACHINES ∧
    ¬ (∀ m ∈ DEMO_MACHINES,
        satisfiesFilters (fun _ _ => true) ⟨some "Insane", none, none, none, none⟩ m) := by
  refine ⟨by decide, by decide, ?_⟩
  intro h
  have h1 := (h (DEMO_MACHINES.get ⟨0, by decide⟩) (List.get_mem _ _ _)).1 "Insane" (by decide)
  exact absurd h1 (by decide)

/-! ## Properties of the schedule export -/

theorem jsJoin_cons_cons (sep x y : String) (rest : List String) :
    jsJoin sep (x :: y :: rest) = x ++ sep ++ jsJoin sep (y :: rest) := rfl

/-- The pieces between separators of a joined list are the elements of the list, when no
element contains the separator. -/
theorem splitOnChar_jsJoin (x : String) (ls : List String)
    (h : ∀ s ∈ x :: ls, '\n' ∉ s.data) :
    splitOnChar '\n' (jsJoin "\n" (x :: ls)).data = (x :: ls).map (·.data) := by
  induction ls generalizing x with
  | nil =>
    simp only [jsJoin, List.map_cons, List.map_nil]
    exact splitOnChar_no_sep _ _ (h x (List.mem_cons_self _ _))
  | cons y rest ih =>
    have hx := h x (List.mem_cons_self _ _)
    have hrest : ∀ s ∈ y :: rest, '\n' ∉ s.data := fun s hs => h s (List.mem_cons_of_mem _ hs)
    have hdata : (jsJoin "\n" (x :: y :: rest)).data =
        x.data ++ '\n' :: (jsJoin "\n" (y :: rest)).data := by
      rw [jsJoin_cons_cons]
      simp [String.data_append]
    rw [hdata, splitOnChar_append _ _ _ hx, ih y hrest]
    rfl

theorem jsJoin_csvRow (r : ScheduleRow) :
    jsJoin "," (csvRow r) =
      r.date ++ ",\"" ++ r.machine ++ "\"," ++ r.difficulty ++ "," ++ r.os := by
  simp only [csvRow, jsJoin]
  apply String.ext
  simp [String.data_append]

/-- C18: for every list of n schedule rows whose fields contain no line feed, the text
returned by `convertToCSV` has exactly n + 1 lines: the header
'Fecha,Máquina,Dificultad,Sistema Operativo', then for the i-th row its date, its machine
name between double quotes, its difficulty and its operating system, joined by commas. -/
theorem convertToCSV_lines (data : List ScheduleRow)
    (h : ∀ r ∈ data, '\n' ∉ r.date.data ∧ '\n' ∉ r.machine.data ∧
      '\n' ∉ r.difficulty.data ∧ '\n' ∉ r.os.data) :
    csvLines (convertToCSV data) =
      "Fecha,Máquina,Dificultad,Sistema Operativo" ::
        data.map (fun r =>
          r.date ++ ",\"" ++ r.machine ++ "\"," ++ r.difficulty ++ "," ++ r.os) ∧
    (csvLines (convertToCSV data)).length = data.length + 1 := by
  have hlines : ∀ s ∈ (csvHeaders :: data.map csvRow).map (fun row => jsJoin "," row),
      '\n' ∉ s.data := by
    intro s hs
    simp only [List.map_cons, List.mem_cons, List.mem_map] at hs
    rcases hs with rfl | ⟨row, ⟨r, hr, rfl⟩, rfl⟩
    · decide
    · obtain ⟨h1, h2, h3, h4⟩ := h r hr
      rw [jsJoin_csvRow]
      simp only [String.data_append, List.mem_append, not_or]
      refine ⟨⟨⟨⟨⟨⟨h1, by decide⟩, h2⟩, by decide⟩, h3⟩, by decide⟩, h4⟩
  have hsplit := splitOnChar_jsJoin (jsJoin "," csvHeaders)
    ((data.map csvRow).map (fun row => jsJoin "," row)) (by simpa using hlines)
  have heq : csvLines (convertToCSV data) =
      "Fecha,Máquina,Dificultad,Sistema Operativo" ::
        data.map (fun r =>
          r.date ++ ",\"" ++ r.machine ++ "\"," ++ r.difficulty ++ "," ++ r.os) := by
    simp only [csvLines, convertToCSV, List.map_cons]
    rw [hsplit]
    simp only [List.map_cons, List.map_map]
    congr 1
    apply List.map_congr_left
    intro r _
    simp only [Function.comp]
    rw [jsJoin_csvRow]
  refine ⟨heq, ?_⟩
  rw [heq]
  simp

/-- Witness of C18: the export of entries on 2025-03-01 (Injection) and 2025-03-02 (ICA_1)
has exactly 3 lines, with "Injection" and "ICA_1" between double quotes. -/
theorem convertToCSV_lines_witness :
    (exportSchedule
      [("2025-03-01", [⟨.num 1, 1, some "2025-03-01", DEMO_MACHINES.get? 0⟩]),
       ("2025-03-02", [⟨.num 2, 2, some "2025-03-02", DEMO_MACHINES.get? 1⟩])]).map csvLines =
      some ["Fecha,Máquina,Dificultad,Sistema Operativo",
        "2025-03-01,\"Injection\",Muy Fácil,Linux",
        "2025-03-02,\"ICA_1\",Fácil,Linux"] ∧
    csvLines (convertToCSV [⟨"2025-03-01", "Injection", "Muy Fácil", "Linux"⟩,
        ⟨"2025-03-02", "ICA_1", "Fácil", "Linux"⟩]) =
      ["Fecha,Máquina,Dificultad,Sistema Operativo",
        "2025-03-01,\"Injection\",Muy Fácil,Linux",
        "2025-03-02,\"ICA_1\",Fácil,Linux"] :=
  ⟨by decide,
   (convertToCSV_lines [⟨"2025-03-01", "Injection", "Muy Fácil", "Linux"⟩,
      ⟨"2025-03-02", "ICA_1", "Fácil", "Linux"⟩] (by decide)).1⟩

/-! ## Properties of the status actions -/

/-- The two handlers that mark a machine solved write no status other than 'resuelta'. -/
theorem solved_handlers_write_resuelta (user : Option User) (machineId : String)
    (machine : Option Machine) (target : Checkbox) (card : Option Checkbox)
    (confirmed gatewayOk : Bool) :
    (∀ w ∈ (handleSolvedChange user machineId target confirmed gatewayOk).writes,
      w.status = "resuelta") ∧
    (∀ w ∈ (markSolvedClick user machine card confirmed gatewayOk).writes,
      w.status = "resuelta") := by
  constructor
  · intro w hw
    unfold handleSolvedChange at hw
    cases user with
    | none => simp at hw
    | some u =>
      simp only [] at hw
      split at hw
      · simp at hw
      · split at hw
        · simp at hw
        · split at hw <;> simp at hw <;> rw [hw]
  · intro w hw
    unfold markSolvedClick at hw
    split at hw
    · split at hw
      · simp at hw
      · simp only [] at hw
        split at hw <;> simp at hw <;> rw [hw]
    · simp at hw

/-- C19 at the failing input: the user `u1` marks machine 1 solved with the card checkbox
and confirms, so the stored status is 'resuelta'; a change of the wanted checkbox of the same
card then writes 'deseada' (checked) or 'none' (unchecked) for that machine, and so does the
modal button 'mark wanted'; the stored status is no longer 'resuelta'. -/
theorem wanted_actions_overwrite_solved :
    storedStatus (runStatusActions (some ⟨"u1"⟩) []
      [.solvedChange "1" ⟨true, false⟩ true]) "u1" "1" = some "resuelta" ∧
    (StatusAction.wantedChange "1" ⟨true, false⟩).writes (some ⟨"u1"⟩) =
      [⟨"u1", "1", "deseada"⟩] ∧
    storedStatus (runStatusActions (some ⟨"u1"⟩) []
      [.solvedChange "1" ⟨true, false⟩ true, .wantedChange "1" ⟨true, false⟩]) "u1" "1" =
        some "deseada" ∧
    storedStatus (runStatusActions (some ⟨"u1"⟩) []
      [.solvedChange "1" ⟨true, false⟩ true, .wantedChange "1" ⟨false, false⟩]) "u1" "1" =
        some "none" ∧
    (DEMO_MACHINES.get? 0).map (fun m =>
      storedStatus (runStatusActions (some ⟨"u1"⟩) []
        [.solvedChange "1" ⟨true, false⟩ true, .markWanted m none]) "u1" "1") =
        some (some "deseada") := by
  refine ⟨by decide, by decide, by decide, by decide, by decide⟩

/-- C20 (as amended): `handleSolvedChange` fired with the solved checkbox unchecked makes no
gateway write, so the stored status of every machine is as it was, whoever is signed in and
whatever the confirmation and the gateway would answer; with a user signed in it sets the
checkbox back to checked and shows the error notification, and with no user signed in it
leaves the checkbox as the click left it. -/
theorem handleSolvedChange_unchecked (user : Option User) (machineId : String)
    (target : Checkbox) (confirmed gatewayOk : Bool) (store : StatusStore)
    (h : target.checked = false) :
    (handleSolvedChange user machineId target confirmed gatewayOk).writes = [] ∧
    applyWrites store (handleSolvedChange user machineId target confirmed gatewayOk).writes =
      store ∧
    (∀ u, user = some u →
      (handleSolvedChange user machineId target confirmed gatewayOk).checkbox =
        { target with checked := true } ∧
      (handleSolvedChange user machineId target confirmed gatewayOk).notifications =
        [("Una máquina marcada como resuelta no puede deshacerse.", "error")]) ∧
    (user = none →
      (handleSolvedChange user machineId target confirmed gatewayOk).checkbox = target) := by
  have hw : (handleSolvedChange user machineId target confirmed gatewayOk).writes = [] := by
    cases user <;> simp [handleSolvedChange, h]
  refine ⟨hw, by rw [hw]; rfl, ?_, ?_⟩
  · intro u hu
    subst hu
    simp [handleSolvedChange, h]
  · intro hu
    subst hu
    simp [handleSolvedChange]

/-- Witness of C20: the user `u1`, machine 1 stored as solved, the checkbox unchecked by the
click. -/
theorem handleSolvedChange_unchecked_witness :
    (handleSolvedChange (some ⟨"u1"⟩) "1" ⟨false, false⟩ true true).writes = [] ∧
    storedStatus (applyWrites [⟨"u1", "1", "resuelta"⟩]
      (handleSolvedChange (some ⟨"u1"⟩) "1" ⟨false, false⟩ true true).writes) "u1" "1" =
        some "resuelta" ∧
    (handleSolvedChange (some ⟨"u1"⟩) "1" ⟨false, false⟩ true true).checkbox.checked = true := by
  have h := handleSolvedChange_unchecked (some ⟨"u1"⟩) "1" ⟨false, false⟩ true true
    [⟨"u1", "1", "resuelta"⟩] rfl
  refine ⟨h.1, ?_, ?_⟩
  · rw [h.2.1]; decide
  · rw [(h.2.2.1 ⟨"u1"⟩ rfl).1]

/-- C20 (as stated) fails: with no user signed in the handler returns at once, and a solved
checkbox that the click unchecked stays unchecked. -/
theorem handleSolvedChange_no_user :
    (handleSolvedChange none "1" ⟨false, false⟩ true true).checkbox.checked = false := by
  decide

/-! ## Properties of the roadmap -/

/-- For a roadmap with machines, `calculateProgress` counts as completed the machines whose
`completed` property is true, and its percentage is `(completed / total) * 100` in double
arithmetic, within `1 / 2 ^ 45` of 100 * completed / total. -/
theorem calculateProgress_formula (s : RoadmapManager) (cert : Certification)
    (hsel : s.selectedCertification = some cert) (hpos : 0 < cert.machines.length) :
    (calculateProgress s).completed = (cert.machines.filter isCompleted).length ∧
    (calculateProgress s).total = cert.machines.length ∧
    |(calculateProgress s).percentage -
      100 * ((cert.machines.filter isCompleted).length : ℚ) / (cert.machines.length : ℚ)| ≤
        1 / 2 ^ 45 := by
  simp only [calculateProgress, hsel, gt_iff_lt, hpos, if_true, true_and]
  exact percent_sub_le _ _ (Nat.cast_nonneg _) (by exact_mod_cast hpos)
    (by exact_mod_cast List.length_filter_le _ _)

/-- C21: `updateMachineProgress` assigns no field of the manager, so the progress computed
after it is the one computed before it, whatever the checkbox; on the OSCP roadmap, whose only
machine is machine 1, checking the box of machine 1 marks its element as completed while
the progress stays at 0 completed of 1, 0 percent, and no completion notice is shown. -/
theorem updateMachineProgress_keeps_progress :
    (∀ (s : RoadmapManager) (checkbox : RoadmapCheckbox),
      (updateMachineProgress s checkbox).manager = s ∧
      calculateProgress (updateMachineProgress s checkbox).manager = calculateProgress s ∧
      (updateMachineProgress s checkbox).displayed = calculateProgress s) ∧
    (selectCertification RoadmapManager.new (some 1)).selectedCertification.map
      (fun cert => cert.machines.map (·.id)) = some [1] ∧
    (calculateProgress (selectCertification RoadmapManager.new (some 1))).completed = 0 ∧
    (updateMachineProgress (selectCertification RoadmapManager.new (some 1))
      { machineId := "1", checked := true }).completedClass = true ∧
    calculateProgress (updateMachineProgress (selectCertification RoadmapManager.new (some 1))
      { machineId := "1", checked := true }).manager =
        { completed := 0, total := 1, remaining := 1, percentage := 0 } ∧
    (updateMachineProgress (selectCertification RoadmapManager.new (some 1))
      { machineId := "1", checked := true }).notifications = [] := by
  refine ⟨fun s checkbox => ⟨rfl, rfl, rfl⟩, by decide, by decide, rfl, ?_, ?_⟩
  · simp [updateMachineProgress, calculateProgress, selectCertification, RoadmapManager.new,
      loadCertifications, generateOSCPMachines, isCompleted, toDouble]
  · simp [updateMachineProgress, calculateProgress, selectCertification, RoadmapManager.new,
      loadCertifications, generateOSCPMachines, isCompleted, toDouble]

/-! ## Properties of the local fallback store -/

/-- A key holds the value just stored under it. -/
theorem getItem_setItem {α : Type} (ls : LocalStorage α) (key : String) (v : α) :
    getItem (setItem ls key v) key = some (Stored.json v) := by
  unfold getItem setItem
  by_cases h : ls.any (fun kv => decide (kv.1 = key)) = true
  · rw [if_pos h]
    induction ls with
    | nil => simp at h
    | cons a l ih =>
      by_cases ha : a.1 = key
      · simp [List.find?, ha]
      · have hl : l.any (fun kv => decide (kv.1 = key)) = true := by
          simpa [List.any_cons, ha] using h
        simp only [List.map_cons, ha, if_false, List.find?, decide_False]
        exact ih hl
  · rw [if_neg h]
    have hnone : ∀ kv ∈ ls, ¬ kv.1 = key := by
      intro kv hkv heq
      exact h (List.any_eq_true.mpr ⟨kv, hkv, by simp [heq]⟩)
    rw [List.find?_append]
    have hf : ls.find? (fun kv => decide (kv.1 = key)) = none := by
      rw [List.find?_eq_none]
      intro kv hkv
      simp [hnone kv hkv]
    simp [hf]

/-- The value just stored under a key is the one parsed from it. -/
theorem parseItem_setItem {α : Type} (ls : LocalStorage α) (key : String) (v default : α) :
    parseItem (setItem ls key v) key default = some v := by
  simp [parseItem, getItem_setItem]

/-- A property has the value just assigned to it. -/
theorem propGet_propSet (o : StatusObject) (k : Nat) (v : String) :
    propGet (propSet o k v) k = some v := by
  unfold propGet propSet
  by_cases h : o.any (fun kv => decide (kv.1 = k)) = true
  · rw [if_pos h]
    induction o with
    | nil => simp at h
    | cons a l ih =>
      by_cases ha : a.1 = k
      · simp [List.find?, ha]
      · have hl : l.any (fun kv => decide (kv.1 = k)) = true := by
          simpa [List.any_cons, ha] using h
        simp only [List.map_cons, ha, if_false, List.find?, decide_False]
        exact ih hl
  · rw [if_neg h]
    have hnone : ∀ kv ∈ o, ¬ kv.1 = k := by
      intro kv hkv heq
      exact h (List.any_eq_true.mpr ⟨kv, hkv, by simp [heq]⟩)
    rw [List.find?_append]
    have hf : o.find? (fun kv => decide (kv.1 = k)) = none := by
      rw [List.find?_eq_none]
      intro kv hkv
      simp [hnone kv hkv]
    simp [hf]

/-- Replacing the value of one property leaves the first pair of any other. -/
theorem find_replace_ne (o : StatusObject) (k k' : Nat) (v : String) (hne : k' ≠ k) :
    (o.map (fun kv => if kv.1 = k then (k, v) else kv)).find? (fun kv => decide (kv.1 = k')) =
      o.find? (fun kv => decide (kv.1 = k')) := by
  induction o with
  | nil => rfl
  | cons a l ih =>
    by_cases ha : a.1 = k
    · have ha' : ¬ a.1 = k' := fun h => hne (h.symm.trans ha)
      have hk : ¬ k = k' := fun h => hne h.symm
      simp only [List.map_cons, ha, if_true, List.find?, hk, ha', decide_False]
      exact ih
    · simp only [List.map_cons, ha, if_false, List.find?]
      rw [ih]

/-- An assignment leaves the other properties as they were. -/
theorem propGet_propSet_ne (o : StatusObject) (k k' : Nat) (v : String) (hne : k' ≠ k) :
    propGet (propSet o k v) k' = propGet o k' := by
  unfold propGet propSet
  by_cases h : o.any (fun kv => decide (kv.1 = k)) = true
  · rw [if_pos h, find_replace_ne o k k' v hne]
  · rw [if_neg h, List.find?_append]
    have hk : ¬ k = k' := fun h => hne h.symm
    cases hf : o.find? (fun kv => decide (kv.1 = k')) with
    | none => simp [List.find?, hk]
    | some x => simp

/-- C22: with no backend client, when `updateUserMachineStatus(u, m, s)` reports success for
one of the three statuses - whatever the store held for `m` before - the next
`getUserMachineStatus(u, m)` reports success with `data.status = s`, and the answer for every
other machine of `u` is the one given before the write. -/
theorem updateUserMachineStatus_fallback_visible (storage : LocalStorage StatusObject)
    (userId : String) (m : Nat) (s : String) (setItemOk : Bool)
    (hs : s = "none" ∨ s = "deseada" ∨ s = "resuelta")
    (hok : (updateUserMachineStatus none none setItemOk storage userId m s).1.success = true) :
    getUserMachineStatus none
        (updateUserMachineStatus none none setItemOk storage userId m s).2 userId m =
      { success := true, data := some { status := s, user_id := userId, machine_id := m },
        error := none } ∧
    ∀ m', m' ≠ m →
      getUserMachineStatus none
          (updateUserMachineStatus none none setItemOk storage userId m s).2 userId m' =
        getUserMachineStatus none storage userId m' := by
  have hne : s ≠ "" := by
    rcases hs with h | h | h <;> subst h <;> decide
  simp only [updateUserMachineStatus, updateUserMachineStatusCatch] at hok ⊢
  cases hp : parseItem storage (userMachinesKey userId) [] with
  | none => simp [hp] at hok
  | some map =>
    cases setItemOk with
    | false => simp [hp] at hok
    | true =>
      simp only [hp, if_true, getUserMachineStatus, getUserMachineStatusCatch,
        parseItem_setItem]
      constructor
      · simp [propGet_propSet, Option.filter, hne]
      · intro m' hm'
        rw [propGet_propSet_ne map m m' s hm']

/-- Witness of C22: machine 1 is stored as solved, machine 2 as wanted; machine 1 is written
back to `none`. -/
theorem updateUserMachineStatus_fallback_visible_witness :
    (getUserMachineStatus none
      (updateUserMachineStatus none none true
        [("user_machines:u", Stored.json [(1, "resuelta"), (2, "deseada")])] "u" 1 "none").2
      "u" 1).data.map (·.status) = some "none" ∧
    (getUserMachineStatus none
      (updateUserMachineStatus none none true
        [("user_machines:u", Stored.json [(1, "resuelta"), (2, "deseada")])] "u" 1 "none").2
      "u" 2).data.map (·.status) = some "deseada" := by
  have h := updateUserMachineStatus_fallback_visible
    [("user_machines:u", Stored.json [(1, "resuelta"), (2, "deseada")])] "u" 1 "none" true
    (Or.inl rfl) (by decide)
  constructor
  · rw [h.1]
    rfl
  · rw [h.2 2 (by decide)]
    decide

/-- In an object, where each property occurs once, a pair of the object is what a read of its
key gives. -/
theorem propGet_of_mem (o : StatusObject) (hkeys : (o.map (·.1)).Nodup) (kv : Nat × String)
    (hkv : kv ∈ o) : propGet o kv.1 = some kv.2 := by
  induction o with
  | nil => simp at hkv
  | cons a l ih =>
    rw [List.map_cons, List.nodup_cons] at hkeys
    rcases List.mem_cons.mp hkv with h | h
    · subst h
      simp [propGet, List.find?]
    · have hne : ¬ a.1 = kv.1 := by
        intro heq
        exact hkeys.1 (heq ▸ List.mem_map_of_mem (·.1) h)
      have := ih hkeys.2 h
      simpa [propGet, List.find?, hne] using this

/-- The entries counted by the statistics are the machines whose stored status is the one
counted. -/
theorem count_status_eq (o : StatusObject) (hkeys : (o.map (·.1)).Nodup) (status : String) :
    ((o.map (·.2)).filter (fun s => decide (s = status))).length =
      (machinesWithStatus o status).length := by
  unfold machinesWithStatus
  rw [List.filter_map, List.filter_map, List.length_map, List.length_map]
  congr 1
  apply List.filter_congr
  intro kv hkv
  simp only [Function.comp]
  rw [propGet_of_mem o hkeys kv hkv]
  simp

/-- Replacing the status of a present machine by `resuelta`, when no machine had it, leaves
exactly one entry with it. -/
theorem count_replace_resuelta (o : StatusObject) (k : Nat) (hkeys : (o.map (·.1)).Nodup)
    (hk : k ∈ o.map (·.1)) (hnone : ∀ kv ∈ o, kv.2 ≠ "resuelta") :
    (((o.map (fun kv => if kv.1 = k then (k, "resuelta") else kv)).map (·.2)).filter
      (fun s => decide (s = "resuelta"))).length = 1 := by
  induction o with
  | nil => simp at hk
  | cons a l ih =>
    rw [List.map_cons, List.nodup_cons] at hkeys
    have hl : ∀ kv ∈ l, kv.2 ≠ "resuelta" := fun kv h => hnone kv (List.mem_cons_of_mem a h)
    by_cases ha : a.1 = k
    · have hid : l.map (fun kv => if kv.1 = k then (k, "resuelta") else kv) = l := by
        conv_rhs => rw [← List.map_id l]
        apply List.map_congr_left
        intro kv hkv
        have : ¬ kv.1 = k := by
          intro heq
          exact hkeys.1 (ha ▸ heq ▸ List.mem_map_of_mem (·.1) hkv)
        simp [this]
      have hz : ((l.map (·.2)).filter (fun s => decide (s = "resuelta"))) = [] := by
        rw [List.filter_eq_nil_iff]
        intro s hs
        obtain ⟨kv, hkv, rfl⟩ := List.mem_map.mp hs
        simpa using hl kv hkv
      simp only [List.map_cons, ha, if_true, hid]
      simp [List.filter, hz]
    · have hk' : k ∈ l.map (·.1) := by
        rcases List.mem_cons.mp hk with h | h
        · exact absurd h.symm ha
        · exact h
      have ha2 : ¬ a.2 = "resuelta" := hnone a (List.mem_cons_self a l)
      simp only [List.map_cons, ha, if_false, List.filter, ha2, decide_False]
      exact ih hkeys.2 hk' hl

/-- Writing `resuelta` for a machine, when no machine had it, leaves exactly one entry with
it. -/
theorem count_propSet_resuelta (o : StatusObject) (k : Nat) (hkeys : (o.map (·.1)).Nodup)
    (hnone : ∀ kv ∈ o, kv.2 ≠ "resuelta") :
    (((propSet o k "resuelta").map (·.2)).filter (fun s => decide (s = "resuelta"))).length =
      1 := by
  unfold propSet
  by_cases h : o.any (fun kv => decide (kv.1 = k)) = true
  · rw [if_pos h]
    obtain ⟨kv, hkv, hdec⟩ := List.any_eq_true.mp h
    have hk : k ∈ o.map (·.1) := by
      have : kv.1 = k := by simpa using hdec
      exact this ▸ List.mem_map_of_mem (·.1) hkv
    exact count_replace_resuelta o k hkeys hk hnone
  · rw [if_neg h]
    have hz : ((o.map (·.2)).filter (fun s => decide (s = "resuelta"))) = [] := by
      rw [List.filter_eq_nil_iff]
      intro s hs
      obtain ⟨kv, hkv, rfl⟩ := List.mem_map.mp hs
      simpa using hnone kv hkv
    simp [List.filter_append, hz]

/-- C23: with no backend client, `getUserStats(u)` reports as `solved` the number of machines
of `u` whose stored status is `resuelta`, as `wanted` the number whose stored status is
`deseada`, and as `total` their sum; and when no machine is solved, after a successful
`updateUserMachineStatus(u, 1, 'resuelta')` the solved count is 1. -/
theorem getUserStats_fallback_counts (storage : LocalStorage StatusObject) (userId : String)
    (map : StatusObject) (setItemOk : Bool)
    (hmap : parseItem storage (userMachinesKey userId) [] = some map)
    (hkeys : (map.map (·.1)).Nodup) :
    getUserStats none storage userId =
      { success := true,
        data := some
          { solved := (machinesWithStatus map "resuelta").length,
            wanted := (machinesWithStatus map "deseada").length,
            total := (machinesWithStatus map "resuelta").length +
              (machinesWithStatus map "deseada").length },
        error := none } ∧
    ((machinesWithStatus map "resuelta").length = 0 →
      (updateUserMachineStatus none none setItemOk storage userId 1 "resuelta").1.success =
        true →
      (getUserStats none
        (updateUserMachineStatus none none setItemOk storage userId 1 "resuelta").2
        userId).data.map (·.solved) = some 1) := by
  constructor
  · simp only [getUserStats, getUserStatsCatch, hmap]
    rw [count_status_eq map hkeys "resuelta", count_status_eq map hkeys "deseada"]
  · intro hzero hok
    simp only [updateUserMachineStatus, updateUserMachineStatusCatch, hmap] at hok ⊢
    cases setItemOk with
    | false => simp at hok
    | true =>
      simp only [if_true, getUserStats, getUserStatsCatch, parseItem_setItem, Option.map_some']
      have hnone : ∀ kv ∈ map, kv.2 ≠ "resuelta" := by
        rw [← count_status_eq map hkeys "resuelta", List.length_eq_zero,
          List.filter_eq_nil_iff] at hzero
        intro kv hkv
        simpa using hzero kv.2 (List.mem_map_of_mem (·.2) hkv)
      rw [count_propSet_resuelta map 1 hkeys hnone]

/-- Witness of C23: a user with machine 2 wanted and none solved marks machine 1 solved. -/
theorem getUserStats_fallback_counts_witness :
    (getUserStats none [("user_machines:u", Stored.json [(2, "deseada")])] "u").data =
      some { solved := 0, wanted := 1, total := 1 } ∧
    (getUserStats none
      (updateUserMachineStatus none none true
        [("user_machines:u", Stored.json [(2, "deseada")])] "u" 1 "resuelta").2
      "u").data.map (·.solved) = some 1 := by
  have h := getUserStats_fallback_counts [("user_machines:u", Stored.json [(2, "deseada")])]
    "u" [(2, "deseada")] true (by decide) (by decide)
  constructor
  · rw [h.1]
    decide
  · exact h.2 (by decide) (by decide)

/-! ## Order of the notes -/

set_option maxRecDepth 8000 in
/-- C24: with no backend client, `addNote` puts the note at the end of the stored list and
`getMachineNotes` returns the stored list as it stands, so the notes reach `displayNotes` in
the order they were added: a note at 05:00 added before a note at 01:00 is listed first, and
the list is not in ascending order of timestamp. -/
theorem getMachineNotes_fallback_insertion_order :
    (∀ (storage : LocalStorage (List Note)) (userId : String) (machineId : Nat)
        (list : List Note) (id : String) (noteData : NoteData),
      parseItem storage (notesKey userId machineId) [] = some list →
      getMachineNotes none (addNote none true id storage userId machineId noteData).2
          userId machineId =
        { success := true,
          data := some (list ++ [{ id := id, name := noteData.name, content := noteData.content,
                                   timestamp := noteData.timestamp }]),
          error := none }) ∧
    loadNotes (getMachineNotes none
      (addNote none true "b"
        (addNote none true "a" [] "u" 1
          { name := "end", content := "root shell", timestamp := "05:00" }).2
        "u" 1 { name := "start", content := "port scan", timestamp := "01:00" }).2 "u" 1) =
      some [ { id := "a", name := "end", content := "root shell", timestamp := "05:00" },
             { id := "b", name := "start", content := "port scan", timestamp := "01:00" } ] ∧
    timestampSeconds "05:00" = some 300 ∧ timestampSeconds "01:00" = some 60 ∧
    ¬ AscendingTimestamps
      [ { id := "a", name := "end", content := "root shell", timestamp := "05:00" },
        { id := "b", name := "start", content := "port scan", timestamp := "01:00" } ] := by
  refine ⟨?_, by decide, by decide, by decide, by decide⟩
  intro storage userId machineId list id noteData hp
  simp [getMachineNotes, getMachineNotesCatch, addNote, addNoteCatch, hp, parseItem_setItem]

/-! ## Properties of the calendar grid -/

/-- C25: for a weekday index `w` of the first of the month from 0 (Sunday) to 6, the full
calendar and the mini calendar of the class put `(w + 6) mod 7` empty cells before day 1, the
standalone function's `blanks` is the same number, and that number is the Monday-first column
of `w`: 6 for Sunday, `w - 1` for the other days, so 0 for Monday. -/
theorem firstWeekday_monday_first (w : Nat) (hw : w ≤ 6) :
    firstWeekday w = (w + 6) % 7 ∧ firstWeekdayMini w = (w + 6) % 7 ∧
    blanks w = (firstWeekday w : Int) ∧
    firstWeekday w = [6, 0, 1, 2, 3, 4, 5].getD w 0 ∧
    firstWeekday 1 = 0 ∧ firstWeekday 0 = 6 := by
  have hcases : w = 0 ∨ w = 1 ∨ w = 2 ∨ w = 3 ∨ w = 4 ∨ w = 5 ∨ w = 6 := by omega
  rcases hcases with h | h | h | h | h | h | h <;> subst h <;> decide

/-- Witness of C25 at Saturday (6): five empty cells in the three renderings. -/
theorem firstWeekday_monday_first_witness :
    firstWeekday 6 = 5 ∧ firstWeekdayMini 6 = 5 ∧ blanks 6 = 5 := by
  have h := firstWeekday_monday_first 6 (by decide)
  exact ⟨h.1, h.2.1, by decide⟩

/-! ## Properties of the day view -/

/-- `setDate` with the day after the date's own gives the next day. -/
theorem setDate_succ (d : JSDate) (hv : d.Valid) :
    setDate d ((d.day : Int) + 1) = nextDay d := by
  obtain ⟨hm, hd1, hd2, _⟩ := hv
  have h1 : (d.month : Int) / 12 = 0 := by omega
  have h2 : ((d.month : Int) % 12).toNat = d.month := by omega
  have h3 : (0 : Int) ≤ (d.day : Int) + 1 - 1 := by omega
  have h4 : ((d.day : Int) + 1 - 1).toNat = (d.day - 1) + 1 := by omega
  unfold setDate makeDay addDays
  rw [if_pos h3, h1, h2, h4, Function.iterate_succ_apply', add_zero,
    iterate_nextDay d.year d.month d.ms (d.day - 1) 1 (by omega)]
  have h5 : 1 + (d.day - 1) = d.day := by omega
  rw [h5]

/-- `setDate` with the day before the date's own gives the previous day. -/
theorem setDate_pred (d : JSDate) (hv : d.Valid) :
    setDate d ((d.day : Int) - 1) = prevDay d := by
  obtain ⟨hm, hd1, hd2, _⟩ := hv
  have h1 : (d.month : Int) / 12 = 0 := by omega
  have h2 : ((d.month : Int) % 12).toNat = d.month := by omega
  unfold setDate makeDay addDays
  rw [h1, h2, add_zero]
  by_cases hone : d.day = 1
  · have h3 : ¬ (0 : Int) ≤ (d.day : Int) - 1 - 1 := by omega
    have h4 : (-((d.day : Int) - 1 - 1)).toNat = 1 := by omega
    rw [if_neg h3, h4, Function.iterate_one]
    congr 1
    cases d
    simp only at hone
    subst hone
    rfl
  · have h3 : (0 : Int) ≤ (d.day : Int) - 1 - 1 := by omega
    have h4 : ((d.day : Int) - 1 - 1).toNat = d.day - 2 := by omega
    rw [if_pos h3, h4, iterate_nextDay d.year d.month d.ms (d.day - 2) 1 (by omega)]
    have h5 : 1 < d.day := by omega
    have h6 : 1 + (d.day - 2) = d.day - 1 := by omega
    unfold prevDay
    rw [if_pos h5, h6]

/-- The day before the day after a date is the date. -/
theorem prevDay_nextDay (d : JSDate) (hv : d.Valid) : prevDay (nextDay d) = d := by
  obtain ⟨hm, hd1, hd2, _⟩ := hv
  cases d with
  | mk y m dd ms =>
    simp only at hm hd1 hd2
    unfold nextDay
    by_cases h1 : dd < daysInMonth y m
    · simp only [h1, if_true, prevDay]
      have : 1 < dd + 1 := by omega
      simp [this]
    · have hdd : dd = daysInMonth y m := by omega
      by_cases h2 : m < 11
      · simp only [h1, if_false, h2, if_true, prevDay, lt_self_iff_false]
        have : 0 < m + 1 := by omega
        simp [this, hdd]
      · have hm11 : m = 11 := by omega
        subst hm11
        simp only [h1, if_false, lt_self_iff_false, prevDay]
        have hd31 : dd = 31 := by rw [hdd]; rfl
        simp [hd31]

/-- The day after a date is a date. -/
theorem nextDay_valid (d : JSDate) (hv : d.Valid) : (nextDay d).Valid := by
  obtain ⟨hm, hd1, hd2, hms⟩ := hv
  unfold nextDay
  by_cases h1 : d.day < daysInMonth d.year d.month
  · rw [if_pos h1]
    exact ⟨hm, by simp, by simp; omega, hms⟩
  · rw [if_neg h1]
    by_cases h2 : d.month < 11
    · rw [if_pos h2]
      have := daysInMonth_bounds d.year (d.month + 1)
      exact ⟨by simp; omega, by simp, by simp; omega, hms⟩
    · rw [if_neg h2]
      have := daysInMonth_bounds (d.year + 1) 0
      exact ⟨by simp, by simp, by simp; omega, hms⟩

/-- One run of the next-day listener moves the day-view date to the following calendar day
and one run of the previous-day listener to the preceding one - also from the last day of a
month, to and from the leap day, and from 31 December to 1 January -; one after the other
they restore the date, and neither assigns `currentDate`. -/
theorem day_navigation_steps (cal : CalendarManager) (a b : Bool)
    (hv : cal.dayViewDate.Valid) :
    (nextDayListener cal a).dayViewDate = nextDay cal.dayViewDate ∧
    (prevDayListener cal a).dayViewDate = prevDay cal.dayViewDate ∧
    (prevDayListener (nextDayListener cal a) b).dayViewDate = cal.dayViewDate ∧
    (nextDayListener cal a).currentDate = cal.currentDate ∧
    (prevDayListener cal a).currentDate = cal.currentDate ∧
    (cal.dayViewDate.day < daysInMonth cal.dayViewDate.year cal.dayViewDate.month →
      (nextDayListener cal a).dayViewDate =
        { cal.dayViewDate with day := cal.dayViewDate.day + 1 }) ∧
    (cal.dayViewDate.day = daysInMonth cal.dayViewDate.year cal.dayViewDate.month →
      cal.dayViewDate.month < 11 →
      (nextDayListener cal a).dayViewDate =
        { cal.dayViewDate with month := cal.dayViewDate.month + 1, day := 1 }) ∧
    (cal.dayViewDate.day = 31 → cal.dayViewDate.month = 11 →
      (nextDayListener cal a).dayViewDate =
        { cal.dayViewDate with year := cal.dayViewDate.year + 1, month := 0, day := 1 }) ∧
    (1 < cal.dayViewDate.day →
      (prevDayListener cal a).dayViewDate =
        { cal.dayViewDate with day := cal.dayViewDate.day - 1 }) ∧
    (cal.dayViewDate.day = 1 → 0 < cal.dayViewDate.month →
      (prevDayListener cal a).dayViewDate =
        { cal.dayViewDate with
          month := cal.dayViewDate.month - 1,
          day := daysInMonth cal.dayViewDate.year (cal.dayViewDate.month - 1) }) ∧
    (cal.dayViewDate.day = 1 → cal.dayViewDate.month = 0 →
      (prevDayListener cal a).dayViewDate =
        { cal.dayViewDate with year := cal.dayViewDate.year - 1, month := 11, day := 31 }) := by
  have hn : (nextDayListener cal a).dayViewDate = nextDay cal.dayViewDate :=
    setDate_succ cal.dayViewDate hv
  have hp : (prevDayListener cal a).dayViewDate = prevDay cal.dayViewDate :=
    setDate_pred cal.dayViewDate hv
  have hpn : (prevDayListener (nextDayListener cal a) b).dayViewDate = cal.dayViewDate := by
    have h1 : (prevDayListener (nextDayListener cal a) b).dayViewDate =
        prevDay (nextDayListener cal a).dayViewDate :=
      setDate_pred _ (hn ▸ nextDay_valid _ hv)
    rw [h1, hn, prevDay_nextDay _ hv]
  refine ⟨hn, hp, hpn, rfl, rfl, ?_, ?_, ?_, ?_, ?_, ?_⟩
  · intro h
    rw [hn, nextDay, if_pos h]
  · intro h h2
    have h1 : ¬ cal.dayViewDate.day < daysInMonth cal.dayViewDate.year cal.dayViewDate.month := by
      omega
    rw [hn, nextDay, if_neg h1, if_pos h2]
  · intro h h2
    have h3 : daysInMonth cal.dayViewDate.year cal.dayViewDate.month = 31 := by
      rw [h2]; rfl
    have h1 : ¬ cal.dayViewDate.day < daysInMonth cal.dayViewDate.year cal.dayViewDate.month := by
      omega
    have h4 : ¬ cal.dayViewDate.month < 11 := by omega
    rw [hn, nextDay, if_neg h1, if_neg h4]
  · intro h
    rw [hp, prevDay, if_pos h]
  · intro h h2
    have h1 : ¬ 1 < cal.dayViewDate.day := by omega
    rw [hp, prevDay, if_neg h1, if_pos h2]
  · intro h h2
    have h1 : ¬ 1 < cal.dayViewDate.day := by omega
    have h3 : ¬ 0 < cal.dayViewDate.month := by omega
    rw [hp, prevDay, if_neg h1, if_neg h3]

/-- From 31 December 2024 one run of the next-day listener gives 1 January 2025, and from
1 March 2024 one run of the previous-day listener gives the leap day. -/
theorem day_navigation_steps_witness :
    (nextDayListener (CalendarManager.new { year := 2024, month := 11, day := 31, ms := 0 })
      false).dayViewDate = { year := 2025, month := 0, day := 1, ms := 0 } ∧
    (prevDayListener (CalendarManager.new { year := 2024, month := 2, day := 1, ms := 0 })
      false).dayViewDate = { year := 2024, month := 1, day := 29, ms := 0 } := by
  have h1 := day_navigation_steps
    (CalendarManager.new { year := 2024, month := 11, day := 31, ms := 0 }) false false
    (by decide)
  have h2 := day_navigation_steps
    (CalendarManager.new { year := 2024, month := 2, day := 1, ms := 0 }) false false
    (by decide)
  exact ⟨h1.2.2.2.2.2.2.2.1 rfl rfl, h2.2.2.2.2.2.2.2.2.2.1 rfl (by decide)⟩

set_option maxRecDepth 8000 in
/-- C26: on a page with the day buttons and the full calendar, the constructor leaves two
listeners on `#next-day`, and three once the month's entries have been loaded for a signed-in
user, because `renderFullCalendar` ends with a call of `setupEventListeners`; a click runs
every one of them. With the day view on 31 December 2024, one click on `#next-day` shows
3 January 2025 (2 January with no user signed in), not 1 January, and one click on
`#prev-day` shows 28 December; a click on `#next-day` followed by one on `#prev-day` restores
the date, and `currentDate` is not changed. -/
theorem clickNextDay_runs_every_listener :
    (∀ (dateParse : String → Option JSDate) (now : JSDate) (user : Option User)
        (answer : ScheduleAnswer),
      2 ≤ (CalendarPage.new dateParse now true true user answer).dayListeners) ∧
    (CalendarPage.new (fun _ => none) ⟨2024, 11, 31, 0⟩ true true (some ⟨"u1"⟩)
      (.success (some []))).dayListeners = 3 ∧
    (clickNextDay (CalendarPage.new (fun _ => none) ⟨2024, 11, 31, 0⟩ true true (some ⟨"u1"⟩)
      (.success (some []))) false).cal.dayViewDate = ⟨2025, 0, 3, 0⟩ ∧
    (clickNextDay (CalendarPage.new (fun _ => none) ⟨2024, 11, 31, 0⟩ true true none
      .failure) false).cal.dayViewDate = ⟨2025, 0, 2, 0⟩ ∧
    nextDay ⟨2024, 11, 31, 0⟩ = ⟨2025, 0, 1, 0⟩ ∧
    (clickPrevDay (CalendarPage.new (fun _ => none) ⟨2024, 11, 31, 0⟩ true true (some ⟨"u1"⟩)
      (.success (some []))) false).cal.dayViewDate = ⟨2024, 11, 28, 0⟩ ∧
    (clickPrevDay (clickNextDay
      (CalendarPage.new (fun _ => none) ⟨2024, 11, 31, 0⟩ true true (some ⟨"u1"⟩)
        (.success (some []))) false) false).cal.dayViewDate = ⟨2024, 11, 31, 0⟩ ∧
    (clickNextDay (CalendarPage.new (fun _ => none) ⟨2024, 11, 31, 0⟩ true true (some ⟨"u1"⟩)
      (.success (some []))) false).cal.currentDate = ⟨2024, 11, 31, 0⟩ := by
  refine ⟨?_, by decide, by decide, by decide, by decide, by decide, by decide, by decide⟩
  intro dateParse now user answer
  simp only [CalendarPage.new, loadScheduledMachinesPage, renderFullCalendar,
    setupEventListeners, if_true]
  split <;> simp

/-! ## Idempotence of the trophy unlock set -/

/-- A pass that adds only ids already present leaves the set as it is. -/
theorem foldl_setAdd_present (p : Trophy → Bool) (l : List Trophy) (U : List String)
    (h : ∀ t ∈ l, p t = true → t.id ∈ U) :
    l.foldl (fun acc trophy => if p trophy then setAdd acc trophy.id else acc) U = U := by
  induction l with
  | nil => rfl
  | cons t l ih =>
    rw [List.foldl_cons]
    have ht : (if p t = true then setAdd U t.id else U) = U := by
      by_cases hp : p t = true
      · have hmem := h t (List.mem_cons_self t l) hp
        simp [hp, setAdd, hmem]
      · simp [hp]
    rw [ht]
    exact ih (fun t' ht' hp' => h t' (List.mem_cons_of_mem t ht') hp')

/-- C27: running `calculateUnlockedTrophies` a second time on its own result, with the same
statistics, changes nothing: the unlocked set (and the whole state) is the one after the
first run, for every catalog, starting set and solved count. -/
theorem calculateUnlockedTrophies_idempotent (s : TrophiesManager) :
    calculateUnlockedTrophies (calculateUnlockedTrophies s) = calculateUnlockedTrophies s := by
  cases hst : s.userStats with
  | none => simp [calculateUnlockedTrophies, hst]
  | some stats =>
    have h1 : calculateUnlockedTrophies s =
        { s with
          userTrophies := s.trophies.foldl
            (fun acc trophy =>
              if unlockedBySwitch stats.solved trophy then setAdd acc trophy.id else acc)
            s.userTrophies } := by
      simp [calculateUnlockedTrophies, hst]
    rw [h1]
    simp only [calculateUnlockedTrophies, hst]
    congr 1
    apply foldl_setAdd_present
    intro t ht hp
    exact (mem_foldl_setAdd _ _ _ _).mpr (Or.inr ⟨t, ht, hp, rfl⟩)

/-! ## The confirmation before a solved write -/

/-- C28: when the confirmation is declined, neither the solved checkbox handler nor the modal
button makes a gateway write, so every stored status is what it was; and the checkbox handler,
which asks for the confirmation when a user is signed in and the box was just checked,
unchecks the box. -/
theorem solved_declined_no_write (user : Option User) (machineId : String) (target : Checkbox)
    (currentMachine : Option Machine) (card : Option Checkbox) (gatewayOk : Bool)
    (store : StatusStore) :
    (handleSolvedChange user machineId target false gatewayOk).writes = [] ∧
    (markSolvedClick user currentMachine card false gatewayOk).writes = [] ∧
    applyWrites store (handleSolvedChange user machineId target false gatewayOk).writes = store ∧
    applyWrites store (markSolvedClick user currentMachine card false gatewayOk).writes = store ∧
    (markSolvedClick user currentMachine card false gatewayOk).card = card ∧
    (user.isSome = true → target.checked = true →
      (handleSolvedChange user machineId target false gatewayOk).checkbox.checked = false) := by
  have h1 : (handleSolvedChange user machineId target false gatewayOk).writes = [] := by
    unfold handleSolvedChange
    cases user with
    | none => rfl
    | some u => cases hc : target.checked <;> simp
  have h2 : (markSolvedClick user currentMachine card false gatewayOk).writes = [] ∧
      (markSolvedClick user currentMachine card false gatewayOk).card = card := by
    unfold markSolvedClick
    cases user <;> cases currentMachine <;> simp
  refine ⟨h1, h2.1, ?_, ?_, h2.2, ?_⟩
  · rw [h1]; rfl
  · rw [h2.1]; rfl
  · intro hu hc
    cases user with
    | none => simp at hu
    | some u => simp [handleSolvedChange, hc]

/-- Witness of C28: a signed-in user checks the solved box of machine 1 and declines. -/
theorem solved_declined_no_write_witness :
    (handleSolvedChange (some { id := "u" }) "1" { checked := true, disabled := false }
      false true).writes = [] ∧
    (handleSolvedChange (some { id := "u" }) "1" { checked := true, disabled := false }
      false true).checkbox.checked = false := by
  have h := solved_declined_no_write (some { id := "u" }) "1"
    { checked := true, disabled := false } none none true []
  exact ⟨h.1, h.2.2.2.2.2 rfl rfl⟩

/-! ## Frame of `unscheduleMachineById` -/

/-- In a list with distinct ids, splicing out the first element with the id leaves the
elements with another id. -/
theorem findIndex_eraseIdx (eid : String) (arr : List ScheduledEntry)
    (hnd : (arr.map (·.id.toJSString)).Nodup) :
    (match findIndex (fun it => decide (it.id.toJSString = eid)) arr with
      | none => arr
      | some idx => arr.eraseIdx idx) =
      arr.filter (fun it => !decide (it.id.toJSString = eid)) := by
  induction arr with
  | nil => rfl
  | cons a l ih =>
    rw [List.map_cons, List.nodup_cons] at hnd
    by_cases ha : a.id.toJSString = eid
    · have hl : l.filter (fun it => !decide (it.id.toJSString = eid)) = l := by
        rw [List.filter_eq_self]
        intro x hx
        have : x.id.toJSString ≠ eid := by
          intro hxe
          exact hnd.1 (List.mem_map.mpr ⟨x, hx, hxe.trans ha.symm⟩)
        simp [this]
      simp [findIndex, ha, hl]
    · have ih' := ih hnd.2
      simp only [findIndex, ha, decide_False, Bool.false_eq_true, if_false, List.filter,
        ne_eq, not_false_eq_true, decide_True]
      cases hf : findIndex (fun it => decide (it.id.toJSString = eid)) l with
      | none =>
        rw [hf] at ih'
        simp only [Option.map_none']
        rw [← ih']
        rfl
      | some idx =>
        rw [hf] at ih'
        simp only [Option.map_some', List.eraseIdx_cons_succ]
        rw [← ih']
        rfl

/-- The visit of a non-empty list with distinct ids keeps the elements with another id, and
drops the key when none is left. -/
theorem unscheduleVisit_eq_filter (eid : String) (kv : String × List ScheduledEntry)
    (hne : kv.2 ≠ []) (hnd : (kv.2.map (·.id.toJSString)).Nodup) :
    unscheduleVisit eid kv =
      if kv.2.filter (fun it => !decide (it.id.toJSString = eid)) = [] then none
      else some (kv.1, kv.2.filter (fun it => !decide (it.id.toJSString = eid))) := by
  have h := findIndex_eraseIdx eid kv.2 hnd
  unfold unscheduleVisit
  cases hf : findIndex (fun it => decide (it.id.toJSString = eid)) kv.2 with
  | none =>
    rw [hf] at h
    simp only at h
    rw [← h, if_neg hne]
  | some idx =>
    rw [hf] at h
    simp only at h
    simp only [← h, List.length_eq_zero]

/-- The list of a key is a part of the list of all entries. -/
theorem bucket_sublist_allEntries (m : ScheduledMap) (kv : String × List ScheduledEntry)
    (hkv : kv ∈ m) : kv.2.Sublist (allEntries m) := by
  induction m with
  | nil => simp at hkv
  | cons a l ih =>
    unfold allEntries
    rw [List.flatMap_cons]
    rcases List.mem_cons.mp hkv with h | h
    · subst h
      exact List.sublist_append_left _ _
    · exact (ih h).trans (List.sublist_append_right _ _)

/-- The entries left by the visits are the entries with another id. -/
theorem allEntries_filterMap (eid : String) (m : ScheduledMap) :
    allEntries (m.filterMap (fun kv =>
      if kv.2.filter (fun it => !decide (it.id.toJSString = eid)) = [] then none
      else some (kv.1, kv.2.filter (fun it => !decide (it.id.toJSString = eid))))) =
      (allEntries m).filter (fun it => !decide (it.id.toJSString = eid)) := by
  induction m with
  | nil => rfl
  | cons a l ih =>
    unfold allEntries at ih ⊢
    rw [List.flatMap_cons, List.filter_append, List.filterMap_cons]
    by_cases h : a.2.filter (fun it => !decide (it.id.toJSString = eid)) = []
    · simp only [h, if_true, List.nil_append]
      exact ih
    · simp only [h, if_false, List.flatMap_cons]
      rw [ih]

/-- The map after the visits, in a map with distinct keys, no empty list and distinct ids. -/
theorem filterMap_unscheduleVisit (eid : String) (m : ScheduledMap) (he : NoEmptyBucket m)
    (hd : ((allEntries m).map (·.id.toJSString)).Nodup) :
    m.filterMap (unscheduleVisit eid) =
      m.filterMap (fun kv =>
        if kv.2.filter (fun it => !decide (it.id.toJSString = eid)) = [] then none
        else some (kv.1, kv.2.filter (fun it => !decide (it.id.toJSString = eid)))) := by
  apply List.filterMap_congr
  intro kv hkv
  exact unscheduleVisit_eq_filter eid kv (he kv hkv)
    (List.Nodup.sublist ((bucket_sublist_allEntries m kv hkv).map _) hd)

/-- The list under a key after the visits. -/
theorem mapGet_filterMap_filter (eid : String) (m : ScheduledMap) (hk : NodupKeys m)
    (key : String) :
    (mapGet (m.filterMap (fun kv =>
      if kv.2.filter (fun it => !decide (it.id.toJSString = eid)) = [] then none
      else some (kv.1, kv.2.filter (fun it => !decide (it.id.toJSString = eid))))) key).getD [] =
      ((mapGet m key).getD []).filter (fun it => !decide (it.id.toJSString = eid)) ∧
    (mapHas (m.filterMap (fun kv =>
      if kv.2.filter (fun it => !decide (it.id.toJSString = eid)) = [] then none
      else some (kv.1, kv.2.filter (fun it => !decide (it.id.toJSString = eid))))) key = true ↔
      ((mapGet m key).getD []).filter (fun it => !decide (it.id.toJSString = eid)) ≠ []) := by
  induction m with
  | nil => simp [mapGet, mapHas]
  | cons a l ih =>
    have hnd := List.nodup_cons.mp hk
    have ih' := ih hnd.2
    rw [List.filterMap_cons]
    by_cases hak : a.1 = key
    · have hl : ∀ kv ∈ l, kv.1 ≠ key := by
        intro kv hkv heq
        exact hnd.1 (List.mem_map.mpr ⟨kv, hkv, heq.trans hak.symm⟩)
      have hl' : ∀ kv' ∈ l.filterMap (fun kv =>
          if kv.2.filter (fun it => !decide (it.id.toJSString = eid)) = [] then none
          else some (kv.1, kv.2.filter (fun it => !decide (it.id.toJSString = eid)))),
          kv'.1 ≠ key := by
        intro kv' hkv'
        obtain ⟨kv, hkv, hg⟩ := List.mem_filterMap.mp hkv'
        by_cases hf : kv.2.filter (fun it => !decide (it.id.toJSString = eid)) = []
        · simp [hf] at hg
        · simp only [hf, if_false, Option.some.injEq] at hg
          rw [← hg]
          exact hl kv hkv
      have hget : mapGet (a :: l) key = some a.2 := by
        simp [mapGet, List.find?, hak]
      rw [hget]
      by_cases hf : a.2.filter (fun it => !decide (it.id.toJSString = eid)) = []
      · simp only [hf, if_true, Option.getD_some]
        rw [mapGet_none _ key hl']
        refine ⟨rfl, ?_⟩
        rw [(mapHas_eq_false _ key).mpr hl']
        simp
      · simp only [hf, if_false, Option.getD_some]
        constructor
        · simp [mapGet, List.find?, hak]
        · simp [mapHas, hak, hf]
    · have hget : mapGet (a :: l) key = mapGet l key := by
        simp [mapGet, List.find?, hak]
      rw [hget]
      by_cases hf : a.2.filter (fun it => !decide (it.id.toJSString = eid)) = []
      · simp only [hf, if_true]
        exact ih'
      · simp only [hf, if_false]
        constructor
        · rw [← ih'.1]
          simp [mapGet, List.find?, hak]
        · rw [← ih'.2]
          simp [mapHas, hak]

/-- In a list with distinct ids, the entries with another id than that of `e` are the
entries other than `e`. -/
theorem filter_id_eq_erase (eid : String) (l : List ScheduledEntry)
    (hd : (l.map (·.id.toJSString)).Nodup) (e : ScheduledEntry) (he : e ∈ l)
    (hid : e.id.toJSString = eid) :
    l.filter (fun it => !decide (it.id.toJSString = eid)) = l.erase e := by
  rw [List.Nodup.erase_eq_filter (List.Nodup.of_map _ hd)]
  apply List.filter_congr
  intro x hx
  by_cases hxe : x = e
  · subst hxe
    simp [hid]
  · have : x.id.toJSString ≠ eid := by
      intro h
      exact hxe (List.inj_on_of_nodup_map hd hx he (h.trans hid.symm))
    simp [this, hxe]

/-- C29: in a state reached from the constructor whose entries have pairwise distinct ids
(as strings), a successful `unscheduleMachineById(id)` leaves under every date key the
entries it had with another id, in their order; the keys of the map afterwards are those
that still have such an entry; and when an entry has the id, the entries afterwards are the
entries before without that one entry. -/
theorem unscheduleMachineById_frame (dateParse : String → Option JSDate) (now : JSDate)
    (events : List CalendarEvent) (user : User) (eid : String) (hid : eid ≠ "")
    (hd : ((allEntries ((CalendarManager.new now).run dateParse events).scheduledMachines).map
      (·.id.toJSString)).Nodup) :
    (∀ key : String,
      (mapGet (unscheduleMachineById ((CalendarManager.new now).run dateParse events)
        (some user) (some eid) .success).scheduledMachines key).getD [] =
      ((mapGet ((CalendarManager.new now).run dateParse events).scheduledMachines key).getD
        []).filter (fun it => !decide (it.id.toJSString = eid))) ∧
    (∀ key : String,
      mapHas (unscheduleMachineById ((CalendarManager.new now).run dateParse events)
        (some user) (some eid) .success).scheduledMachines key = true ↔
      ((mapGet ((CalendarManager.new now).run dateParse events).scheduledMachines key).getD
        []).filter (fun it => !decide (it.id.toJSString = eid)) ≠ []) ∧
    (∀ e ∈ allEntries ((CalendarManager.new now).run dateParse events).scheduledMachines,
      e.id.toJSString = eid →
      allEntries (unscheduleMachineById ((CalendarManager.new now).run dateParse events)
        (some user) (some eid) .success).scheduledMachines =
        (allEntries ((CalendarManager.new now).run dateParse events).scheduledMachines).erase e ∧
      (allEntries (unscheduleMachineById ((CalendarManager.new now).run dateParse events)
        (some user) (some eid) .success).scheduledMachines).length + 1 =
        (allEntries ((CalendarManager.new now).run dateParse events).scheduledMachines).length) ∧
    ((∀ e ∈ allEntries ((CalendarManager.new now).run dateParse events).scheduledMachines,
        e.id.toJSString ≠ eid) →
      (unscheduleMachineById ((CalendarManager.new now).run dateParse events)
        (some user) (some eid) .success).scheduledMachines =
        ((CalendarManager.new now).run dateParse events).scheduledMachines) := by
  obtain ⟨hk, he⟩ := run_inv dateParse now events
  generalize (CalendarManager.new now).run dateParse events = cal at hk he hd
  have hm : (unscheduleMachineById cal (some user) (some eid) .success).scheduledMachines =
      cal.scheduledMachines.filterMap (fun kv =>
        if kv.2.filter (fun it => !decide (it.id.toJSString = eid)) = [] then none
        else some (kv.1, kv.2.filter (fun it => !decide (it.id.toJSString = eid)))) := by
    simp only [unscheduleMachineById, hid, if_false]
    exact filterMap_unscheduleVisit eid _ he hd
  rw [hm]
  refine ⟨fun key => (mapGet_filterMap_filter eid _ hk key).1,
    fun key => (mapGet_filterMap_filter eid _ hk key).2, ?_, ?_⟩
  · intro e hmem heid
    rw [allEntries_filterMap, filter_id_eq_erase eid _ hd e hmem heid]
    refine ⟨rfl, ?_⟩
    rw [List.length_erase_of_mem hmem]
    have : 0 < (allEntries cal.scheduledMachines).length := List.length_pos_of_mem hmem
    omega
  · intro hall
    rw [← hm]
    simp only [unscheduleMachineById, hid, if_false]
    conv_rhs => rw [← List.filterMap_some cal.scheduledMachines]
    apply List.filterMap_congr
    intro kv hkv
    have hnone : findIndex (fun it => decide (it.id.toJSString = eid)) kv.2 = none := by
      have hb : ∀ x ∈ kv.2, x.id.toJSString ≠ eid := fun x hx =>
        hall x ((bucket_sublist_allEntries _ kv hkv).subset hx)
      generalize kv.2 = arr at hb
      induction arr with
      | nil => rfl
      | cons a l ih =>
        have ha := hb a (List.mem_cons_self a l)
        simp only [findIndex, ha, decide_False, Bool.false_eq_true, if_false,
          ih (fun x hx => hb x (List.mem_cons_of_mem a hx)), Option.map_none']
    simp [unscheduleVisit, hnone]

/-- Witness of C29: entries 7 and 8 are loaded on 2025-03-10 and entry 9 on 2025-03-11; after
entry 7 is unscheduled the first day holds entry 8 and the second day entry 9. -/
theorem unscheduleMachineById_frame_witness :
    (mapGet (unscheduleMachineById
      ((CalendarManager.new ⟨2025, 2, 10, 0⟩).run (fun _ => none)
        [.load (some ⟨"u1"⟩) (.success (some
          [⟨.num 7, 1, some "2025-03-10", none⟩, ⟨.num 8, 2, some "2025-03-10", none⟩,
           ⟨.num 9, 1, some "2025-03-11", none⟩]))])
      (some ⟨"u1"⟩) (some "7") .success).scheduledMachines "2025-03-10").getD [] =
      [⟨.num 8, 2, some "2025-03-10", none⟩] ∧
    (mapGet (unscheduleMachineById
      ((CalendarManager.new ⟨2025, 2, 10, 0⟩).run (fun _ => none)
        [.load (some ⟨"u1"⟩) (.success (some
          [⟨.num 7, 1, some "2025-03-10", none⟩, ⟨.num 8, 2, some "2025-03-10", none⟩,
           ⟨.num 9, 1, some "2025-03-11", none⟩]))])
      (some ⟨"u1"⟩) (some "7") .success).scheduledMachines "2025-03-11").getD [] =
      [⟨.num 9, 1, some "2025-03-11", none⟩] := by
  have h := unscheduleMachineById_frame (fun _ => none) ⟨2025, 2, 10, 0⟩
    [.load (some ⟨"u1"⟩) (.success (some
      [⟨.num 7, 1, some "2025-03-10", none⟩, ⟨.num 8, 2, some "2025-03-10", none⟩,
       ⟨.num 9, 1, some "2025-03-11", none⟩]))]
    ⟨"u1"⟩ "7" (by decide) (by decide)
  constructor
  · rw [h.1 "2025-03-10"]
    decide
  · rw [h.1 "2025-03-11"]
    decide

/-! ## Properties of the tally by difficulty -/

/-- One machine adds at most one to the sum of the counts. -/
theorem countDifficulty_sum_le (lower : String → String) (c : DifficultyCounts)
    (d : Option String) : (countDifficulty lower c d).sum ≤ c.sum + 1 := by
  simp only [countDifficulty, DifficultyCounts.sum]
  split_ifs
  all_goals (try dsimp only)
  all_goals omega

/-- The sum of the counts after a tally started from `c`. -/
theorem foldl_countDifficulty_sum_le (lower : String → String) (ds : List (Option String))
    (c : DifficultyCounts) :
    (ds.foldl (countDifficulty lower) c).sum ≤ c.sum + ds.length := by
  induction ds generalizing c with
  | nil => simp
  | cons d l ih =>
    rw [List.foldl_cons, List.length_cons]
    have h1 := ih (countDifficulty lower c d)
    have h2 := countDifficulty_sum_le lower c d
    omega

/-- The count of a machine is added to the counts so far. -/
theorem countDifficulty_add (lower : String → String) (c : DifficultyCounts)
    (d : Option String) :
    countDifficulty lower c d =
      { Facil := c.Facil +
          (countDifficulty lower { Facil := 0, Media := 0, Dificil := 0, Insane := 0 } d).Facil,
        Media := c.Media +
          (countDifficulty lower { Facil := 0, Media := 0, Dificil := 0, Insane := 0 } d).Media,
        Dificil := c.Dificil +
          (countDifficulty lower { Facil := 0, Media := 0, Dificil := 0, Insane := 0 } d).Dificil,
        Insane := c.Insane +
          (countDifficulty lower { Facil := 0, Media := 0, Dificil := 0, Insane := 0 } d).Insane } := by
  simp only [countDifficulty]
  split_ifs <;> simp

/-- The tally of machines with catalog difficulties, started from `c`. -/
theorem foldl_countDifficulty_catalog (ds : List String)
    (hcat : ∀ d ∈ ds, d ∈ ["Muy Fácil", "Fácil", "Media", "Difícil", "Insane"])
    (c : DifficultyCounts) :
    (ds.map some).foldl (countDifficulty toLowerCase) c =
      { Facil := c.Facil + (ds.filter (fun d => decide (d = "Muy Fácil" ∨ d = "Fácil"))).length,
        Media := c.Media + (ds.filter (fun d => decide (d = "Media"))).length,
        Dificil := c.Dificil + (ds.filter (fun d => decide (d = "Difícil"))).length,
        Insane := c.Insane + (ds.filter (fun d => decide (d = "Insane"))).length } := by
  induction ds generalizing c with
  | nil => simp
  | cons d l ih =>
    rw [List.map_cons, List.foldl_cons, ih (fun x hx => hcat x (List.mem_cons_of_mem d hx)),
      countDifficulty_add]
    have hd := hcat d (List.mem_cons_self d l)
    simp only [List.mem_cons, List.mem_singleton, List.not_mem_nil, or_false] at hd
    have e1 : countDifficulty toLowerCase { Facil := 0, Media := 0, Dificil := 0, Insane := 0 }
        (some "Muy Fácil") = { Facil := 1, Media := 0, Dificil := 0, Insane := 0 } := by decide
    have e2 : countDifficulty toLowerCase { Facil := 0, Media := 0, Dificil := 0, Insane := 0 }
        (some "Fácil") = { Facil := 1, Media := 0, Dificil := 0, Insane := 0 } := by decide
    have e3 : countDifficulty toLowerCase { Facil := 0, Media := 0, Dificil := 0, Insane := 0 }
        (some "Media") = { Facil := 0, Media := 1, Dificil := 0, Insane := 0 } := by decide
    have e4 : countDifficulty toLowerCase { Facil := 0, Media := 0, Dificil := 0, Insane := 0 }
        (some "Difícil") = { Facil := 0, Media := 0, Dificil := 1, Insane := 0 } := by decide
    have e5 : countDifficulty toLowerCase { Facil := 0, Media := 0, Dificil := 0, Insane := 0 }
        (some "Insane") = { Facil := 0, Media := 0, Dificil := 0, Insane := 1 } := by decide
    rcases hd with h | h | h | h | h <;> subst h
    · rw [e1]
      simp [List.filter]
      omega
    · rw [e2]
      simp [List.filter]
      omega
    · rw [e3]
      simp [List.filter]
      omega
    · rw [e4]
      simp [List.filter]
      omega
    · rw [e5]
      simp [List.filter]
      omega

/-- Each catalog difficulty is counted by exactly one of the four filters. -/
theorem catalog_partition (ds : List String)
    (hcat : ∀ d ∈ ds, d ∈ ["Muy Fácil", "Fácil", "Media", "Difícil", "Insane"]) :
    (ds.filter (fun d => decide (d = "Muy Fácil" ∨ d = "Fácil"))).length +
      (ds.filter (fun d => decide (d = "Media"))).length +
      (ds.filter (fun d => decide (d = "Difícil"))).length +
      (ds.filter (fun d => decide (d = "Insane"))).length = ds.length := by
  induction ds with
  | nil => rfl
  | cons d l ih =>
    have ih' := ih (fun x hx => hcat x (List.mem_cons_of_mem d hx))
    simp only [Bool.decide_or] at ih'
    have hd := hcat d (List.mem_cons_self d l)
    simp only [List.mem_cons, List.mem_singleton, List.not_mem_nil, or_false] at hd
    rcases hd with h | h | h | h | h <;> subst h
    · simp [List.filter]
      omega
    · simp [List.filter]
      omega
    · simp [List.filter]
      omega
    · simp [List.filter]
      omega
    · simp [List.filter]
      omega

set_option maxRecDepth 8000 in
/-- C30: the tally puts `Muy Fácil` and `Fácil` into `Facil`, `Media` into `Media`,
`Difícil` into `Dificil` and `Insane` into `Insane`, one bucket each; for solved machines
with catalog difficulties each count is the number of machines of its difficulties and the
four counts sum to the number of machines; for any difficulties and any lower-casing the sum
is at most the number of machines; and the answer of `getSolvedByDifficulty` from the backend
rows is that tally. -/
theorem tallyDifficulties_catalog (ds : List String)
    (hcat : ∀ d ∈ ds, d ∈ ["Muy Fácil", "Fácil", "Media", "Difícil", "Insane"])
    (lower : String → String) (others : List (Option String)) :
    tallyDifficulties toLowerCase [some "Muy Fácil"] =
      { Facil := 1, Media := 0, Dificil := 0, Insane := 0 } ∧
    tallyDifficulties toLowerCase [some "Fácil"] =
      { Facil := 1, Media := 0, Dificil := 0, Insane := 0 } ∧
    tallyDifficulties toLowerCase [some "Media"] =
      { Facil := 0, Media := 1, Dificil := 0, Insane := 0 } ∧
    tallyDifficulties toLowerCase [some "Difícil"] =
      { Facil := 0, Media := 0, Dificil := 1, Insane := 0 } ∧
    tallyDifficulties toLowerCase [some "Insane"] =
      { Facil := 0, Media := 0, Dificil := 0, Insane := 1 } ∧
    tallyDifficulties toLowerCase (ds.map some) =
      { Facil := (ds.filter (fun d => decide (d = "Muy Fácil" ∨ d = "Fácil"))).length,
        Media := (ds.filter (fun d => decide (d = "Media"))).length,
        Dificil := (ds.filter (fun d => decide (d = "Difícil"))).length,
        Insane := (ds.filter (fun d => decide (d = "Insane"))).length } ∧
    (tallyDifficulties toLowerCase (ds.map some)).sum = ds.length ∧
    (tallyDifficulties lower others).sum ≤ others.length ∧
    (∀ (storage : LocalStorage StatusObject) (userId : String) (id : Nat) (ids : List Nat)
        (machines : List DifficultyRow),
      (getSolvedByDifficulty
        (some (.answered (some (id :: ids)) none, fun _ => .answered (some machines) none))
        storage userId).data =
        some (tallyDifficulties toLowerCase (machines.map (·.difficulty)))) := by
  have htally : tallyDifficulties toLowerCase (ds.map some) =
      { Facil := (ds.filter (fun d => decide (d = "Muy Fácil" ∨ d = "Fácil"))).length,
        Media := (ds.filter (fun d => decide (d = "Media"))).length,
        Dificil := (ds.filter (fun d => decide (d = "Difícil"))).length,
        Insane := (ds.filter (fun d => decide (d = "Insane"))).length } := by
    unfold tallyDifficulties
    rw [foldl_countDifficulty_catalog ds hcat]
    simp
  refine ⟨by decide, by decide, by decide, by decide, by decide, htally, ?_, ?_, ?_⟩
  · rw [htally]
    exact catalog_partition ds hcat
  · have := foldl_countDifficulty_sum_le lower others
      { Facil := 0, Media := 0, Dificil := 0, Insane := 0 }
    simpa [tallyDifficulties, DifficultyCounts.sum] using this
  · intro storage userId id ids machines
    simp [getSolvedByDifficulty]

/-- Witness of C30: one solved machine of each catalog difficulty. -/
theorem tallyDifficulties_catalog_witness :
    tallyDifficulties toLowerCase
      (["Muy Fácil", "Fácil", "Media", "Difícil", "Insane"].map some) =
      { Facil := 2, Media := 1, Dificil := 1, Insane := 1 } ∧
    (tallyDifficulties toLowerCase
      (["Muy Fácil", "Fácil", "Media", "Difícil", "Insane"].map some)).sum = 5 := by
  have h := tallyDifficulties_catalog ["Muy Fácil", "Fácil", "Media", "Difícil", "Insane"]
    (fun d hd => hd) toLowerCase []
  refine ⟨?_, h.2.2.2.2.2.2.1⟩
  rw [h.2.2.2.2.2.1]
  decide

end HackerNet
